import Mathlib

/-!
# libeuler: explicit / theta-blended implicit Euler step and its Newton solver

A shallow embedding of `src/libnewton.c` and `src/libeuler.c`.

* Scalars (`double`, read as exact arithmetic) are the elements of an arbitrary linearly
  ordered commutative ring `R` (the reals; the integers and rationals give executable
  instances).
* `lapack_int` is `Int`; sizes index buffers through `Int.toNat`.
* A `double *` is the memory it can reach, `Buf R`; `ptr + k` is `Buf.shift`, and a
  write through `ptr + k` is put back with `Buf.unshift`.
* A callback receives the output memory and returns it after writing.
* `calloc` succeeds or fails as an oracle says; the level-1 BLAS routines have their
  reference semantics for unit stride; the 2-norm and the least-squares solve are
  parameters (`Backend`).
* Invocations of callbacks, allocations and releases are recorded in ghost logs.
-/

set_option autoImplicit false
set_option linter.unusedVariables false
set_option linter.unusedSectionVars false

namespace LibEuler

/-! ## Memory -/

/-- Memory reachable through a `double *`: entry `i` is `ptr[i]`. -/
abbrev Buf (R : Type) := Nat → R

/-- Memory reachable through the read-only input pointer `const double *u`, which the
stepper offsets by the signed `u_offset`: entry `i` is `u[i]`. -/
abbrev UBuf (R : Type) := Int → R

/-- The view `ptr + k` of a buffer. -/
def Buf.shift {R : Type} (b : Buf R) (k : Nat) : Buf R := fun i => b (k + i)

/-- The buffer `base` after the view `base + k` has become `v`. -/
def Buf.unshift {R : Type} (base : Buf R) (k : Nat) (v : Buf R) : Buf R :=
  fun i => if i < k then base i else v (i - k)

/-- The view `u + k` of the input buffer. -/
def UBuf.shift {R : Type} (u : UBuf R) (k : Int) : UBuf R := fun i => u (k + i)

/-- The buffer that holds the vector `v` in its first `N` entries and zero beyond. -/
def Buf.ofVec {R : Type} [Zero R] {N : Nat} (v : Fin N → R) : Buf R :=
  fun k => if h : k < N then v ⟨k, h⟩ else 0

/-- The first `n` entries of a buffer, as the list a reader of `n` entries sees. -/
def Buf.firstN {R : Type} (b : Buf R) (n : Int) : List R := (List.range n.toNat).map b

/-- Memory returned by a successful `calloc`: all zero. -/
def calloc {R : Type} [Zero R] : Buf R := fun _ => 0

/-! ## Level-1 BLAS, unit stride (every call of the library passes increment 1) -/

/-- The routine `cblas_dscal(n, a, X, 1)`: `X[i] <- a * X[i]` for `i < n`. -/
def cblas_dscal {R : Type} [Mul R] (n : Int) (a : R) (X : Buf R) : Buf R :=
  fun i => if (i : Int) < n then a * X i else X i

/-- The routine `cblas_daxpy(n, a, X, 1, Y, 1)`: `Y[i] <- a * X[i] + Y[i]` for `i < n`. -/
def cblas_daxpy {R : Type} [Mul R] [Add R] (n : Int) (a : R) (X Y : Buf R) : Buf R :=
  fun i => if (i : Int) < n then a * X i + Y i else Y i

/-- The routine `cblas_dcopy(n, X, 1, Y, 1)`: `Y[i] <- X[i]` for `i < n`. -/
def cblas_dcopy {R : Type} (n : Int) (X Y : Buf R) : Buf R :=
  fun i => if (i : Int) < n then X i else Y i

/-- The linear-algebra collaborator that is not level-1 arithmetic: the 2-norm of the
entries `cblas_dnrm2` reads, and `LAPACKE_dgels(ordering, trans, m, n, nrhs, a, lda, b, ldb)`,
which returns its diagnostic code and the overwritten `a` and `b`. -/
structure Backend (R : Type) where
  nrm2 : List R → R
  dgels : Int → Char → Int → Int → Int → Buf R → Int → Buf R → Int → Int × Buf R × Buf R

/-- The routine `cblas_dnrm2(n, X, 1)`. -/
def cblas_dnrm2 {R : Type} (B : Backend R) (n : Int) (X : Buf R) : R := B.nrm2 (X.firstN n)

/-- The constant `LAPACK_ROW_MAJOR` of `lapacke.h`. -/
def LAPACK_ROW_MAJOR : Int := 101

/-- The constant `LAPACK_COL_MAJOR` of `lapacke.h`. -/
def LAPACK_COL_MAJOR : Int := 102

/-! ## libnewton -/

/-- The enum `newton_ret` (libnewton.h), in declaration order. -/
inductive newton_ret
  | NEWTON_F_TOL
  | NEWTON_X_TOL
  | NEWTON_MAX_ITER
  | NEWTON_SINGULAR_JACOBIAN
  | NEWTON_ILLEGAL_JACOBIAN
  | NEWTON_MALLOC_ERROR
  | NEWTON_GENERIC_ERROR
deriving DecidableEq, Repr

open newton_ret

/-- The enumerator values of `newton_ret`. -/
def newton_ret.val : newton_ret → Int
  | NEWTON_F_TOL => 0
  | NEWTON_X_TOL => 1
  | NEWTON_MAX_ITER => 2
  | NEWTON_SINGULAR_JACOBIAN => 3
  | NEWTON_ILLEGAL_JACOBIAN => 4
  | NEWTON_MALLOC_ERROR => 5
  | NEWTON_GENERIC_ERROR => 6

/-- The callback types `newton_function` and `newton_jacobian`:
`(out, t, x, u, p, data)`; returns the output memory and the memory behind `data`. -/
abbrev newton_function (R P S : Type) := Buf R → R → Buf R → UBuf R → P → S → Buf R × S

/-- The struct `newton_options` as configured on entry. -/
structure newton_options (R P S : Type) where
  ordering : Int
  f_size : Int
  x_size : Int
  f_tol : R
  x_tol : R
  max_iter : Int
  f : newton_function R P S
  df : newton_function R P S

/-- Ghost record of what `newton_solve` did, in order. -/
inductive newton_event
  | calloc_f
  | calloc_df
  | eval_f
  | eval_df
  | solve (info : Int)
  | step_norm
  | update
  | free_f
  | free_df
deriving DecidableEq, Repr

/-- The variables of `newton_solve` that change in its loop; `f_tol` and `x_tol` are
`opt->f_tol` and `opt->x_tol`. -/
structure newton_state (R S : Type) where
  x : Buf R
  f : Buf R
  df : Buf R
  f_tol : R
  x_tol : R
  counts : Int
  ret : newton_ret
  data : S
  log : List newton_event

/-- One pass through the body of the `while` of `newton_solve` (libnewton.c 48-78);
the flag tells whether the pass left through `break`. -/
def newton_body {R P S : Type} [LinearOrderedCommRing R] (B : Backend R)
    (opt : newton_options R P S) (lda ldb : Int) (t : R) (u : UBuf R) (p : P)
    (s : newton_state R S) : newton_state R S × Bool :=
  let r := opt.f s.f t s.x u p s.data
  let f_tol := cblas_dnrm2 B opt.f_size r.1
  if f_tol < opt.f_tol then
    ({ s with f := r.1, data := r.2, f_tol := f_tol, ret := NEWTON_F_TOL,
              log := s.log ++ [newton_event.eval_f] }, true)
  else
    let f1 := cblas_dscal opt.f_size (-1) r.1
    let j := opt.df s.df t s.x u p r.2
    let sol := B.dgels opt.ordering 'N' opt.f_size opt.x_size 1 j.1 lda f1 ldb
    if sol.1 ≠ 0 then
      ({ s with f := sol.2.2, df := sol.2.1, data := j.2, f_tol := f_tol,
                ret := if sol.1 > 0 then NEWTON_SINGULAR_JACOBIAN else NEWTON_ILLEGAL_JACOBIAN,
                log := s.log ++ [newton_event.eval_f, newton_event.eval_df,
                                 newton_event.solve sol.1] }, true)
    else
      let x_tol := cblas_dnrm2 B opt.x_size sol.2.2
      if x_tol < opt.x_tol then
        ({ s with f := sol.2.2, df := sol.2.1, data := j.2, f_tol := f_tol, x_tol := x_tol,
                  ret := NEWTON_X_TOL,
                  log := s.log ++ [newton_event.eval_f, newton_event.eval_df,
                                   newton_event.solve sol.1, newton_event.step_norm] }, true)
      else
        ({ s with x := cblas_daxpy opt.x_size 1 sol.2.2 s.x,
                  f := sol.2.2, df := sol.2.1, data := j.2, f_tol := f_tol, x_tol := x_tol,
                  counts := s.counts + 1,
                  log := s.log ++ [newton_event.eval_f, newton_event.eval_df,
                                   newton_event.solve sol.1, newton_event.step_norm,
                                   newton_event.update] }, false)

/-- The loop `while (counts <= opt->max_iter)` of `newton_solve`, run for at most `fuel`
passes. The counter is read as an integer that `counts++` never overflows: for
`max_iter` below `LAPACK_INT_MAX` this is the loop of the code
(`newton_loop_wrapped_eq`, `newton_exit_wrapped_eq`); with the largest `max_iter` the
code is `newton_loop_wrapped`. -/
def newton_loop {R P S : Type} [LinearOrderedCommRing R] (B : Backend R)
    (opt : newton_options R P S) (lda ldb : Int) (t : R) (u : UBuf R) (p : P) :
    Nat → newton_state R S → newton_state R S
  | 0, s => s
  | fuel + 1, s =>
    if s.counts ≤ opt.max_iter then
      let r := newton_body B opt lda ldb t u p s
      if r.2 then r.1 else newton_loop B opt lda ldb t u p fuel r.1
    else s

/-- What `newton_solve` leaves behind: its return value, `x`, the diagnostics written into
`opt` (`f_tol`, `x_tol`, `max_iter`), the memory behind `data`, and the ghost log. -/
structure newton_result (R S : Type) where
  ret : newton_ret
  x : Buf R
  f_tol : R
  x_tol : R
  max_iter : Int
  data : S
  log : List newton_event

/-- The variables of `newton_solve` on entry to its loop (libnewton.c 28-45), both
buffers freshly allocated. -/
def newton_init {R P S : Type} [LinearOrderedCommRing R] (opt : newton_options R P S)
    (x : Buf R) (data : S) : newton_state R S :=
  { x := x, f := calloc, df := calloc, f_tol := opt.f_tol, x_tol := opt.x_tol,
    counts := 0, ret := NEWTON_GENERIC_ERROR, data := data,
    log := [newton_event.calloc_f, newton_event.calloc_df] }

/-- The variables of `newton_solve` on exit from its loop (libnewton.c 35-36, 47-79),
with `lda = f_size` and `ldb = max(f_size, x_size)`. The loop gets `max_iter + 1` passes
of fuel, which it never uses up (`newton_loop_fuel`). -/
def newton_run {R P S : Type} [LinearOrderedCommRing R] (B : Backend R)
    (opt : newton_options R P S) (t : R) (x : Buf R) (u : UBuf R) (p : P) (data : S) :
    newton_state R S :=
  let ldb := if opt.f_size > opt.x_size then opt.f_size else opt.x_size
  let lda := opt.f_size
  newton_loop B opt lda ldb t u p (opt.max_iter + 1).toNat (newton_init opt x data)

/-- The function `newton_solve` (libnewton.c 27-87). `calloc_ok k` tells whether the
`k`-th `calloc` of the call succeeds. The counter is that of `newton_loop`: for
`max_iter` below `LAPACK_INT_MAX` the result is that of the code
(`newton_solve_wrapped_eq`). -/
def newton_solve {R P S : Type} [LinearOrderedCommRing R] (B : Backend R)
    (calloc_ok : Nat → Bool) (opt : newton_options R P S) (t : R) (x : Buf R) (u : UBuf R)
    (p : P) (data : S) : newton_result R S :=
  if !calloc_ok 0 then
    { ret := NEWTON_MALLOC_ERROR, x := x, f_tol := opt.f_tol, x_tol := opt.x_tol,
      max_iter := opt.max_iter, data := data, log := [] }
  else if !calloc_ok 1 then
    { ret := NEWTON_MALLOC_ERROR, x := x, f_tol := opt.f_tol, x_tol := opt.x_tol,
      max_iter := opt.max_iter, data := data,
      log := [newton_event.calloc_f, newton_event.free_f] }
  else
    let s := newton_run B opt t x u p data
    { ret := if opt.max_iter ≤ s.counts then NEWTON_MAX_ITER else s.ret,
      x := s.x, f_tol := s.f_tol, x_tol := s.x_tol, max_iter := s.counts, data := s.data,
      log := s.log ++ [newton_event.free_f, newton_event.free_df] }

/-! ## libeuler -/

/-- The enum `euler_ret` (libeuler.h), in declaration order. -/
inductive euler_ret
  | EULER_SUCCESS
  | EULER_EMALLOC
  | EULER_NULLPTR
  | EULER_GENERIC
deriving DecidableEq, Repr

open euler_ret

/-- The callback types `euler_ode_function` and `euler_ode_jacobian`:
`(out, t, x, u, p, data)`; returns the output memory after the callback wrote to it. -/
abbrev euler_ode_function (R P D : Type) := Buf R → R → Buf R → UBuf R → P → D → Buf R

/-- A callback that keeps the contract of the header: it writes the first `n` values of
the vector `g t x u p data` to its output and touches nothing else. -/
def ode_callback {R P D : Type} (n : Int) (g : R → Buf R → UBuf R → P → D → Buf R) :
    euler_ode_function R P D :=
  fun out t x u p data => cblas_dcopy n (g t x u p data) out

/-- The struct `euler_options`. -/
structure euler_options (R P D : Type) where
  ts : R
  alpha : R
  x_size : Int
  u_offset : Int
  ordering : Int
  s_tol : R
  x_tol : R
  max_iter : Int
  f : euler_ode_function R P D
  df : euler_ode_function R P D
  data : D

/-- Ghost record of what `euler` and its wrappers did, in order. -/
inductive euler_event (D : Type)
  | calloc_work_f
  | calloc_work_df
  | call_f (data : D)
  | call_df (data : D)
  | free_work_f
  | free_work_df
deriving DecidableEq, Repr

/-- The struct `euler_passthrough` (libeuler.c 29-41) together with the memory its
pointers `work_f` and `work_df` reach; `calls` is the ghost log of user callbacks. -/
structure euler_passthrough (R P D : Type) where
  ts : R
  alpha : R
  u_offset : Int
  f : euler_ode_function R P D
  df : euler_ode_function R P D
  xk : Buf R
  x_size : Int
  work_f : Buf R
  work_df : Buf R
  data : D
  calls : List (euler_event D)

/-- The function `euler_function_wrapper` (libeuler.c 120-136). -/
def euler_function_wrapper {R P D : Type} [LinearOrderedCommRing R] :
    newton_function R P (euler_passthrough R P D) :=
  fun f t x u p _data =>
    let n := _data.x_size
    let w0 := _data.f _data.work_f t _data.xk u p _data.data
    let w1 := w0.unshift n.toNat
      (_data.f (w0.shift n.toNat) t x (u.shift _data.u_offset) p _data.data)
    let w2 := cblas_dscal n ((1 - _data.alpha) * _data.ts) w1
    let w3 := w2.unshift n.toNat (cblas_dscal n (_data.alpha * _data.ts) (w2.shift n.toNat))
    let w4 := cblas_daxpy n 1 (w3.shift n.toNat) w3
    let w5 := cblas_daxpy n (-1) x w4
    let w6 := cblas_daxpy n 1 _data.xk w5
    (cblas_dcopy n w6 f,
     { _data with work_f := w6,
                  calls := _data.calls ++ [euler_event.call_f _data.data,
                                           euler_event.call_f _data.data] })

/-- The function `euler_jacobian_wrapper` (libeuler.c 138-150). -/
def euler_jacobian_wrapper {R P D : Type} [LinearOrderedCommRing R] :
    newton_function R P (euler_passthrough R P D) :=
  fun df t x u p _data =>
    let nn := _data.x_size * _data.x_size
    let w0 := _data.df _data.work_df t x (u.shift _data.u_offset) p _data.data
    let w1 := cblas_dscal nn (_data.alpha * _data.ts) w0
    let w2 := cblas_daxpy nn 1 (w1.shift nn.toNat) w1
    (cblas_dcopy nn w2 df,
     { _data with work_df := w2,
                  calls := _data.calls ++ [euler_event.call_df _data.data] })

/-- The loop of libeuler.c 91-92 on the freshly allocated Jacobian workspace:
`work_df[x_size * x_size + i + i * x_size] = -1.0` for `i = 0 .. x_size - 1`. The indices
are read as integers that do not overflow: they are those of the code when
`2 * x_size * x_size` is within `lapack_int` (`euler_machine_index_eq`); beyond, the
code computes `euler_work_df_len` and `euler_identity_index`. -/
def euler_init_work_df {R : Type} [LinearOrderedCommRing R] (x_size : Int) : Buf R :=
  (List.range x_size.toNat).foldl
    (fun (w : Buf R) (i : Nat) =>
      Function.update w (x_size * x_size + (i : Int) + (i : Int) * x_size).toNat (-1))
    calloc

/-- The struct `newton_opts` that `euler` builds (libeuler.c 95-100). -/
def euler_newton_opts {R P D : Type} [LinearOrderedCommRing R] (opt : euler_options R P D) :
    newton_options R P (euler_passthrough R P D) :=
  { ordering := opt.ordering, f_size := opt.x_size, x_size := opt.x_size,
    f_tol := opt.s_tol, x_tol := opt.x_tol, max_iter := opt.max_iter,
    f := euler_function_wrapper, df := euler_jacobian_wrapper }

/-- The struct `pt` that `euler` builds (libeuler.c 102-107). -/
def euler_pt {R P D : Type} [LinearOrderedCommRing R] (opt : euler_options R P D)
    (x : Buf R) : euler_passthrough R P D :=
  { ts := opt.ts, alpha := opt.alpha, u_offset := opt.u_offset, f := opt.f, df := opt.df,
    xk := x, x_size := opt.x_size, work_f := calloc,
    work_df := euler_init_work_df opt.x_size, data := opt.data, calls := [] }

/-- The call of `newton_solve` that `euler` makes on its implicit path
(libeuler.c 109-110), the `calloc`s of `euler` itself being the first two of the call. -/
def euler_newton_call {R P D : Type} [LinearOrderedCommRing R] (B : Backend R)
    (calloc_ok : Nat → Bool) (opt : euler_options R P D) (xp : Buf R) (t : R) (x : Buf R)
    (u : UBuf R) (p : P) : newton_result R (euler_passthrough R P D) :=
  newton_solve B (fun k => calloc_ok (k + 2)) (euler_newton_opts opt) t
    (cblas_dcopy opt.x_size x xp) u p (euler_pt opt x)

/-- What `euler` leaves behind: its return value, the memory behind `xp`, the ghost log,
and (ghost) the result of its `newton_solve` call where it made one. -/
structure euler_result (R P D : Type) where
  ret : euler_ret
  xp : Buf R
  log : List (euler_event D)
  newton : Option (newton_result R (euler_passthrough R P D))

/-- The function `euler` (libeuler.c 67-118). `calloc_ok k` tells whether the `k`-th
`calloc` of the call succeeds (those of `newton_solve` included). The buffers `xp` and
`x` are distinct objects. -/
def euler {R P D : Type} [LinearOrderedCommRing R] (B : Backend R) (calloc_ok : Nat → Bool)
    (opt : euler_options R P D) (xp : Buf R) (t : R) (x : Buf R) (u : UBuf R) (p : P)
    (data : D) : euler_result R P D :=
  if opt.alpha = 0 then
    let xp1 := opt.f xp t x u p opt.data
    let xp2 := cblas_dscal opt.x_size opt.ts xp1
    let xp3 := cblas_daxpy opt.x_size 1 x xp2
    { ret := EULER_SUCCESS, xp := xp3, log := [euler_event.call_f opt.data], newton := none }
  else if !calloc_ok 0 then
    { ret := EULER_EMALLOC, xp := xp, log := [], newton := none }
  else if !calloc_ok 1 then
    { ret := EULER_EMALLOC, xp := xp,
      log := [euler_event.calloc_work_f, euler_event.free_work_f], newton := none }
  else
    let nwt := euler_newton_call B calloc_ok opt xp t x u p
    { ret := if nwt.ret.val > NEWTON_MAX_ITER.val then EULER_GENERIC else EULER_SUCCESS,
      xp := nwt.x,
      log := [euler_event.calloc_work_f, euler_event.calloc_work_df] ++ nwt.data.calls ++
             [euler_event.free_work_f, euler_event.free_work_df],
      newton := some nwt }

/-! ## Vocabulary of the claims -/

/-- Position of entry `(i, j)` of an `n`-by-`n` matrix in its flattened buffer:
`i * n + j` row-major (`LAPACK_ROW_MAJOR`), `i + j * n` column-major (`LAPACK_COL_MAJOR`,
and any other value of `ordering`). -/
def mat_index (ordering : Int) (n : Int) (i j : Nat) : Nat :=
  if ordering = LAPACK_ROW_MAJOR then i * n.toNat + j else i + j * n.toNat

/-- The residual of the implicit step as the specification writes it (section 4.2), for a
vector field `g` evaluated with the user data of the options:
`g(xp) = x - xp + (1 - alpha) ts f(t, x, u, p) + alpha ts f(t, xp, u + u_offset, p)`. -/
def euler_residual {R P D : Type} [LinearOrderedCommRing R] (opt : euler_options R P D)
    (g : R → Buf R → UBuf R → P → D → Buf R) (t : R) (x : Buf R) (u : UBuf R) (p : P)
    (xp : Buf R) : Buf R :=
  fun i => x i - xp i + (1 - opt.alpha) * opt.ts * g t x u p opt.data i
    + opt.alpha * opt.ts * g t xp (u.shift opt.u_offset) p opt.data i

/-- The fields of the implicit context that the wrappers only read are those `euler`
put there. -/
def euler_pt_frozen {R P D : Type} (opt : euler_options R P D) (x : Buf R)
    (d : euler_passthrough R P D) : Prop :=
  d.ts = opt.ts ∧ d.alpha = opt.alpha ∧ d.u_offset = opt.u_offset ∧ d.f = opt.f ∧
  d.xk = x ∧ d.x_size = opt.x_size ∧ d.data = opt.data

/-- The variables of `newton_solve` at the head of its loop after `k` passes that all
ran through to the update, when the loop gets that far. -/
def newton_passes {R P S : Type} [LinearOrderedCommRing R] (B : Backend R)
    (opt : newton_options R P S) (lda ldb : Int) (t : R) (u : UBuf R) (p : P) :
    Nat → newton_state R S → Option (newton_state R S)
  | 0, s => some s
  | k + 1, s =>
    if s.counts ≤ opt.max_iter then
      let r := newton_body B opt lda ldb t u p s
      if r.2 then none else newton_passes B opt lda ldb t u p k r.1
    else none

/-- The variables of a call of `newton_solve` at the start of its iteration number `k`
(counted from 0), when it has one. -/
def newton_head {R P S : Type} [LinearOrderedCommRing R] (B : Backend R)
    (opt : newton_options R P S) (t : R) (x : Buf R) (u : UBuf R) (p : P) (data : S)
    (k : Nat) : Option (newton_state R S) :=
  let ldb := if opt.f_size > opt.x_size then opt.f_size else opt.x_size
  let lda := opt.f_size
  newton_passes B opt lda ldb t u p k (newton_init opt x data)

/-- The leading dimension of the Jacobian that `newton_solve` hands to `LAPACKE_dgels`
(libnewton.c 36). -/
def newton_lda {R P S : Type} (opt : newton_options R P S) : Int := opt.f_size

/-- The leading dimension (and allocated length) of the right-hand side that
`newton_solve` hands to `LAPACKE_dgels` (libnewton.c 35, 38). -/
def newton_ldb {R P S : Type} (opt : newton_options R P S) : Int :=
  if opt.f_size > opt.x_size then opt.f_size else opt.x_size

/-- The update step that a pass of the loop of `newton_solve` started with the variables
`s` computes: the right-hand side as `LAPACKE_dgels` leaves it (libnewton.c 61). -/
def newton_step {R P S : Type} [LinearOrderedCommRing R] (B : Backend R)
    (opt : newton_options R P S) (t : R) (u : UBuf R) (p : P) (s : newton_state R S) :
    Buf R :=
  (B.dgels opt.ordering 'N' opt.f_size opt.x_size 1
    (opt.df s.df t s.x u p (opt.f s.f t s.x u p s.data).2).1 (newton_lda opt)
    (cblas_dscal opt.f_size (-1) (opt.f s.f t s.x u p s.data).1) (newton_ldb opt)).2.2

/-- A pass started with the variables `s` runs and computes an update step: the loop
guard holds, the residual is not below tolerance and the least-squares solve succeeds. -/
def newton_pass_solves {R P S : Type} [LinearOrderedCommRing R] (B : Backend R)
    (opt : newton_options R P S) (t : R) (u : UBuf R) (p : P) (s : newton_state R S) :
    Prop :=
  s.counts ≤ opt.max_iter ∧
  ¬ cblas_dnrm2 B opt.f_size (opt.f s.f t s.x u p s.data).1 < opt.f_tol ∧
  (B.dgels opt.ordering 'N' opt.f_size opt.x_size 1
    (opt.df s.df t s.x u p (opt.f s.f t s.x u p s.data).2).1 (newton_lda opt)
    (cblas_dscal opt.f_size (-1) (opt.f s.f t s.x u p s.data).1) (newton_ldb opt)).1 = 0

/-- Every entry of the ghost log of the implicit context is an invocation of a user
callback with the user data of the options. -/
def euler_calls_ok {R P D : Type} (opt : euler_options R P D)
    (d : euler_passthrough R P D) : Prop :=
  d.data = opt.data ∧
  ∀ e ∈ d.calls, e = euler_event.call_f opt.data ∨ e = euler_event.call_df opt.data

/-- The affine vector field `f(t, x, u, p) = A x + c(t, u, p)` in dimension `n`. -/
def affine_field {R P D : Type} [LinearOrderedCommRing R] (n : Nat) (A : Nat → Nat → R)
    (c : R → UBuf R → P → D → Buf R) : R → Buf R → UBuf R → P → D → Buf R :=
  fun t x u p d i => (∑ j in Finset.range n, A i j * x j) + c t u p d i

/-- The Jacobian of `affine_field`: the constant matrix `A`, flattened in `ordering`. -/
def affine_jacobian {R P D : Type} (ordering : Int) (n : Nat) (A : Nat → Nat → R) :
    R → Buf R → UBuf R → P → D → Buf R :=
  fun _ _ _ _ _ k =>
    if ordering = LAPACK_ROW_MAJOR then A (k / n) (k % n) else A (k % n) (k / n)

/-- The matrix `-I + alpha ts A` of the implicit step of an affine field. -/
def theta_matrix {R : Type} [LinearOrderedCommRing R] (alpha ts : R) (A : Nat → Nat → R) :
    Nat → Nat → R :=
  fun i j => alpha * ts * A i j - (if i = j then 1 else 0)

/-- What the wrappers need of the implicit context: the fields they only read are those
`euler` put there, and the second half of the Jacobian workspace is as initialised. -/
def euler_pt_ok {R P D : Type} [LinearOrderedCommRing R] (opt : euler_options R P D)
    (x : Buf R) (d : euler_passthrough R P D) : Prop :=
  euler_pt_frozen opt x d ∧ d.df = opt.df ∧
  ∀ k : Nat, (k : Int) < opt.x_size * opt.x_size →
    d.work_df ((opt.x_size * opt.x_size).toNat + k)
      = euler_init_work_df opt.x_size ((opt.x_size * opt.x_size).toNat + k)

/-- Residual callback of the linear problem `F(x) = A x - b` in dimension `n`. -/
def linear_residual {R P S : Type} [LinearOrderedCommRing R] (n : Nat) (A : Nat → Nat → R)
    (b : Nat → R) : newton_function R P S :=
  fun out _ x _ _ data =>
    (fun i => if i < n then (∑ j in Finset.range n, A i j * x j) - b i else out i, data)

/-- Jacobian callback of the linear problem: the constant matrix `A`, flattened in
`ordering`. -/
def linear_jacobian {R P S : Type} [LinearOrderedCommRing R] (ordering : Int) (n : Nat)
    (A : Nat → Nat → R) : newton_function R P S :=
  fun out _ _ _ _ data =>
    (fun k => if k < n * n then
        (if ordering = LAPACK_ROW_MAJOR then A (k / n) (k % n) else A (k % n) (k / n))
      else out k, data)

/-- The options of a Newton solve of the linear problem `A x = b`. -/
def linear_options {R P S : Type} [LinearOrderedCommRing R] (ordering : Int) (n : Nat)
    (A : Nat → Nat → R) (b : Nat → R) (f_tol x_tol : R) (max_iter : Int) :
    newton_options R P S :=
  { ordering := ordering, f_size := n, x_size := n, f_tol := f_tol, x_tol := x_tol,
    max_iter := max_iter, f := linear_residual n A b, df := linear_jacobian ordering n A }

/-! ## Concrete one-dimensional instances -/

/-- A backend for one-dimensional problems over the integers: the 2-norm of a single
entry is its absolute value, the system `a * d = b` is solved by division, and a zero
matrix is reported as rank deficient (code 1). -/
def scalar_backend : Backend Int where
  nrm2 := fun l => (l.map (fun v => |v|)).sum
  dgels := fun _ _ _ _ _ a _ b _ =>
    if a 0 = 0 then (1, a, b) else (0, a, fun i => if i = 0 then b 0 / a 0 else b i)

/-- An allocator that never fails. -/
def calloc_always : Nat → Bool := fun _ => true

/-- The scalar vector field `f(t, x, u, p, data) = -2 x + u[0] + data`. -/
def scalar_field {R : Type} [LinearOrderedCommRing R] :
    R → Buf R → UBuf R → Unit → R → Buf R :=
  fun _ x u _ d => fun i => -2 * x i + u 0 + d

/-- The Jacobian of `scalar_field`: the constant `-2`. -/
def scalar_field_jacobian {R : Type} [LinearOrderedCommRing R] :
    R → Buf R → UBuf R → Unit → R → Buf R :=
  fun _ _ _ _ _ => fun _ => -2

/-- Options for stepping `scalar_field` with `ts = 1`, next input at offset 1, residual
tolerance 1 and user data 4. -/
def scalar_options {R : Type} [LinearOrderedCommRing R] (alpha x_tol : R) (max_iter : Int) :
    euler_options R Unit R :=
  { ts := 1, alpha := alpha, x_size := 1, u_offset := 1, ordering := LAPACK_COL_MAJOR,
    s_tol := 1, x_tol := x_tol, max_iter := max_iter,
    f := ode_callback 1 scalar_field, df := ode_callback (1 * 1) scalar_field_jacobian,
    data := 4 }

/-- The input buffer `u = [10, 2, 0, 0, ...]`: current input 10, next input 2. -/
def scalar_input : UBuf Int := fun i => if i = 0 then 10 else if i = 1 then 2 else 0

/-- The Newton options of the scalar linear problem `a x = 5` with both tolerances 1. -/
def scalar_linear_options (a : Int) (max_iter : Int) : newton_options Int Unit Unit :=
  linear_options LAPACK_COL_MAJOR 1 (fun _ _ => a) (fun _ => 5) 1 1 max_iter

/-- Options for stepping the affine field `A x + c(t, u, p)` in dimension `n`, with its
exact Jacobian flattened in `ordering`. -/
def affine_options {R P D : Type} [LinearOrderedCommRing R] (ordering : Int) (n : Nat)
    (A : Nat → Nat → R) (c : R → UBuf R → P → D → Buf R) (ts alpha s_tol x_tol : R)
    (u_offset max_iter : Int) (data : D) : euler_options R P D :=
  { ts := ts, alpha := alpha, x_size := n, u_offset := u_offset, ordering := ordering,
    s_tol := s_tol, x_tol := x_tol, max_iter := max_iter,
    f := ode_callback n (affine_field n A c),
    df := ode_callback ((n : Int) * (n : Int)) (affine_jacobian ordering n A), data := data }

/-- Options for a fully implicit step (`alpha = 1`, `ts = 1`) of the scalar affine field
`f(t, x, u, p, data) = 2 x + u[0] + data`, with both tolerances 1, at most 3 iterations
and user data 4. -/
def scalar_affine_options : euler_options Int Unit Int :=
  affine_options LAPACK_COL_MAJOR 1 (fun _ _ => 2) (fun _ u _ d _ => u 0 + d) 1 1 1 1 1 3 4

/-- Options for a fully implicit step (`alpha = 1`, `ts = 1`) of the scalar affine field
`f(t, x, u, p, data) = x + u[0] + data`, for which `alpha ts A - I` is the zero matrix,
with both tolerances 1, `max_iter = 0` and user data 4. -/
def singular_step_options : euler_options Int Unit Int :=
  affine_options LAPACK_COL_MAJOR 1 (fun _ _ => 1) (fun _ u _ d _ => u 0 + d) 1 1 1 1 1 0 4

/-- An allocator whose `k`-th `calloc` fails and whose other ones succeed. -/
def calloc_fails_at (k : Nat) : Nat → Bool := fun i => !(i == k)

/-- The Newton options of the scalar problem `x^2 = 0` with its exact Jacobian `2 x` and
both tolerances 1. -/
def square_options (max_iter : Int) : newton_options Int Unit Unit :=
  { ordering := LAPACK_COL_MAJOR, f_size := 1, x_size := 1, f_tol := 1, x_tol := 1,
    max_iter := max_iter,
    f := fun out _ x _ _ d => (fun i => if i = 0 then x 0 * x 0 else out i, d),
    df := fun out _ x _ _ d => (fun k => if k = 0 then 2 * x 0 else out k, d) }

/-- The stride of a flattened `f_size`-by-`x_size` matrix as the specification words it:
`x_size` (the length of a row) row-major, `f_size` (the length of a column)
column-major. -/
def jacobian_stride (ordering f_size x_size : Int) : Int :=
  if ordering = LAPACK_ROW_MAJOR then x_size else f_size

/-- A backend that solves nothing and reports as its status the leading dimension of the
matrix it is handed. -/
def lda_probe_backend : Backend Int where
  nrm2 := fun l => (l.map (fun v => |v|)).sum
  dgels := fun _ _ _ _ _ a lda b _ => (lda, a, b)

/-- The Newton options of the row-major problem `x0 + x1 - 5 = 0`: one equation, two
unknowns, Jacobian `[1, 1]`. -/
def wide_options : newton_options Int Unit Unit :=
  { ordering := LAPACK_ROW_MAJOR, f_size := 1, x_size := 2, f_tol := 1, x_tol := 1,
    max_iter := 3,
    f := fun out _ x _ _ d => (fun i => if i = 0 then x 0 + x 1 - 5 else out i, d),
    df := fun out _ _ _ _ d => (fun k => if k < 2 then 1 else out k, d) }

/-! ## The test problem of src/test/newton_test.c -/

/-- The callback `function` of src/test/newton_test.c, with `E` for the exponential:
`f[0] = 2 x[0] - x[1] - exp(-x[0])`, `f[1] = -x[0] + 2 x[1] - exp(-x[1])`. The test
predates the parameter `t` of the callbacks, which is ignored here. -/
def newton_test_function {R P S : Type} [LinearOrderedCommRing R] (E : R → R) :
    newton_function R P S :=
  fun f _ x _ _ data =>
    (fun i => if i = 0 then 2 * x 0 - x 1 - E (-(x 0))
      else if i = 1 then -(x 0) + 2 * x 1 - E (-(x 1)) else f i, data)

/-- The callback `gradient` of src/test/newton_test.c, with `E` for the exponential:
`df[0] = 2 + exp(-x[0])`, `df[1] = -1`, `df[2] = -1`, `df[3] = 2 + exp(-x[1])`. -/
def newton_test_gradient {R P S : Type} [LinearOrderedCommRing R] (E : R → R) :
    newton_function R P S :=
  fun df _ x _ _ data =>
    (fun k => if k = 0 then 2 + E (-(x 0)) else if k = 1 then -1 else if k = 2 then -1
      else if k = 3 then 2 + E (-(x 1)) else df k, data)

/-- The struct `options` of src/test/newton_test.c: column-major, two equations, two
unknowns, both tolerances `1e-12`, `max_iter = 100`. -/
def newton_test_options {K P S : Type} [LinearOrderedField K] (E : K → K) :
    newton_options K P S :=
  { ordering := LAPACK_COL_MAJOR, f_size := 2, x_size := 2, f_tol := 1 / 10 ^ 12,
    x_tol := 1 / 10 ^ 12, max_iter := 100, f := newton_test_function E,
    df := newton_test_gradient E }

/-- An exact backend for two-by-two column-major systems over a field: the 2-norm is
`sqrt` of the sum of squares, and the system is solved by Cramer's rule, a singular
matrix being reported with the code 1. -/
def cramer_backend {K : Type} [LinearOrderedField K] (sqrt : K → K) : Backend K where
  nrm2 := fun l => sqrt ((l.map (fun v => v ^ 2)).sum)
  dgels := fun _ _ _ _ _ a _ b _ =>
    if a 0 * a 3 - a 2 * a 1 = 0 then (1, a, b)
    else (0, a, fun i =>
      if i = 0 then (b 0 * a 3 - a 2 * b 1) / (a 0 * a 3 - a 2 * a 1)
      else if i = 1 then (a 0 * b 1 - a 1 * b 0) / (a 0 * a 3 - a 2 * a 1) else b i)

/-! ## Machine integers -/

/-- The largest value of `lapack_int`, a 32-bit `int` unless LAPACKE is built for 64-bit
indices. -/
def LAPACK_INT_MAX : Int := 2147483647

/-- Reduction of an integer to the range of a 32-bit two's-complement `lapack_int`. -/
def lapack_int_wrap (z : Int) : Int := (z + 2147483648) % 4294967296 - 2147483648

/-- The loop `while (counts <= opt->max_iter)` of `newton_solve` with `counts++`
(libnewton.c 78) computed in `lapack_int`, run for at most `fuel` passes. -/
def newton_loop_wrapped {R P S : Type} [LinearOrderedCommRing R] (B : Backend R)
    (opt : newton_options R P S) (lda ldb : Int) (t : R) (u : UBuf R) (p : P) :
    Nat → newton_state R S → newton_state R S
  | 0, s => s
  | fuel + 1, s =>
    if s.counts ≤ opt.max_iter then
      let r := newton_body B opt lda ldb t u p s
      if r.2 then r.1
      else newton_loop_wrapped B opt lda ldb t u p fuel
        { r.1 with counts := lapack_int_wrap r.1.counts }
    else s

/-- The loop of `newton_solve` with the counter in `lapack_int`, followed to its exit:
the variables with which the loop is left when that happens within `fuel` passes, `none`
when `fuel` passes do not reach the exit. -/
def newton_exit_wrapped {R P S : Type} [LinearOrderedCommRing R] (B : Backend R)
    (opt : newton_options R P S) (lda ldb : Int) (t : R) (u : UBuf R) (p : P) :
    Nat → newton_state R S → Option (newton_state R S)
  | 0, _ => none
  | fuel + 1, s =>
    if s.counts ≤ opt.max_iter then
      let r := newton_body B opt lda ldb t u p s
      if r.2 then some r.1
      else newton_exit_wrapped B opt lda ldb t u p fuel
        { r.1 with counts := lapack_int_wrap r.1.counts }
    else some s

/-- The function `newton_solve` (libnewton.c 27-87) with the counter in `lapack_int`:
what it leaves behind when its loop is left within `fuel` passes, `none` otherwise. -/
def newton_solve_wrapped {R P S : Type} [LinearOrderedCommRing R] (B : Backend R)
    (calloc_ok : Nat → Bool) (opt : newton_options R P S) (t : R) (x : Buf R) (u : UBuf R)
    (p : P) (data : S) (fuel : Nat) : Option (newton_result R S) :=
  if !calloc_ok 0 then
    some { ret := NEWTON_MALLOC_ERROR, x := x, f_tol := opt.f_tol, x_tol := opt.x_tol,
           max_iter := opt.max_iter, data := data, log := [] }
  else if !calloc_ok 1 then
    some { ret := NEWTON_MALLOC_ERROR, x := x, f_tol := opt.f_tol, x_tol := opt.x_tol,
           max_iter := opt.max_iter, data := data,
           log := [newton_event.calloc_f, newton_event.free_f] }
  else
    (newton_exit_wrapped B opt (newton_lda opt) (newton_ldb opt) t u p fuel
      (newton_init opt x data)).map
      (fun s =>
        { ret := if opt.max_iter ≤ s.counts then NEWTON_MAX_ITER else s.ret,
          x := s.x, f_tol := s.f_tol, x_tol := s.x_tol, max_iter := s.counts,
          data := s.data,
          log := s.log ++ [newton_event.free_f, newton_event.free_df] })

/-- The Newton options of the scalar problem whose residual is `-1` below `K` and `0`
from `K` on, with the slope 1 reported and both tolerances 1: every step is 1, and the
residual tolerance is met once `x` has reached `K`. -/
def counting_options (K max_iter : Int) : newton_options Int Unit Unit :=
  { ordering := LAPACK_COL_MAJOR, f_size := 1, x_size := 1, f_tol := 1, x_tol := 1,
    max_iter := max_iter,
    f := fun out _ x _ _ d =>
      (fun i => if i = 0 then (if x 0 < K then -1 else 0) else out i, d),
    df := fun out _ _ _ _ d => (fun k => if k = 0 then 1 else out k, d) }

/-- The options `scalar_affine_options` with both tolerances 0 and the largest
`max_iter`. -/
def endless_step_options : euler_options Int Unit Int :=
  affine_options LAPACK_COL_MAJOR 1 (fun _ _ => 2) (fun _ u _ d _ => u 0 + d) 1 1 0 0 1
    LAPACK_INT_MAX 4

/-- The number of elements of the Jacobian workspace as `euler` computes it,
`2 * opt->x_size * opt->x_size` in `lapack_int` (libeuler.c 85). -/
def euler_work_df_len (x_size : Int) : Int :=
  lapack_int_wrap (lapack_int_wrap (2 * x_size) * x_size)

/-- The index of the `i`-th write of the initialisation loop as `euler` computes it,
`(opt->x_size * opt->x_size) + i + i * opt->x_size` in `lapack_int` (libeuler.c 92). -/
def euler_identity_index (x_size i : Int) : Int :=
  lapack_int_wrap (lapack_int_wrap (lapack_int_wrap (x_size * x_size) + i)
    + lapack_int_wrap (i * x_size))

/-! ## Results -/

section Results

variable {R P D S : Type} [LinearOrderedCommRing R]

/-! ### Memory and layout lemmas -/

theorem ode_callback_apply (n : Int) (g : R → Buf R → UBuf R → P → D → Buf R)
    (out : Buf R) (t : R) (x : Buf R) (u : UBuf R) (p : P) (d : D) (i : Nat)
    (hi : (i : Int) < n) : (ode_callback n g out t x u p d) i = g t x u p d i := by
  simp [ode_callback, cblas_dcopy, hi]

theorem ode_callback_frame (n : Int) (g : R → Buf R → UBuf R → P → D → Buf R)
    (out : Buf R) (t : R) (x : Buf R) (u : UBuf R) (p : P) (d : D) (i : Nat)
    (hi : ¬ (i : Int) < n) : (ode_callback n g out t x u p d) i = out i := by
  simp [ode_callback, cblas_dcopy, hi]

theorem two_digit_unique (n a b c d : Nat) (ha : a < n) (hc : c < n)
    (h : a + b * n = c + d * n) : a = c ∧ b = d := by
  have h1 : (a + b * n) % n = (c + d * n) % n := by rw [h]
  rw [Nat.add_mul_mod_self_right, Nat.add_mul_mod_self_right, Nat.mod_eq_of_lt ha,
    Nat.mod_eq_of_lt hc] at h1
  subst h1
  have h2 : b * n = d * n := by omega
  have hn : 0 < n := by omega
  exact ⟨rfl, Nat.eq_of_mul_eq_mul_right hn h2⟩

theorem mat_index_lt (ordering : Int) (N i j : Nat) (hi : i < N) (hj : j < N) :
    mat_index ordering N i j < N * N := by
  unfold mat_index
  simp only [Int.toNat_natCast]
  split
  · calc i * N + j < i * N + N := by omega
      _ = (i + 1) * N := by ring
      _ ≤ N * N := Nat.mul_le_mul_right N hi
  · calc i + j * N < N + j * N := by omega
      _ = (j + 1) * N := by ring
      _ ≤ N * N := Nat.mul_le_mul_right N hj

theorem foldl_update_apply (idx : Nat → Nat) (v : R) (l : List Nat) (w : Buf R) (k : Nat) :
    (l.foldl (fun w i => Function.update w (idx i) v) w) k
      = if ∃ i ∈ l, k = idx i then v else w k := by
  induction l generalizing w with
  | nil => simp
  | cons a l ih =>
    rw [List.foldl_cons, ih]
    by_cases hk : k = idx a
    · have : ∃ i ∈ a :: l, k = idx i := ⟨a, List.mem_cons_self _ _, hk⟩
      rw [if_pos this]
      split
      · rfl
      · rw [hk, Function.update_same]
    · by_cases hl : ∃ i ∈ l, k = idx i
      · have : ∃ i ∈ a :: l, k = idx i := by
          obtain ⟨i, hi, he⟩ := hl
          exact ⟨i, List.mem_cons_of_mem _ hi, he⟩
        rw [if_pos hl, if_pos this]
      · have : ¬ ∃ i ∈ a :: l, k = idx i := by
          rintro ⟨i, hi, he⟩
          rcases List.mem_cons.mp hi with rfl | hi
          · exact hk he
          · exact hl ⟨i, hi, he⟩
        rw [if_neg hl, if_neg this, Function.update_noteq hk]

theorem euler_init_work_df_apply (N : Nat) (m : Nat) :
    (euler_init_work_df (N : Int) : Buf R) (N * N + m)
      = if ∃ i, i < N ∧ m = i + i * N then -1 else 0 := by
  unfold euler_init_work_df
  rw [foldl_update_apply]
  have cast : ∀ i : Nat, ((N : Int) * N + i + i * N).toNat = N * N + i + i * N := by
    intro i
    have : ((N : Int) * N + i + i * N) = ((N * N + i + i * N : Nat) : Int) := by
      push_cast; ring
    rw [this, Int.toNat_natCast]
  have key : (∃ i ∈ List.range (N : Int).toNat,
      N * N + m = ((N : Int) * N + i + i * N).toNat) ↔ ∃ i, i < N ∧ m = i + i * N := by
    constructor
    · rintro ⟨i, hi, he⟩
      refine ⟨i, by simpa using hi, ?_⟩
      rw [cast] at he
      omega
    · rintro ⟨i, hi, he⟩
      refine ⟨i, by simpa using hi, ?_⟩
      rw [cast]
      omega
  by_cases h : ∃ i, i < N ∧ m = i + i * N
  · rw [if_pos (key.mpr h), if_pos h]
  · rw [if_neg (fun h' => h (key.mp h')), if_neg h]
    rfl

theorem neg_identity_entry (ordering : Int) (N i j : Nat) (hi : i < N) (hj : j < N) :
    (euler_init_work_df (N : Int) : Buf R) (N * N + mat_index ordering N i j)
      = -(if i = j then 1 else 0) := by
  rw [euler_init_work_df_apply]
  have key : (∃ k, k < N ∧ mat_index ordering N i j = k + k * N) ↔ i = j := by
    unfold mat_index
    simp only [Int.toNat_natCast]
    constructor
    · rintro ⟨k, hk, he⟩
      split at he
      · have := two_digit_unique N j i k k hj hk (by omega)
        omega
      · have := two_digit_unique N i j k k hi hk he
        omega
    · rintro rfl
      refine ⟨i, hi, ?_⟩
      split <;> omega
  by_cases h : i = j
  · rw [if_pos (key.mpr h), if_pos h]
  · rw [if_neg (fun h' => h (key.mp h')), if_neg h, neg_zero]

theorem firstN_congr (a b : Buf R) (n : Int)
    (h : ∀ i : Nat, (i : Int) < n → a i = b i) : a.firstN n = b.firstN n := by
  unfold Buf.firstN
  apply List.map_congr_left
  intro i hi
  rw [List.mem_range] at hi
  exact h i (by omega)

/-- Left inverse: from `A y = r` on the first `n` entries, `y = Ainv r`. -/
theorem solve_of_left_inverse (n : Nat) (A Ainv : Nat → Nat → R) (y r : Nat → R)
    (hinv : ∀ i k, i < n → k < n →
      ∑ j in Finset.range n, Ainv i j * A j k = if i = k then 1 else 0)
    (hy : ∀ i, i < n → ∑ j in Finset.range n, A i j * y j = r i) (i : Nat) (hi : i < n) :
    y i = ∑ j in Finset.range n, Ainv i j * r j := by
  have h1 : ∑ j in Finset.range n, Ainv i j * r j
      = ∑ j in Finset.range n, ∑ k in Finset.range n, Ainv i j * A j k * y k := by
    apply Finset.sum_congr rfl
    intro j hj
    rw [← hy j (Finset.mem_range.mp hj), Finset.mul_sum]
    apply Finset.sum_congr rfl
    intro k _
    ring
  rw [h1, Finset.sum_comm]
  have h2 : ∀ k ∈ Finset.range n, ∑ j in Finset.range n, Ainv i j * A j k * y k
      = if i = k then y k else 0 := by
    intro k hk
    rw [← Finset.sum_mul, hinv i k hi (Finset.mem_range.mp hk)]
    split <;> simp
  rw [Finset.sum_congr rfl h2, Finset.sum_ite_eq, if_pos (Finset.mem_range.mpr hi)]



/-! ### The wrappers of the implicit step -/

/-- What `euler_function_wrapper` writes to entry `i < x_size` of its output, for any
user callback: the blend of what the two callback invocations wrote. -/
theorem euler_function_wrapper_apply (pt : euler_passthrough R P D)
    (out : Buf R) (t : R) (x : Buf R) (u : UBuf R) (p : P) (i : Nat)
    (hi : (i : Int) < pt.x_size) :
    (euler_function_wrapper out t x u p pt).1 i
      = pt.xk i - x i
        + (1 - pt.alpha) * pt.ts * (pt.f pt.work_f t pt.xk u p pt.data) i
        + pt.alpha * pt.ts *
          (pt.f ((pt.f pt.work_f t pt.xk u p pt.data).shift pt.x_size.toNat) t x
            (u.shift pt.u_offset) p pt.data) i := by
  have h1 : i < pt.x_size.toNat := by omega
  have h2 : ¬ (pt.x_size.toNat + i < pt.x_size.toNat) := by omega
  have h3 : ¬ (pt.x_size ⊔ 0 + (i : Int) < pt.x_size) := by
    have : pt.x_size ≤ pt.x_size ⊔ 0 := le_sup_left
    omega
  simp [euler_function_wrapper, cblas_dcopy, cblas_daxpy, cblas_dscal, Buf.shift, Buf.unshift,
    hi, h1, h2, h3]
  ring

/-- What `euler_jacobian_wrapper` writes to entry `(i, j)` of its output, for any user
callback that leaves the second half of the Jacobian workspace alone, when that half
holds what `euler` put there. -/
theorem euler_jacobian_wrapper_apply (pt : euler_passthrough R P D)
    (hw : ∀ k : Nat, (k : Int) < pt.x_size * pt.x_size →
      pt.work_df ((pt.x_size * pt.x_size).toNat + k)
        = euler_init_work_df pt.x_size ((pt.x_size * pt.x_size).toNat + k))
    (ordering : Int) (out : Buf R) (t : R) (x : Buf R) (u : UBuf R) (p : P) (i j : Nat)
    (hi : (i : Int) < pt.x_size) (hj : (j : Int) < pt.x_size)
    (hframe : ∀ k : Nat, (k : Int) < pt.x_size * pt.x_size →
      (pt.df pt.work_df t x (u.shift pt.u_offset) p pt.data) ((pt.x_size * pt.x_size).toNat + k)
        = pt.work_df ((pt.x_size * pt.x_size).toNat + k)) :
    (euler_jacobian_wrapper out t x u p pt).1 (mat_index ordering pt.x_size i j)
      = pt.alpha * pt.ts *
          (pt.df pt.work_df t x (u.shift pt.u_offset) p pt.data)
            (mat_index ordering pt.x_size i j)
        - (if i = j then 1 else 0) := by
  obtain ⟨N, hN⟩ := Int.eq_ofNat_of_zero_le (show 0 ≤ pt.x_size by omega)
  rw [hN] at hi hj hw hframe ⊢
  have hi' : i < N := by exact_mod_cast hi
  have hj' : j < N := by exact_mod_cast hj
  have hm := mat_index_lt ordering N i j hi' hj'
  have hNN : ((N : Int) * N).toNat = N * N := by
    rw [← Int.natCast_mul, Int.toNat_natCast]
  have hm' : ((mat_index ordering N i j : Nat) : Int) < (N : Int) * N := by exact_mod_cast hm
  have hge : ¬ (((N * N + mat_index ordering (N : Int) i j : Nat) : Int) < (N : Int) * N) := by
    push_cast; omega
  have e1 := hframe _ hm'
  have e2 := hw _ hm'
  rw [hNN] at e1 e2
  have e3 := neg_identity_entry (R := R) ordering N i j hi' hj'
  simp only [euler_jacobian_wrapper, hN, cblas_dcopy, cblas_daxpy, cblas_dscal, Buf.shift,
    hm', if_true, hNN, hge, if_false, e1, e2, e3]
  ring

/-! ### The explicit step -/

/-- C1. Explicit step: with `alpha = 0`, for every dimension and every vector-field
callback, `euler` returns `EULER_SUCCESS`, leaves in `xp[i]`, for each `i < x_size`, the
value `x[i] + ts * f[i]` where `f` is what the callback wrote when invoked with
`(t, x, u, p, opt->data)`, and its whole record of callback invocations is that single
evaluation of the vector field: the Jacobian callback is never called. -/
theorem euler_explicit_step (B : Backend R) (calloc_ok : Nat → Bool)
    (opt : euler_options R P D) (xp : Buf R) (t : R) (x : Buf R) (u : UBuf R) (p : P)
    (data : D) (h : opt.alpha = 0) :
    (euler B calloc_ok opt xp t x u p data).ret = EULER_SUCCESS ∧
    (∀ i : Nat, (i : Int) < opt.x_size →
      (euler B calloc_ok opt xp t x u p data).xp i
        = x i + opt.ts * (opt.f xp t x u p opt.data) i) ∧
    (euler B calloc_ok opt xp t x u p data).log = [euler_event.call_f opt.data] := by
  refine ⟨?_, ?_, ?_⟩
  · simp [euler, h]
  · intro i hi
    simp [euler, h, cblas_daxpy, cblas_dscal, hi]
  · simp [euler, h]

/-- Witness of C1: the scalar field stepped explicitly from `x = 1`. -/
theorem euler_explicit_step_witness :
    (scalar_options (R := Int) 0 1 3).alpha = 0 ∧
    ((euler scalar_backend calloc_always (scalar_options (R := Int) 0 1 3) calloc 0 (fun _ => 1)
        scalar_input () 100).ret = EULER_SUCCESS ∧
     (∀ i : Nat, (i : Int) < (scalar_options (R := Int) 0 1 3).x_size →
        (euler scalar_backend calloc_always (scalar_options (R := Int) 0 1 3) calloc 0 (fun _ => 1)
          scalar_input () 100).xp i
        = (fun _ => 1 : Buf Int) i + (scalar_options (R := Int) 0 1 3).ts *
            ((scalar_options (R := Int) 0 1 3).f calloc 0 (fun _ => 1) scalar_input ()
              (scalar_options (R := Int) 0 1 3).data) i) ∧
     (euler scalar_backend calloc_always (scalar_options (R := Int) 0 1 3) calloc 0 (fun _ => 1)
        scalar_input () 100).log = [euler_event.call_f (scalar_options (R := Int) 0 1 3).data]) :=
  ⟨rfl, euler_explicit_step scalar_backend calloc_always (scalar_options (R := Int) 0 1 3) calloc 0
    (fun _ => 1) scalar_input () 100 rfl⟩

/-! ### The implicit residual and its Jacobian -/

/-- C2. Implicit residual: for every implicit context whose vector-field callback writes
the `x_size` values of `g`, and every proposed point `x`, `euler_function_wrapper` writes
`out[i] = x_k[i] - x[i] + (1 - alpha) ts g(t, x_k, u, p)[i] + alpha ts g(t, x, u + u_offset, p)[i]`
for every `i < x_size`: the first evaluation reads the input from index 0, the second
from index `u_offset`. -/
theorem euler_function_wrapper_residual (pt : euler_passthrough R P D)
    (g : R → Buf R → UBuf R → P → D → Buf R) (hf : pt.f = ode_callback pt.x_size g)
    (out : Buf R) (t : R) (x : Buf R) (u : UBuf R) (p : P) (i : Nat)
    (hi : (i : Int) < pt.x_size) :
    (euler_function_wrapper out t x u p pt).1 i
      = pt.xk i - x i + (1 - pt.alpha) * pt.ts * g t pt.xk u p pt.data i
        + pt.alpha * pt.ts * g t x (u.shift pt.u_offset) p pt.data i := by
  rw [euler_function_wrapper_apply pt out t x u p i hi, hf]
  simp only [ode_callback_apply _ _ _ _ _ _ _ _ _ hi]

/-- Witness of C2: the context `euler` builds for the scalar field at `x_k = 1`,
evaluated at the proposed point 3. -/
theorem euler_function_wrapper_residual_witness :
    (euler_pt (scalar_options (R := Int) 1 1 3) (fun _ => 1)).f
      = ode_callback (euler_pt (scalar_options (R := Int) 1 1 3) (fun _ => 1)).x_size scalar_field ∧
    ((0 : Nat) : Int) < (euler_pt (scalar_options (R := Int) 1 1 3) (fun _ => 1)).x_size ∧
    (euler_function_wrapper calloc 0 (fun _ => 3) scalar_input ()
        (euler_pt (scalar_options (R := Int) 1 1 3) (fun _ => 1))).1 0
      = (euler_pt (scalar_options (R := Int) 1 1 3) (fun _ => 1)).xk 0 - (fun _ => 3 : Buf Int) 0
        + (1 - (euler_pt (scalar_options (R := Int) 1 1 3) (fun _ => 1)).alpha)
            * (euler_pt (scalar_options (R := Int) 1 1 3) (fun _ => 1)).ts
            * scalar_field 0 (euler_pt (scalar_options (R := Int) 1 1 3) (fun _ => 1)).xk scalar_input ()
                (euler_pt (scalar_options (R := Int) 1 1 3) (fun _ => 1)).data 0
        + (euler_pt (scalar_options (R := Int) 1 1 3) (fun _ => 1)).alpha
            * (euler_pt (scalar_options (R := Int) 1 1 3) (fun _ => 1)).ts
            * scalar_field 0 (fun _ => 3)
                (scalar_input.shift (euler_pt (scalar_options (R := Int) 1 1 3) (fun _ => 1)).u_offset) ()
                (euler_pt (scalar_options (R := Int) 1 1 3) (fun _ => 1)).data 0 :=
  ⟨rfl, by decide,
    euler_function_wrapper_residual (euler_pt (scalar_options (R := Int) 1 1 3) (fun _ => 1))
      scalar_field rfl calloc 0 (fun _ => 3) scalar_input () 0 (by decide)⟩

/-- What `euler_jacobian_wrapper` writes to entry `(i, j)` when the Jacobian callback
writes the flattened matrix `J` and the second half of the workspace is as `euler`
initialised it: `alpha ts J(i, j) - (1 if i = j else 0)`. -/
theorem euler_jacobian_wrapper_pure (pt : euler_passthrough R P D)
    (J : R → Buf R → UBuf R → P → D → Buf R)
    (hdf : pt.df = ode_callback (pt.x_size * pt.x_size) J)
    (hw : ∀ k : Nat, (k : Int) < pt.x_size * pt.x_size →
      pt.work_df ((pt.x_size * pt.x_size).toNat + k)
        = euler_init_work_df pt.x_size ((pt.x_size * pt.x_size).toNat + k))
    (ordering : Int) (out : Buf R) (t : R) (x : Buf R) (u : UBuf R) (p : P) (i j : Nat)
    (hi : (i : Int) < pt.x_size) (hj : (j : Int) < pt.x_size) :
    (euler_jacobian_wrapper out t x u p pt).1 (mat_index ordering pt.x_size i j)
      = pt.alpha * pt.ts * J t x (u.shift pt.u_offset) p pt.data
          (mat_index ordering pt.x_size i j)
        - (if i = j then 1 else 0) := by
  have hm : ((mat_index ordering pt.x_size i j : Nat) : Int) < pt.x_size * pt.x_size := by
    obtain ⟨N, hN⟩ := Int.eq_ofNat_of_zero_le (show 0 ≤ pt.x_size by omega)
    rw [hN] at hi hj ⊢
    exact_mod_cast mat_index_lt ordering N i j (by exact_mod_cast hi) (by exact_mod_cast hj)
  rw [euler_jacobian_wrapper_apply pt hw ordering out t x u p i j hi hj, hdf,
    ode_callback_apply _ _ _ _ _ _ _ _ _ hm]
  intro k hk
  rw [hdf]
  apply ode_callback_frame
  omega

/-- The residual wrapper is linearised exactly by the matrix the Jacobian wrapper
writes: for every increment `h`, the error of linearising the residual with that matrix
is `alpha ts` times the error of linearising the vector field `g` with `J`. -/
theorem euler_residual_linearisation (pt : euler_passthrough R P D)
    (g J : R → Buf R → UBuf R → P → D → Buf R)
    (hf : pt.f = ode_callback pt.x_size g)
    (hdf : pt.df = ode_callback (pt.x_size * pt.x_size) J)
    (hw : ∀ k : Nat, (k : Int) < pt.x_size * pt.x_size →
      pt.work_df ((pt.x_size * pt.x_size).toNat + k)
        = euler_init_work_df pt.x_size ((pt.x_size * pt.x_size).toNat + k))
    (ordering : Int) (out fout : Buf R) (t : R) (x h : Buf R) (u : UBuf R) (p : P) (i : Nat)
    (hi : (i : Int) < pt.x_size) :
    (euler_function_wrapper fout t (fun k => x k + h k) u p pt).1 i
        - (euler_function_wrapper fout t x u p pt).1 i
        - ∑ j in Finset.range pt.x_size.toNat,
            (euler_jacobian_wrapper out t x u p pt).1 (mat_index ordering pt.x_size i j) * h j
      = pt.alpha * pt.ts *
          (g t (fun k => x k + h k) (u.shift pt.u_offset) p pt.data i
            - g t x (u.shift pt.u_offset) p pt.data i
            - ∑ j in Finset.range pt.x_size.toNat,
                J t x (u.shift pt.u_offset) p pt.data (mat_index ordering pt.x_size i j)
                  * h j) := by
  have hsum : ∑ j in Finset.range pt.x_size.toNat,
        (euler_jacobian_wrapper out t x u p pt).1 (mat_index ordering pt.x_size i j) * h j
      = pt.alpha * pt.ts * (∑ j in Finset.range pt.x_size.toNat,
          J t x (u.shift pt.u_offset) p pt.data (mat_index ordering pt.x_size i j) * h j)
        - h i := by
    have hmem : i ∈ Finset.range pt.x_size.toNat := by
      rw [Finset.mem_range]; omega
    rw [Finset.mul_sum]
    have : ∀ j ∈ Finset.range pt.x_size.toNat,
        (euler_jacobian_wrapper out t x u p pt).1 (mat_index ordering pt.x_size i j) * h j
        = pt.alpha * pt.ts * (J t x (u.shift pt.u_offset) p pt.data
            (mat_index ordering pt.x_size i j) * h j) - (if i = j then h j else 0) := by
      intro j hj
      rw [Finset.mem_range] at hj
      rw [euler_jacobian_wrapper_pure pt J hdf hw ordering out t x u p i j hi (by omega)]
      split <;> ring
    rw [Finset.sum_congr rfl this, Finset.sum_sub_distrib, Finset.sum_ite_eq, if_pos hmem]
  rw [hsum, euler_function_wrapper_apply pt fout t _ u p i hi,
    euler_function_wrapper_apply pt fout t x u p i hi, hf]
  simp only [ode_callback_apply _ _ _ _ _ _ _ _ _ hi]
  ring

/-- C3. Implicit Jacobian (exact real arithmetic): for every `x_size = N >= 1`, both
orderings and every proposed point `x`, when the callbacks write the vector field `g`
and its flattened Jacobian `J` and the second half of the Jacobian workspace is as
`euler` initialised it, `euler_jacobian_wrapper` writes at the position of every entry
`(i, j)` the value `alpha ts J(i, j) - (1 if i = j else 0)`, `J` being evaluated at
`(t, x, u + u_offset, p)` in the declared ordering; and this matrix `-I + alpha ts J` is
the derivative of the residual wrapper in `x`: wherever `J` is the (Frechet) derivative
of `g` in the state, the written matrix is the derivative of what
`euler_function_wrapper` writes. -/
theorem euler_jacobian_wrapper_entries {P D : Type} (N : Nat)
    (pt : euler_passthrough Real P D) (g J : Real → Buf Real → UBuf Real → P → D → Buf Real)
    (hN : pt.x_size = (N : Int))
    (hf : pt.f = ode_callback pt.x_size g)
    (hdf : pt.df = ode_callback (pt.x_size * pt.x_size) J)
    (hw : ∀ k : Nat, (k : Int) < pt.x_size * pt.x_size →
      pt.work_df ((pt.x_size * pt.x_size).toNat + k)
        = euler_init_work_df pt.x_size ((pt.x_size * pt.x_size).toNat + k))
    (ordering : Int) (out fout : Buf Real) (t : Real) (u : UBuf Real) (p : P) :
    (∀ (x : Buf Real) (i j : Nat), i < N → j < N →
      (euler_jacobian_wrapper out t x u p pt).1 (mat_index ordering pt.x_size i j)
        = pt.alpha * pt.ts * J t x (u.shift pt.u_offset) p pt.data
            (mat_index ordering pt.x_size i j)
          - (if i = j then 1 else 0)) ∧
    (∀ v : Fin N → Real,
      HasFDerivAt
        (fun w : Fin N → Real => fun i : Fin N =>
          g t (Buf.ofVec w) (u.shift pt.u_offset) p pt.data i)
        (LinearMap.toContinuousLinearMap (Matrix.toLin' (Matrix.of fun i j : Fin N =>
          J t (Buf.ofVec v) (u.shift pt.u_offset) p pt.data
            (mat_index ordering pt.x_size i j)))) v →
      HasFDerivAt
        (fun w : Fin N → Real => fun i : Fin N =>
          (euler_function_wrapper fout t (Buf.ofVec w) u p pt).1 i)
        (LinearMap.toContinuousLinearMap (Matrix.toLin' (Matrix.of fun i j : Fin N =>
          (euler_jacobian_wrapper out t (Buf.ofVec v) u p pt).1
            (mat_index ordering pt.x_size i j)))) v) := by
  have hlt : ∀ i : Nat, i < N → (i : Int) < pt.x_size := by
    intro i hi; rw [hN]; exact_mod_cast hi
  have entries : ∀ (x : Buf Real) (i j : Nat), i < N → j < N →
      (euler_jacobian_wrapper out t x u p pt).1 (mat_index ordering pt.x_size i j)
        = pt.alpha * pt.ts * J t x (u.shift pt.u_offset) p pt.data
            (mat_index ordering pt.x_size i j)
          - (if i = j then 1 else 0) :=
    fun x i j hi hj =>
      euler_jacobian_wrapper_pure pt J hdf hw ordering out t x u p i j (hlt i hi) (hlt j hj)
  refine ⟨entries, ?_⟩
  intro v hg
  have hG : (fun w : Fin N → Real => fun i : Fin N =>
        (euler_function_wrapper fout t (Buf.ofVec w) u p pt).1 i)
      = fun w => ((fun i : Fin N =>
            pt.xk i + (1 - pt.alpha) * pt.ts * g t pt.xk u p pt.data i) - w)
          + (pt.alpha * pt.ts) • (fun i : Fin N =>
            g t (Buf.ofVec w) (u.shift pt.u_offset) p pt.data i) := by
    funext w i
    rw [euler_function_wrapper_apply pt fout t _ u p i (hlt i i.2), hf]
    simp only [ode_callback_apply _ _ _ _ _ _ _ _ _ (hlt i i.2), Buf.ofVec, i.2, dif_pos,
      Fin.eta, Pi.add_apply, Pi.sub_apply, Pi.smul_apply, smul_eq_mul]
    ring
  rw [hG]
  have hd := ((hasFDerivAt_const
      (fun i : Fin N => pt.xk i + (1 - pt.alpha) * pt.ts * g t pt.xk u p pt.data i) v).sub
      (hasFDerivAt_id v)).add (hg.const_smul (pt.alpha * pt.ts))
  convert hd using 1
  ext h i
  simp only [LinearMap.coe_toContinuousLinearMap', Matrix.toLin'_apply, Matrix.mulVec,
    Matrix.dotProduct, Matrix.of_apply, ContinuousLinearMap.add_apply,
    ContinuousLinearMap.sub_apply, ContinuousLinearMap.zero_apply,
    ContinuousLinearMap.coe_id', id_eq, ContinuousLinearMap.coe_smul', Pi.add_apply,
    Pi.sub_apply, Pi.zero_apply, Pi.smul_apply, smul_eq_mul, zero_sub]
  have he : ∀ j : Fin N,
      (euler_jacobian_wrapper out t (Buf.ofVec v) u p pt).1 (mat_index ordering pt.x_size i j)
        = pt.alpha * pt.ts * J t (Buf.ofVec v) (u.shift pt.u_offset) p pt.data
            (mat_index ordering pt.x_size i j) - (if (i : Nat) = j then 1 else 0) :=
    fun j => entries _ i j i.2 j.2
  simp only [he, sub_mul, Finset.sum_sub_distrib, Finset.mul_sum, mul_assoc]
  simp [Fin.val_inj, Finset.sum_ite_eq]
  ring

/-- Witness of C3: the context `euler` builds for the scalar field over the reals. -/
theorem euler_jacobian_wrapper_entries_witness :
    (euler_pt (scalar_options (R := Real) 1 1 3) (fun _ => 1)).x_size = ((1 : Nat) : Int) ∧
    (euler_pt (scalar_options (R := Real) 1 1 3) (fun _ => 1)).f
      = ode_callback (euler_pt (scalar_options (R := Real) 1 1 3) (fun _ => 1)).x_size
          scalar_field ∧
    (euler_pt (scalar_options (R := Real) 1 1 3) (fun _ => 1)).df
      = ode_callback ((euler_pt (scalar_options (R := Real) 1 1 3) (fun _ => 1)).x_size
          * (euler_pt (scalar_options (R := Real) 1 1 3) (fun _ => 1)).x_size)
          scalar_field_jacobian ∧
    (euler_jacobian_wrapper calloc 0 (fun _ => 3) (fun _ => 0) ()
        (euler_pt (scalar_options (R := Real) 1 1 3) (fun _ => 1))).1
      (mat_index LAPACK_COL_MAJOR
        (euler_pt (scalar_options (R := Real) 1 1 3) (fun _ => 1)).x_size 0 0)
      = -3 :=
  ⟨rfl, rfl, rfl,
    ((euler_jacobian_wrapper_entries 1 (euler_pt (scalar_options (R := Real) 1 1 3)
        (fun _ => 1)) scalar_field scalar_field_jacobian rfl rfl rfl (fun _ _ => rfl)
        LAPACK_COL_MAJOR calloc calloc 0 (fun _ => 0) ()).1 (fun _ => 3) 0 0
        (by decide) (by decide)).trans
      (by simp [euler_pt, scalar_options, scalar_field_jacobian]; norm_num)⟩

/-! ### Status of the implicit step -/

/-- C4. Status mapping: on an implicit step (`alpha != 0`) whose two workspaces are
allocated, `euler` returns `EULER_SUCCESS` exactly when the outcome of its `newton_solve`
call is `NEWTON_F_TOL`, `NEWTON_X_TOL` or `NEWTON_MAX_ITER`, and `EULER_GENERIC` for every
other outcome (singular or illegal Jacobian, allocation error, generic error). -/
theorem euler_status_mapping (B : Backend R) (calloc_ok : Nat → Bool)
    (opt : euler_options R P D) (xp : Buf R) (t : R) (x : Buf R) (u : UBuf R) (p : P)
    (data : D) (ha : opt.alpha ≠ 0) (h0 : calloc_ok 0 = true) (h1 : calloc_ok 1 = true) :
    (euler B calloc_ok opt xp t x u p data).newton
      = some (euler_newton_call B calloc_ok opt xp t x u p) ∧
    ((euler B calloc_ok opt xp t x u p data).ret = EULER_SUCCESS ↔
      ((euler_newton_call B calloc_ok opt xp t x u p).ret = NEWTON_F_TOL ∨
       (euler_newton_call B calloc_ok opt xp t x u p).ret = NEWTON_X_TOL ∨
       (euler_newton_call B calloc_ok opt xp t x u p).ret = NEWTON_MAX_ITER)) ∧
    (((euler_newton_call B calloc_ok opt xp t x u p).ret = NEWTON_SINGULAR_JACOBIAN ∨
      (euler_newton_call B calloc_ok opt xp t x u p).ret = NEWTON_ILLEGAL_JACOBIAN ∨
      (euler_newton_call B calloc_ok opt xp t x u p).ret = NEWTON_MALLOC_ERROR ∨
      (euler_newton_call B calloc_ok opt xp t x u p).ret = NEWTON_GENERIC_ERROR) →
      (euler B calloc_ok opt xp t x u p data).ret = EULER_GENERIC) := by
  have e : euler B calloc_ok opt xp t x u p data
      = { ret := if (euler_newton_call B calloc_ok opt xp t x u p).ret.val
                    > NEWTON_MAX_ITER.val then EULER_GENERIC else EULER_SUCCESS,
          xp := (euler_newton_call B calloc_ok opt xp t x u p).x,
          log := [euler_event.calloc_work_f, euler_event.calloc_work_df]
            ++ (euler_newton_call B calloc_ok opt xp t x u p).data.calls
            ++ [euler_event.free_work_f, euler_event.free_work_df],
          newton := some (euler_newton_call B calloc_ok opt xp t x u p) } := by
    simp only [euler, if_neg ha, h0, h1, Bool.not_true, Bool.false_eq_true, if_false]
  rw [e]
  dsimp only
  generalize (euler_newton_call B calloc_ok opt xp t x u p).ret = nwt
  refine ⟨rfl, ?_, ?_⟩
  · cases nwt <;> simp [newton_ret.val]
  · cases nwt <;> simp [newton_ret.val]

/-- Witness of C4: an implicit step of the scalar field whose solve meets the residual
tolerance. -/
theorem euler_status_mapping_witness :
    (scalar_options (R := Int) 1 1 3).alpha ≠ 0 ∧ calloc_always 0 = true ∧ calloc_always 1 = true ∧
    (euler_newton_call scalar_backend calloc_always (scalar_options (R := Int) 1 1 3) calloc 0
        (fun _ => 0) scalar_input ()).ret = NEWTON_F_TOL ∧
    (euler scalar_backend calloc_always (scalar_options (R := Int) 1 1 3) calloc 0 (fun _ => 0)
        scalar_input () 100).ret = EULER_SUCCESS :=
  ⟨by decide, rfl, rfl, by decide,
    ((euler_status_mapping scalar_backend calloc_always (scalar_options (R := Int) 1 1 3) calloc 0
      (fun _ => 0) scalar_input () 100 (by decide) rfl rfl).2.1).mpr (Or.inl (by decide))⟩

/-! ### The Newton loop -/

/-- A pass of the loop body in which the residual is below tolerance. -/
theorem newton_body_F_TOL (B : Backend R) (opt : newton_options R P S) (lda ldb : Int)
    (t : R) (u : UBuf R) (p : P) (s : newton_state R S)
    (h : cblas_dnrm2 B opt.f_size (opt.f s.f t s.x u p s.data).1 < opt.f_tol) :
    newton_body B opt lda ldb t u p s
      = ({ s with f := (opt.f s.f t s.x u p s.data).1,
                  data := (opt.f s.f t s.x u p s.data).2,
                  f_tol := cblas_dnrm2 B opt.f_size (opt.f s.f t s.x u p s.data).1,
                  ret := NEWTON_F_TOL,
                  log := s.log ++ [newton_event.eval_f] }, true) := by
  simp only [newton_body, h, if_true]

/-- A pass of the loop body that runs through to the update. -/
theorem newton_body_update (B : Backend R) (opt : newton_options R P S) (lda ldb : Int)
    (t : R) (u : UBuf R) (p : P) (s : newton_state R S)
    (h1 : ¬ cblas_dnrm2 B opt.f_size (opt.f s.f t s.x u p s.data).1 < opt.f_tol)
    (h2 : (B.dgels opt.ordering 'N' opt.f_size opt.x_size 1
        (opt.df s.df t s.x u p (opt.f s.f t s.x u p s.data).2).1 lda
        (cblas_dscal opt.f_size (-1) (opt.f s.f t s.x u p s.data).1) ldb).1 = 0)
    (h3 : ¬ cblas_dnrm2 B opt.x_size (B.dgels opt.ordering 'N' opt.f_size opt.x_size 1
        (opt.df s.df t s.x u p (opt.f s.f t s.x u p s.data).2).1 lda
        (cblas_dscal opt.f_size (-1) (opt.f s.f t s.x u p s.data).1) ldb).2.2 < opt.x_tol) :
    newton_body B opt lda ldb t u p s
      = ({ s with
            x := cblas_daxpy opt.x_size 1 (B.dgels opt.ordering 'N' opt.f_size opt.x_size 1
              (opt.df s.df t s.x u p (opt.f s.f t s.x u p s.data).2).1 lda
              (cblas_dscal opt.f_size (-1) (opt.f s.f t s.x u p s.data).1) ldb).2.2 s.x,
            f := (B.dgels opt.ordering 'N' opt.f_size opt.x_size 1
              (opt.df s.df t s.x u p (opt.f s.f t s.x u p s.data).2).1 lda
              (cblas_dscal opt.f_size (-1) (opt.f s.f t s.x u p s.data).1) ldb).2.2,
            df := (B.dgels opt.ordering 'N' opt.f_size opt.x_size 1
              (opt.df s.df t s.x u p (opt.f s.f t s.x u p s.data).2).1 lda
              (cblas_dscal opt.f_size (-1) (opt.f s.f t s.x u p s.data).1) ldb).2.1,
            data := (opt.df s.df t s.x u p (opt.f s.f t s.x u p s.data).2).2,
            f_tol := cblas_dnrm2 B opt.f_size (opt.f s.f t s.x u p s.data).1,
            x_tol := cblas_dnrm2 B opt.x_size (B.dgels opt.ordering 'N' opt.f_size
              opt.x_size 1 (opt.df s.df t s.x u p (opt.f s.f t s.x u p s.data).2).1 lda
              (cblas_dscal opt.f_size (-1) (opt.f s.f t s.x u p s.data).1) ldb).2.2,
            counts := s.counts + 1,
            log := s.log ++ [newton_event.eval_f, newton_event.eval_df,
              newton_event.solve 0, newton_event.step_norm, newton_event.update] },
          false) := by
  simp only [newton_body, h1, h2, h3, if_false, ne_eq, not_true_eq_false]


theorem newton_loop_break (B : Backend R) (opt : newton_options R P S) (lda ldb : Int)
    (t : R) (u : UBuf R) (p : P) (fuel : Nat) (s : newton_state R S)
    (hg : s.counts ≤ opt.max_iter) (hb : (newton_body B opt lda ldb t u p s).2 = true) :
    newton_loop B opt lda ldb t u p (fuel + 1) s = (newton_body B opt lda ldb t u p s).1 := by
  simp only [newton_loop, hg, if_true, hb]

theorem newton_loop_continue (B : Backend R) (opt : newton_options R P S) (lda ldb : Int)
    (t : R) (u : UBuf R) (p : P) (fuel : Nat) (s : newton_state R S)
    (hg : s.counts ≤ opt.max_iter) (hb : (newton_body B opt lda ldb t u p s).2 = false) :
    newton_loop B opt lda ldb t u p (fuel + 1) s
      = newton_loop B opt lda ldb t u p fuel (newton_body B opt lda ldb t u p s).1 := by
  simp only [newton_loop, hg, if_true, hb, Bool.false_eq_true, if_false]

theorem newton_loop_exit (B : Backend R) (opt : newton_options R P S) (lda ldb : Int)
    (t : R) (u : UBuf R) (p : P) (fuel : Nat) (s : newton_state R S)
    (hg : ¬ s.counts ≤ opt.max_iter) :
    newton_loop B opt lda ldb t u p fuel s = s := by
  cases fuel with
  | zero => rfl
  | succ k => simp only [newton_loop, hg, if_false]

theorem newton_solve_of_calloc (B : Backend R) (calloc_ok : Nat → Bool)
    (opt : newton_options R P S) (t : R) (x : Buf R) (u : UBuf R) (p : P) (data : S)
    (h0 : calloc_ok 0 = true) (h1 : calloc_ok 1 = true) :
    newton_solve B calloc_ok opt t x u p data
      = { ret := if opt.max_iter ≤ (newton_run B opt t x u p data).counts
                 then NEWTON_MAX_ITER else (newton_run B opt t x u p data).ret,
          x := (newton_run B opt t x u p data).x,
          f_tol := (newton_run B opt t x u p data).f_tol,
          x_tol := (newton_run B opt t x u p data).x_tol,
          max_iter := (newton_run B opt t x u p data).counts,
          data := (newton_run B opt t x u p data).data,
          log := (newton_run B opt t x u p data).log
            ++ [newton_event.free_f, newton_event.free_df] } := by
  simp only [newton_solve, h0, h1, Bool.not_true, Bool.false_eq_true, if_false]

/-- A pass that does not break advances the counter by one. -/
theorem newton_body_counts (B : Backend R) (opt : newton_options R P S) (lda ldb : Int)
    (t : R) (u : UBuf R) (p : P) (s : newton_state R S)
    (h : (newton_body B opt lda ldb t u p s).2 = false) :
    (newton_body B opt lda ldb t u p s).1.counts = s.counts + 1 := by
  unfold newton_body at h ⊢
  dsimp only at h ⊢
  split_ifs at h ⊢
  all_goals simp_all

/-- More fuel than `max_iter + 1 - counts` passes changes nothing: the loop of
`newton_solve` never stops for lack of fuel. -/
theorem newton_loop_fuel (B : Backend R) (opt : newton_options R P S) (lda ldb : Int)
    (t : R) (u : UBuf R) (p : P) (fuel extra : Nat) (s : newton_state R S)
    (h : (opt.max_iter + 1 - s.counts).toNat ≤ fuel) :
    newton_loop B opt lda ldb t u p (fuel + extra) s = newton_loop B opt lda ldb t u p fuel s := by
  induction fuel generalizing s with
  | zero =>
    have hc : ¬ s.counts ≤ opt.max_iter := by omega
    cases extra with
    | zero => rfl
    | succ e => simp [newton_loop, hc]
  | succ n ih =>
    rw [show n + 1 + extra = (n + extra) + 1 by omega]
    simp only [newton_loop]
    split_ifs with hc hb
    · rfl
    · apply ih
      have := newton_body_counts B opt lda ldb t u p s (by simpa using hb)
      omega
    · rfl

/-- The data invariant `Inv` is kept by a pass of the body. -/
theorem newton_body_data (B : Backend R) (opt : newton_options R P S) (lda ldb : Int)
    (t : R) (u : UBuf R) (p : P) (Inv : S → Prop)
    (hf : ∀ out x d, Inv d → Inv (opt.f out t x u p d).2)
    (hdf : ∀ out x d, Inv d → Inv (opt.df out t x u p d).2)
    (s : newton_state R S) (hs : Inv s.data) :
    Inv (newton_body B opt lda ldb t u p s).1.data := by
  unfold newton_body
  dsimp only
  split_ifs
  all_goals first
    | exact hf _ _ _ hs
    | exact hdf _ _ _ (hf _ _ _ hs)

/-- A pass that does not break leaves `ret` alone. -/
theorem newton_body_ret_of_continue (B : Backend R) (opt : newton_options R P S)
    (lda ldb : Int) (t : R) (u : UBuf R) (p : P) (s : newton_state R S)
    (h : (newton_body B opt lda ldb t u p s).2 = false) :
    (newton_body B opt lda ldb t u p s).1.ret = s.ret := by
  unfold newton_body at h ⊢
  dsimp only at h ⊢
  split_ifs at h ⊢
  all_goals rfl

/-- A pass that breaks with `NEWTON_F_TOL` kept `x` and found the residual at `x` below
tolerance. -/
theorem newton_body_ret_F_TOL (B : Backend R) (opt : newton_options R P S)
    (lda ldb : Int) (t : R) (u : UBuf R) (p : P) (s : newton_state R S)
    (hb : (newton_body B opt lda ldb t u p s).2 = true)
    (h : (newton_body B opt lda ldb t u p s).1.ret = NEWTON_F_TOL) :
    (newton_body B opt lda ldb t u p s).1.x = s.x ∧
    cblas_dnrm2 B opt.f_size (opt.f s.f t s.x u p s.data).1 < opt.f_tol := by
  unfold newton_body at hb h ⊢
  dsimp only at hb h ⊢
  split_ifs at hb h ⊢ with h1 h2 h3 h4
  · exact ⟨rfl, h1⟩

/-- When the loop, entered with `ret` other than `NEWTON_F_TOL`, ends with
`NEWTON_F_TOL`, the residual callback evaluated at the final `x` (on some output buffer
and data satisfying the invariant) has norm below the configured tolerance. -/
theorem newton_loop_F_TOL (B : Backend R) (opt : newton_options R P S) (lda ldb : Int)
    (t : R) (u : UBuf R) (p : P) (Inv : S → Prop)
    (hf : ∀ out x d, Inv d → Inv (opt.f out t x u p d).2)
    (hdf : ∀ out x d, Inv d → Inv (opt.df out t x u p d).2)
    (fuel : Nat) (s : newton_state R S) (hs : Inv s.data) (hret : s.ret ≠ NEWTON_F_TOL)
    (h : (newton_loop B opt lda ldb t u p fuel s).ret = NEWTON_F_TOL) :
    ∃ out d, Inv d ∧
      cblas_dnrm2 B opt.f_size
        (opt.f out t (newton_loop B opt lda ldb t u p fuel s).x u p d).1 < opt.f_tol := by
  induction fuel generalizing s with
  | zero => exact absurd h hret
  | succ k ih =>
    by_cases hg : s.counts ≤ opt.max_iter
    · cases hb : (newton_body B opt lda ldb t u p s).2 with
      | true =>
        rw [newton_loop_break B opt lda ldb t u p k s hg hb] at h ⊢
        obtain ⟨hx, hlt⟩ := newton_body_ret_F_TOL B opt lda ldb t u p s hb h
        rw [hx]
        exact ⟨s.f, s.data, hs, hlt⟩
      | false =>
        rw [newton_loop_continue B opt lda ldb t u p k s hg hb] at h ⊢
        apply ih _ (newton_body_data B opt lda ldb t u p Inv hf hdf s hs) _ h
        rw [newton_body_ret_of_continue B opt lda ldb t u p s hb]
        exact hret
    · rw [newton_loop_exit B opt lda ldb t u p (k + 1) s hg] at h
      exact absurd h hret

/-- After `k` passes that ran through, the counter has advanced by `k`. -/
theorem newton_passes_counts (B : Backend R) (opt : newton_options R P S) (lda ldb : Int)
    (t : R) (u : UBuf R) (p : P) (k : Nat) (s s1 : newton_state R S)
    (h : newton_passes B opt lda ldb t u p k s = some s1) : s1.counts = s.counts + k := by
  induction k generalizing s with
  | zero =>
    simp only [newton_passes, Option.some.injEq] at h
    subst h
    simp
  | succ n ih =>
    simp only [newton_passes] at h
    split_ifs at h with hg hb
    have := ih _ h
    have hc := newton_body_counts B opt lda ldb t u p s (by simpa using hb)
    rw [this, hc]
    push_cast
    ring

/-- The loop run from `s` goes through the states `newton_passes` lists. -/
theorem newton_loop_of_passes (B : Backend R) (opt : newton_options R P S) (lda ldb : Int)
    (t : R) (u : UBuf R) (p : P) (k fuel : Nat) (s s1 : newton_state R S)
    (h : newton_passes B opt lda ldb t u p k s = some s1) :
    newton_loop B opt lda ldb t u p (k + fuel) s = newton_loop B opt lda ldb t u p fuel s1 := by
  induction k generalizing s with
  | zero =>
    simp only [newton_passes, Option.some.injEq] at h
    subst h
    rw [Nat.zero_add]
  | succ n ih =>
    simp only [newton_passes] at h
    split_ifs at h with hg hb
    rw [show n + 1 + fuel = (n + fuel) + 1 by omega,
      newton_loop_continue B opt lda ldb t u p (n + fuel) s hg (by simpa using hb)]
    exact ih _ h

/-- A pass of the loop body in which the least-squares solve fails. -/
theorem newton_body_fail (B : Backend R) (opt : newton_options R P S) (lda ldb : Int)
    (t : R) (u : UBuf R) (p : P) (s : newton_state R S)
    (h1 : ¬ cblas_dnrm2 B opt.f_size (opt.f s.f t s.x u p s.data).1 < opt.f_tol)
    (h2 : (B.dgels opt.ordering 'N' opt.f_size opt.x_size 1
        (opt.df s.df t s.x u p (opt.f s.f t s.x u p s.data).2).1 lda
        (cblas_dscal opt.f_size (-1) (opt.f s.f t s.x u p s.data).1) ldb).1 ≠ 0) :
    (newton_body B opt lda ldb t u p s).2 = true ∧
    (newton_body B opt lda ldb t u p s).1.x = s.x ∧
    (newton_body B opt lda ldb t u p s).1.counts = s.counts ∧
    (newton_body B opt lda ldb t u p s).1.ret
      = if (B.dgels opt.ordering 'N' opt.f_size opt.x_size 1
          (opt.df s.df t s.x u p (opt.f s.f t s.x u p s.data).2).1 lda
          (cblas_dscal opt.f_size (-1) (opt.f s.f t s.x u p s.data).1) ldb).1 > 0
        then NEWTON_SINGULAR_JACOBIAN else NEWTON_ILLEGAL_JACOBIAN := by
  simp only [newton_body, h1, h2, if_false, ne_eq, not_false_eq_true, if_true, and_self]

/-- A least-squares failure in an iteration that is within the budget (`k < max_iter`)
is classified by the sign of the diagnostic code, and `x` stays at that iterate. -/
theorem newton_solve_failure_classified (B : Backend R) (calloc_ok : Nat → Bool)
    (opt : newton_options R P S) (t : R) (x : Buf R) (u : UBuf R) (p : P) (data : S)
    (k : Nat) (s : newton_state R S)
    (h0 : calloc_ok 0 = true) (h1 : calloc_ok 1 = true)
    (hk : newton_head B opt t x u p data k = some s)
    (hlt : (k : Int) < opt.max_iter)
    (hres : ¬ cblas_dnrm2 B opt.f_size (opt.f s.f t s.x u p s.data).1 < opt.f_tol)
    (hfail : (B.dgels opt.ordering 'N' opt.f_size opt.x_size 1
        (opt.df s.df t s.x u p (opt.f s.f t s.x u p s.data).2).1 opt.f_size
        (cblas_dscal opt.f_size (-1) (opt.f s.f t s.x u p s.data).1)
        (if opt.f_size > opt.x_size then opt.f_size else opt.x_size)).1 ≠ 0) :
    (newton_solve B calloc_ok opt t x u p data).ret
      = (if (B.dgels opt.ordering 'N' opt.f_size opt.x_size 1
          (opt.df s.df t s.x u p (opt.f s.f t s.x u p s.data).2).1 opt.f_size
          (cblas_dscal opt.f_size (-1) (opt.f s.f t s.x u p s.data).1)
          (if opt.f_size > opt.x_size then opt.f_size else opt.x_size)).1 > 0
        then NEWTON_SINGULAR_JACOBIAN else NEWTON_ILLEGAL_JACOBIAN) ∧
    (newton_solve B calloc_ok opt t x u p data).x = s.x ∧
    (newton_solve B calloc_ok opt t x u p data).max_iter = k := by
  unfold newton_head at hk
  dsimp only at hk
  have hc := newton_passes_counts B opt _ _ t u p k _ s hk
  have hc0 : s.counts = k := by
    rw [hc]; simp [newton_init]
  obtain ⟨m, hm⟩ : ∃ m, (opt.max_iter + 1).toNat = k + (m + 1) :=
    ⟨(opt.max_iter + 1).toNat - k - 1, by omega⟩
  obtain ⟨hb, hx, hcnt, hret⟩ := newton_body_fail B opt opt.f_size
    (if opt.f_size > opt.x_size then opt.f_size else opt.x_size) t u p s hres hfail
  have hrun : newton_run B opt t x u p data
      = (newton_body B opt opt.f_size
          (if opt.f_size > opt.x_size then opt.f_size else opt.x_size) t u p s).1 := by
    unfold newton_run
    dsimp only
    rw [hm, newton_loop_of_passes B opt _ _ t u p k (m + 1) _ s hk,
      newton_loop_break B opt _ _ t u p m s (by rw [hc0]; omega) hb]
  rw [newton_solve_of_calloc B calloc_ok opt t x u p data h0 h1, hrun]
  dsimp only
  rw [hcnt, hc0, if_neg (by omega), hret, hx]
  exact ⟨rfl, rfl, rfl⟩

/-- A pass that breaks leaves the counter alone. -/
theorem newton_body_counts_of_break (B : Backend R) (opt : newton_options R P S)
    (lda ldb : Int) (t : R) (u : UBuf R) (p : P) (s : newton_state R S)
    (h : (newton_body B opt lda ldb t u p s).2 = true) :
    (newton_body B opt lda ldb t u p s).1.counts = s.counts := by
  unfold newton_body at h ⊢
  dsimp only at h ⊢
  split_ifs at h ⊢
  all_goals rfl

/-- The loop never takes the counter beyond `max_iter + 1`. -/
theorem newton_loop_counts_le (B : Backend R) (opt : newton_options R P S) (lda ldb : Int)
    (t : R) (u : UBuf R) (p : P) (fuel : Nat) (s : newton_state R S)
    (h : s.counts ≤ opt.max_iter + 1) :
    (newton_loop B opt lda ldb t u p fuel s).counts ≤ opt.max_iter + 1 := by
  induction fuel generalizing s with
  | zero => exact h
  | succ n ih =>
    by_cases hg : s.counts ≤ opt.max_iter
    · cases hb : (newton_body B opt lda ldb t u p s).2 with
      | true =>
        rw [newton_loop_break B opt lda ldb t u p n s hg hb,
          newton_body_counts_of_break B opt lda ldb t u p s hb]
        exact h
      | false =>
        rw [newton_loop_continue B opt lda ldb t u p n s hg hb]
        apply ih
        rw [newton_body_counts B opt lda ldb t u p s hb]
        omega
    · rw [newton_loop_exit B opt lda ldb t u p (n + 1) s hg]
      exact h

/-- The iteration count `newton_solve` records is at most `max_iter + 1` (for
`max_iter >= -1`). -/
theorem newton_solve_count_le (B : Backend R) (calloc_ok : Nat → Bool)
    (opt : newton_options R P S) (t : R) (x : Buf R) (u : UBuf R) (p : P) (data : S)
    (h0 : calloc_ok 0 = true) (h1 : calloc_ok 1 = true) (hm : -1 ≤ opt.max_iter) :
    (newton_solve B calloc_ok opt t x u p data).max_iter ≤ opt.max_iter + 1 := by
  rw [newton_solve_of_calloc B calloc_ok opt t x u p data h0 h1]
  dsimp only
  unfold newton_run
  dsimp only
  apply newton_loop_counts_le
  simp [newton_init]
  omega

/-- The loop of `newton_solve` is run with the leading dimensions `newton_lda` and
`newton_ldb`. -/
theorem newton_run_eq (B : Backend R) (opt : newton_options R P S) (t : R) (x : Buf R)
    (u : UBuf R) (p : P) (data : S) :
    newton_run B opt t x u p data
      = newton_loop B opt (newton_lda opt) (newton_ldb opt) t u p (opt.max_iter + 1).toNat
          (newton_init opt x data) := rfl

/-- The iterations of `newton_solve` are counted with the same leading dimensions. -/
theorem newton_head_eq (B : Backend R) (opt : newton_options R P S) (t : R) (x : Buf R)
    (u : UBuf R) (p : P) (data : S) (k : Nat) :
    newton_head B opt t x u p data k
      = newton_passes B opt (newton_lda opt) (newton_ldb opt) t u p k
          (newton_init opt x data) := rfl

/-- The four ways through the loop body. -/
theorem newton_body_cases (B : Backend R) (opt : newton_options R P S) (lda ldb : Int)
    (t : R) (u : UBuf R) (p : P) (s : newton_state R S) :
    (cblas_dnrm2 B opt.f_size (opt.f s.f t s.x u p s.data).1 < opt.f_tol ∧
      (newton_body B opt lda ldb t u p s).2 = true ∧
      (newton_body B opt lda ldb t u p s).1.ret = NEWTON_F_TOL ∧
      (newton_body B opt lda ldb t u p s).1.x = s.x ∧
      (newton_body B opt lda ldb t u p s).1.x_tol = s.x_tol ∧
      (newton_body B opt lda ldb t u p s).1.counts = s.counts ∧
      (newton_body B opt lda ldb t u p s).1.f_tol
        = cblas_dnrm2 B opt.f_size (opt.f s.f t s.x u p s.data).1) ∨
    (¬ cblas_dnrm2 B opt.f_size (opt.f s.f t s.x u p s.data).1 < opt.f_tol ∧
      (B.dgels opt.ordering 'N' opt.f_size opt.x_size 1
        (opt.df s.df t s.x u p (opt.f s.f t s.x u p s.data).2).1 lda
        (cblas_dscal opt.f_size (-1) (opt.f s.f t s.x u p s.data).1) ldb).1 ≠ 0 ∧
      (newton_body B opt lda ldb t u p s).2 = true ∧
      ((newton_body B opt lda ldb t u p s).1.ret = NEWTON_SINGULAR_JACOBIAN ∨
        (newton_body B opt lda ldb t u p s).1.ret = NEWTON_ILLEGAL_JACOBIAN) ∧
      (newton_body B opt lda ldb t u p s).1.x = s.x ∧
      (newton_body B opt lda ldb t u p s).1.x_tol = s.x_tol ∧
      (newton_body B opt lda ldb t u p s).1.counts = s.counts ∧
      (newton_body B opt lda ldb t u p s).1.f_tol
        = cblas_dnrm2 B opt.f_size (opt.f s.f t s.x u p s.data).1) ∨
    (¬ cblas_dnrm2 B opt.f_size (opt.f s.f t s.x u p s.data).1 < opt.f_tol ∧
      (B.dgels opt.ordering 'N' opt.f_size opt.x_size 1
        (opt.df s.df t s.x u p (opt.f s.f t s.x u p s.data).2).1 lda
        (cblas_dscal opt.f_size (-1) (opt.f s.f t s.x u p s.data).1) ldb).1 = 0 ∧
      cblas_dnrm2 B opt.x_size (B.dgels opt.ordering 'N' opt.f_size opt.x_size 1
        (opt.df s.df t s.x u p (opt.f s.f t s.x u p s.data).2).1 lda
        (cblas_dscal opt.f_size (-1) (opt.f s.f t s.x u p s.data).1) ldb).2.2 < opt.x_tol ∧
      (newton_body B opt lda ldb t u p s).2 = true ∧
      (newton_body B opt lda ldb t u p s).1.ret = NEWTON_X_TOL ∧
      (newton_body B opt lda ldb t u p s).1.x = s.x ∧
      (newton_body B opt lda ldb t u p s).1.x_tol
        = cblas_dnrm2 B opt.x_size (B.dgels opt.ordering 'N' opt.f_size opt.x_size 1
          (opt.df s.df t s.x u p (opt.f s.f t s.x u p s.data).2).1 lda
          (cblas_dscal opt.f_size (-1) (opt.f s.f t s.x u p s.data).1) ldb).2.2 ∧
      (newton_body B opt lda ldb t u p s).1.counts = s.counts ∧
      (newton_body B opt lda ldb t u p s).1.f_tol
        = cblas_dnrm2 B opt.f_size (opt.f s.f t s.x u p s.data).1) ∨
    (¬ cblas_dnrm2 B opt.f_size (opt.f s.f t s.x u p s.data).1 < opt.f_tol ∧
      (B.dgels opt.ordering 'N' opt.f_size opt.x_size 1
        (opt.df s.df t s.x u p (opt.f s.f t s.x u p s.data).2).1 lda
        (cblas_dscal opt.f_size (-1) (opt.f s.f t s.x u p s.data).1) ldb).1 = 0 ∧
      ¬ cblas_dnrm2 B opt.x_size (B.dgels opt.ordering 'N' opt.f_size opt.x_size 1
        (opt.df s.df t s.x u p (opt.f s.f t s.x u p s.data).2).1 lda
        (cblas_dscal opt.f_size (-1) (opt.f s.f t s.x u p s.data).1) ldb).2.2 < opt.x_tol ∧
      (newton_body B opt lda ldb t u p s).2 = false ∧
      (newton_body B opt lda ldb t u p s).1.ret = s.ret ∧
      (newton_body B opt lda ldb t u p s).1.x
        = cblas_daxpy opt.x_size 1 (B.dgels opt.ordering 'N' opt.f_size opt.x_size 1
          (opt.df s.df t s.x u p (opt.f s.f t s.x u p s.data).2).1 lda
          (cblas_dscal opt.f_size (-1) (opt.f s.f t s.x u p s.data).1) ldb).2.2 s.x ∧
      (newton_body B opt lda ldb t u p s).1.x_tol
        = cblas_dnrm2 B opt.x_size (B.dgels opt.ordering 'N' opt.f_size opt.x_size 1
          (opt.df s.df t s.x u p (opt.f s.f t s.x u p s.data).2).1 lda
          (cblas_dscal opt.f_size (-1) (opt.f s.f t s.x u p s.data).1) ldb).2.2 ∧
      (newton_body B opt lda ldb t u p s).1.counts = s.counts + 1 ∧
      (newton_body B opt lda ldb t u p s).1.f_tol
        = cblas_dnrm2 B opt.f_size (opt.f s.f t s.x u p s.data).1) := by
  by_cases h1 : cblas_dnrm2 B opt.f_size (opt.f s.f t s.x u p s.data).1 < opt.f_tol
  · left
    simp only [newton_body, h1, if_true, and_self]
  · right
    by_cases h2 : (B.dgels opt.ordering 'N' opt.f_size opt.x_size 1
        (opt.df s.df t s.x u p (opt.f s.f t s.x u p s.data).2).1 lda
        (cblas_dscal opt.f_size (-1) (opt.f s.f t s.x u p s.data).1) ldb).1 = 0
    · right
      by_cases h3 : cblas_dnrm2 B opt.x_size (B.dgels opt.ordering 'N' opt.f_size
          opt.x_size 1 (opt.df s.df t s.x u p (opt.f s.f t s.x u p s.data).2).1 lda
          (cblas_dscal opt.f_size (-1) (opt.f s.f t s.x u p s.data).1) ldb).2.2 < opt.x_tol
      · left
        simp only [newton_body, h1, h2, h3, if_false, if_true, ne_eq, not_true_eq_false,
          not_false_eq_true, and_self]
      · right
        simp only [newton_body, h1, h2, h3, if_false, ne_eq, not_true_eq_false,
          not_false_eq_true, and_self]
    · left
      refine ⟨h1, h2, ?_⟩
      simp only [newton_body, h1, h2, if_false, if_true, ne_eq, not_false_eq_true, true_and,
        and_true]
      split_ifs
      · left; rfl
      · right; rfl

/-- An invariant of the data that both callbacks keep is kept by the loop. -/
theorem newton_loop_data (B : Backend R) (opt : newton_options R P S) (lda ldb : Int)
    (t : R) (u : UBuf R) (p : P) (Inv : S → Prop)
    (hf : ∀ out x d, Inv d → Inv (opt.f out t x u p d).2)
    (hdf : ∀ out x d, Inv d → Inv (opt.df out t x u p d).2)
    (fuel : Nat) (s : newton_state R S) (hs : Inv s.data) :
    Inv (newton_loop B opt lda ldb t u p fuel s).data := by
  induction fuel generalizing s with
  | zero => exact hs
  | succ k ih =>
    by_cases hg : s.counts ≤ opt.max_iter
    · cases hb : (newton_body B opt lda ldb t u p s).2 with
      | true =>
        rw [newton_loop_break B opt lda ldb t u p k s hg hb]
        exact newton_body_data B opt lda ldb t u p Inv hf hdf s hs
      | false =>
        rw [newton_loop_continue B opt lda ldb t u p k s hg hb]
        exact ih _ (newton_body_data B opt lda ldb t u p Inv hf hdf s hs)
    · rw [newton_loop_exit B opt lda ldb t u p (k + 1) s hg]
      exact hs

/-- An invariant of the data that both callbacks keep holds of the data `newton_solve`
leaves behind. -/
theorem newton_solve_data (B : Backend R) (calloc_ok : Nat → Bool)
    (opt : newton_options R P S) (t : R) (x : Buf R) (u : UBuf R) (p : P) (data : S)
    (Inv : S → Prop)
    (hf : ∀ out x d, Inv d → Inv (opt.f out t x u p d).2)
    (hdf : ∀ out x d, Inv d → Inv (opt.df out t x u p d).2)
    (hs : Inv data) :
    Inv (newton_solve B calloc_ok opt t x u p data).data := by
  unfold newton_solve
  split_ifs
  · exact hs
  · exact hs
  · exact newton_loop_data B opt _ _ t u p Inv hf hdf _ _ hs

/-- The implicit step invokes the user callbacks with the user data of the options, and
records nothing else in the log of the context. -/
theorem euler_calls_ok_newton (B : Backend R) (calloc_ok : Nat → Bool)
    (opt : euler_options R P D) (xp : Buf R) (t : R) (x : Buf R) (u : UBuf R) (p : P) :
    euler_calls_ok opt (euler_newton_call B calloc_ok opt xp t x u p).data := by
  unfold euler_newton_call
  apply newton_solve_data
  · intro out x' d hd
    obtain ⟨h1, h2⟩ := hd
    refine ⟨h1, ?_⟩
    intro e he
    simp only [euler_newton_opts, euler_function_wrapper, List.mem_append, List.mem_cons,
      List.mem_singleton, List.not_mem_nil, or_false] at he
    rcases he with he | he | he
    · exact h2 e he
    · left; rw [he, h1]
    · left; rw [he, h1]
  · intro out x' d hd
    obtain ⟨h1, h2⟩ := hd
    refine ⟨h1, ?_⟩
    intro e he
    simp only [euler_newton_opts, euler_jacobian_wrapper, List.mem_append, List.mem_cons,
      List.mem_singleton, List.not_mem_nil, or_false] at he
    rcases he with he | he
    · exact h2 e he
    · right; rw [he, h1]
  · exact ⟨rfl, by simp [euler_pt]⟩

/-- A call of `euler_jacobian_wrapper` changes the Jacobian workspace only where the
user callback does, or below `x_size * x_size`. -/
theorem euler_jacobian_wrapper_frame (pt : euler_passthrough R P D) (out : Buf R) (t : R)
    (x : Buf R) (u : UBuf R) (p : P) (k : Nat)
    (hk : ¬ (k : Int) < pt.x_size * pt.x_size) :
    (euler_jacobian_wrapper out t x u p pt).2.work_df k
      = (pt.df pt.work_df t x (u.shift pt.u_offset) p pt.data) k := by
  simp only [euler_jacobian_wrapper, cblas_daxpy, cblas_dscal, hk, if_false]

/-- The head of iteration `k + 1` is reached from the head of iteration `k` by a pass
that runs through to its update. -/
theorem newton_passes_succ (B : Backend R) (opt : newton_options R P S) (lda ldb : Int)
    (t : R) (u : UBuf R) (p : P) (k : Nat) (s0 s1 : newton_state R S) :
    newton_passes B opt lda ldb t u p (k + 1) s0 = some s1 ↔
      ∃ s, newton_passes B opt lda ldb t u p k s0 = some s ∧ s.counts ≤ opt.max_iter ∧
        (newton_body B opt lda ldb t u p s).2 = false ∧
        s1 = (newton_body B opt lda ldb t u p s).1 := by
  induction k generalizing s0 with
  | zero =>
    simp only [newton_passes]
    constructor
    · intro h
      split_ifs at h with hg hb
      simp only [Option.some.injEq] at h
      exact ⟨s0, rfl, hg, by simpa using hb, h.symm⟩
    · rintro ⟨s, hs, hg, hb, h1⟩
      simp only [Option.some.injEq] at hs
      subst hs
      simp only [hg, if_true, hb, Bool.false_eq_true, if_false, h1]
  | succ n ih =>
    rw [newton_passes]
    by_cases hg : s0.counts ≤ opt.max_iter
    · cases hb : (newton_body B opt lda ldb t u p s0).2 with
      | true =>
        simp only [hg, if_true, hb]
        constructor
        · intro h; exact absurd h (by simp)
        · rintro ⟨s, hs, _⟩
          simp only [newton_passes, hg, if_true, hb] at hs
          exact absurd hs (by simp)
      | false =>
        simp only [hg, if_true, hb, Bool.false_eq_true, if_false]
        rw [ih]
        constructor
        · rintro ⟨s, hs, h⟩
          refine ⟨s, ?_, h⟩
          rw [newton_passes]
          simp only [hg, if_true, hb, Bool.false_eq_true, if_false]
          exact hs
        · rintro ⟨s, hs, h⟩
          refine ⟨s, ?_, h⟩
          rw [newton_passes] at hs
          simp only [hg, if_true, hb, Bool.false_eq_true, if_false] at hs
          exact hs
    · simp only [hg, if_false]
      constructor
      · intro h; exact absurd h (by simp)
      · rintro ⟨s, hs, _⟩
        rw [newton_passes] at hs
        simp only [hg, if_false] at hs
        exact absurd hs (by simp)


/-- After `k` passes from the entry state the counter is `k`. -/
theorem newton_head_counts (B : Backend R) (opt : newton_options R P S) (t : R) (x : Buf R)
    (u : UBuf R) (p : P) (data : S) (k : Nat) (s : newton_state R S)
    (hk : newton_head B opt t x u p data k = some s) : s.counts = k := by
  rw [newton_head_eq] at hk
  rw [newton_passes_counts B opt _ _ t u p k _ s hk]
  simp [newton_init]

/-- The run of `newton_solve`, seen from the head of an iteration that passes the loop
guard. -/
theorem newton_run_of_head (B : Backend R) (opt : newton_options R P S) (t : R) (x : Buf R)
    (u : UBuf R) (p : P) (data : S) (k : Nat) (s : newton_state R S)
    (hk : newton_head B opt t x u p data k = some s) (hg : s.counts ≤ opt.max_iter) :
    ∃ m : Nat, newton_run B opt t x u p data
      = newton_loop B opt (newton_lda opt) (newton_ldb opt) t u p (m + 1) s ∧
      (m : Int) = opt.max_iter - k := by
  have hc := newton_head_counts B opt t x u p data k s hk
  rw [hc] at hg
  obtain ⟨m, hm⟩ : ∃ m, (opt.max_iter + 1).toNat = k + (m + 1) :=
    ⟨(opt.max_iter + 1).toNat - k - 1, by omega⟩
  refine ⟨m, ?_, by omega⟩
  rw [newton_run_eq, hm]
  exact newton_loop_of_passes B opt _ _ t u p k _ _ s (by rw [← newton_head_eq]; exact hk)

/-! ### Affine vector fields -/

/-- The flattened Jacobian of the affine field holds `A i j` at the position of entry
`(i, j)`. -/
theorem affine_jacobian_apply (ordering : Int) (n : Nat) (A : Nat → Nat → R) (t : R)
    (x : Buf R) (u : UBuf R) (p : P) (d : D) (i j : Nat) (hi : i < n) (hj : j < n) :
    affine_jacobian ordering n A t x u p d (mat_index ordering n i j) = A i j := by
  unfold affine_jacobian mat_index
  simp only [Int.toNat_natCast]
  have hn : 0 < n := by omega
  split
  · rw [Nat.add_comm, Nat.add_mul_div_right _ _ hn, Nat.div_eq_of_lt hj, Nat.zero_add,
      Nat.add_mul_mod_self_right, Nat.mod_eq_of_lt hj]
  · rw [Nat.add_mul_mod_self_right, Nat.mod_eq_of_lt hi, Nat.add_mul_div_right _ _ hn,
      Nat.div_eq_of_lt hi, Nat.zero_add]

/-- The residual of the implicit step of an affine field is affine in the proposed
point, with matrix `theta_matrix`. -/
theorem euler_residual_affine (opt : euler_options R P D) (n : Nat) (A : Nat → Nat → R)
    (c : R → UBuf R → P → D → Buf R) (t : R) (x : Buf R) (u : UBuf R) (p : P)
    (X X1 dl : Buf R) (hX : ∀ j, j < n → X1 j = dl j + X j) (i : Nat) (hi : i < n) :
    euler_residual opt (affine_field n A c) t x u p X1 i
      = euler_residual opt (affine_field n A c) t x u p X i
        + ∑ j in Finset.range n, theta_matrix opt.alpha opt.ts A i j * dl j := by
  have h1 : ∑ j in Finset.range n, A i j * X1 j
      = ∑ j in Finset.range n, A i j * dl j + ∑ j in Finset.range n, A i j * X j := by
    rw [← Finset.sum_add_distrib]
    apply Finset.sum_congr rfl
    intro j hj
    rw [hX j (Finset.mem_range.mp hj)]
    ring
  have h2 : ∑ j in Finset.range n, theta_matrix opt.alpha opt.ts A i j * dl j
      = opt.alpha * opt.ts * ∑ j in Finset.range n, A i j * dl j - dl i := by
    rw [Finset.mul_sum]
    have : ∀ j ∈ Finset.range n, theta_matrix opt.alpha opt.ts A i j * dl j
        = opt.alpha * opt.ts * (A i j * dl j) - (if i = j then dl j else 0) := by
      intro j _
      unfold theta_matrix
      split <;> ring
    rw [Finset.sum_congr rfl this, Finset.sum_sub_distrib, Finset.sum_ite_eq,
      if_pos (Finset.mem_range.mpr hi)]
  simp only [euler_residual, affine_field, h1, h2, hX i hi]
  ring

/-- The residual of the implicit step of an affine field reads the first `n` entries of
the proposed point only. -/
theorem euler_residual_affine_congr (opt : euler_options R P D) (n : Nat)
    (A : Nat → Nat → R) (c : R → UBuf R → P → D → Buf R) (t : R) (x : Buf R) (u : UBuf R)
    (p : P) (X X1 : Buf R) (hX : ∀ j, j < n → X1 j = X j) (i : Nat) (hi : i < n) :
    euler_residual opt (affine_field n A c) t x u p X1 i
      = euler_residual opt (affine_field n A c) t x u p X i := by
  rw [euler_residual_affine opt n A c t x u p X X1 (fun _ => 0)
    (fun j hj => by rw [hX j hj, zero_add]) i hi]
  simp

/-- The residual wrapper keeps `euler_pt_ok`. -/
theorem euler_pt_ok_function_wrapper (opt : euler_options R P D) (x : Buf R) (out : Buf R)
    (t : R) (X : Buf R) (u : UBuf R) (p : P) (d : euler_passthrough R P D)
    (hd : euler_pt_ok opt x d) :
    euler_pt_ok opt x (euler_function_wrapper out t X u p d).2 := hd

/-- The Jacobian wrapper keeps `euler_pt_ok` when the callback keeps its contract. -/
theorem euler_pt_ok_jacobian_wrapper (opt : euler_options R P D)
    (J : R → Buf R → UBuf R → P → D → Buf R)
    (hdf : opt.df = ode_callback (opt.x_size * opt.x_size) J) (x : Buf R) (out : Buf R)
    (t : R) (X : Buf R) (u : UBuf R) (p : P) (d : euler_passthrough R P D)
    (hd : euler_pt_ok opt x d) :
    euler_pt_ok opt x (euler_jacobian_wrapper out t X u p d).2 := by
  obtain ⟨h1, h2, h3⟩ := hd
  refine ⟨h1, h2, ?_⟩
  intro k hk
  have hsz : d.x_size = opt.x_size := h1.2.2.2.2.2.1
  have hnn : 0 ≤ opt.x_size * opt.x_size := mul_self_nonneg _
  rw [euler_jacobian_wrapper_frame d out t X u p _ (by rw [hsz]; omega), h2, hdf,
    ode_callback_frame _ _ _ _ _ _ _ _ _ (by omega)]
  exact h3 k hk

/-- The context `euler` builds satisfies `euler_pt_ok`. -/
theorem euler_pt_ok_init (opt : euler_options R P D) (x : Buf R) :
    euler_pt_ok opt x (euler_pt opt x) :=
  ⟨⟨rfl, rfl, rfl, rfl, rfl, rfl, rfl⟩, rfl, fun _ _ => rfl⟩

/-- Under `euler_pt_ok` the residual wrapper writes the residual of the step. -/
theorem euler_function_wrapper_ok (opt : euler_options R P D)
    (g : R → Buf R → UBuf R → P → D → Buf R) (hf : opt.f = ode_callback opt.x_size g)
    (x : Buf R) (out : Buf R) (t : R) (X : Buf R) (u : UBuf R) (p : P)
    (d : euler_passthrough R P D) (hd : euler_pt_ok opt x d) (i : Nat)
    (hi : (i : Int) < opt.x_size) :
    (euler_function_wrapper out t X u p d).1 i = euler_residual opt g t x u p X i := by
  obtain ⟨⟨h_ts, h_al, h_uo, h_f, h_xk, h_n, h_d⟩, _, _⟩ := hd
  rw [euler_function_wrapper_apply d out t X u p i (by rw [h_n]; exact hi)]
  simp only [euler_residual, h_ts, h_al, h_uo, h_f, h_xk, h_n, h_d, hf,
    ode_callback_apply _ _ _ _ _ _ _ _ _ hi]

/-- Under `euler_pt_ok` the Jacobian wrapper writes `alpha ts J - I`. -/
theorem euler_jacobian_wrapper_ok (opt : euler_options R P D)
    (J : R → Buf R → UBuf R → P → D → Buf R)
    (hdf : opt.df = ode_callback (opt.x_size * opt.x_size) J)
    (x : Buf R) (out : Buf R) (t : R) (X : Buf R) (u : UBuf R) (p : P)
    (d : euler_passthrough R P D) (hd : euler_pt_ok opt x d) (ordering : Int) (i j : Nat)
    (hi : (i : Int) < opt.x_size) (hj : (j : Int) < opt.x_size) :
    (euler_jacobian_wrapper out t X u p d).1 (mat_index ordering opt.x_size i j)
      = opt.alpha * opt.ts * J t X (u.shift opt.u_offset) p opt.data
          (mat_index ordering opt.x_size i j) - (if i = j then 1 else 0) := by
  obtain ⟨⟨h_ts, h_al, h_uo, h_f, h_xk, h_n, h_d⟩, h_df, h_w⟩ := hd
  have := euler_jacobian_wrapper_pure d J (by rw [h_df, h_n, hdf])
    (by rw [h_n]; exact h_w) ordering out t X u p i j (by rw [h_n]; exact hi)
    (by rw [h_n]; exact hj)
  rw [h_n, h_al, h_ts, h_uo, h_d] at this
  exact this

/-- The implicit step is a square problem: its right-hand side has leading dimension
`x_size`. -/
theorem newton_ldb_euler (opt : euler_options R P D) :
    newton_ldb (euler_newton_opts opt) = opt.x_size := by
  simp [newton_ldb, euler_newton_opts]

/-- A pass of the Newton loop of the implicit step of an affine field, with an exact
backend: the solve succeeds and its step `d` satisfies `(-I + alpha ts A) d = -g`. -/
theorem euler_affine_solve (B : Backend R) (opt : euler_options R P D) (n : Nat)
    (A : Nat → Nat → R) (c : R → UBuf R → P → D → Buf R) (t : R) (x : Buf R) (u : UBuf R)
    (p : P) (hN : opt.x_size = (n : Int))
    (hf : opt.f = ode_callback opt.x_size (affine_field n A c))
    (hdf : opt.df = ode_callback (opt.x_size * opt.x_size) (affine_jacobian opt.ordering n A))
    (hexact : ∀ a rhs : Buf R,
      (∀ i j, i < n → j < n →
        a (mat_index opt.ordering opt.x_size i j) = theta_matrix opt.alpha opt.ts A i j) →
      (B.dgels opt.ordering 'N' opt.x_size opt.x_size 1 a opt.x_size rhs opt.x_size).1 = 0 ∧
      ∀ i, i < n → ∑ j in Finset.range n, theta_matrix opt.alpha opt.ts A i j *
        (B.dgels opt.ordering 'N' opt.x_size opt.x_size 1 a opt.x_size rhs opt.x_size).2.2 j
          = rhs i)
    (s : newton_state R (euler_passthrough R P D)) (hs : euler_pt_ok opt x s.data) :
    (B.dgels (euler_newton_opts opt).ordering 'N' (euler_newton_opts opt).f_size
        (euler_newton_opts opt).x_size 1
        ((euler_newton_opts opt).df s.df t s.x u p
          ((euler_newton_opts opt).f s.f t s.x u p s.data).2).1
        (newton_lda (euler_newton_opts opt))
        (cblas_dscal (euler_newton_opts opt).f_size (-1)
          ((euler_newton_opts opt).f s.f t s.x u p s.data).1)
        (newton_ldb (euler_newton_opts opt))).1 = 0 ∧
    (∀ i, i < n → ∑ j in Finset.range n, theta_matrix opt.alpha opt.ts A i j *
        newton_step B (euler_newton_opts opt) t u p s j
      = - euler_residual opt (affine_field n A c) t x u p s.x i) ∧
    cblas_dnrm2 B (euler_newton_opts opt).f_size
        ((euler_newton_opts opt).f s.f t s.x u p s.data).1
      = B.nrm2 ((euler_residual opt (affine_field n A c) t x u p s.x).firstN opt.x_size) := by
  have hlt : ∀ i : Nat, i < n → (i : Int) < opt.x_size := by
    intro i hi; rw [hN]; exact_mod_cast hi
  have hA : ∀ i j, i < n → j < n →
      (euler_jacobian_wrapper s.df t s.x u p (euler_function_wrapper s.f t s.x u p s.data).2).1
        (mat_index opt.ordering opt.x_size i j) = theta_matrix opt.alpha opt.ts A i j := by
    intro i j hi hj
    rw [euler_jacobian_wrapper_ok opt _ hdf x s.df t s.x u p _
      (euler_pt_ok_function_wrapper opt x s.f t s.x u p s.data hs) opt.ordering i j
      (hlt i hi) (hlt j hj)]
    unfold theta_matrix
    rw [hN, affine_jacobian_apply opt.ordering n A _ _ _ _ _ i j hi hj]
  have hx := hexact _ (cblas_dscal opt.x_size (-1)
    (euler_function_wrapper s.f t s.x u p s.data).1) hA
  have hres : ∀ i, i < n → (euler_function_wrapper s.f t s.x u p s.data).1 i
      = euler_residual opt (affine_field n A c) t x u p s.x i :=
    fun i hi => euler_function_wrapper_ok opt _ hf x s.f t s.x u p s.data hs i (hlt i hi)
  refine ⟨?_, ?_, ?_⟩
  · rw [newton_ldb_euler]
    exact hx.1
  · intro i hi
    unfold newton_step
    rw [newton_ldb_euler]
    have := hx.2 i hi
    refine this.trans ?_
    simp only [cblas_dscal, hlt i hi, if_true, hres i hi]
    ring
  · unfold cblas_dnrm2
    congr 1
    exact firstN_congr _ _ _ (fun i hi => by
      apply euler_function_wrapper_ok opt _ hf x s.f t s.x u p s.data hs i
      exact hi)


/-- Once the residual of the implicit step of an affine field is zero, the Newton loop
leaves the first `n` entries of the iterate alone and ends on a tolerance or by running
out of budget. -/
theorem euler_affine_loop (B : Backend R) (opt : euler_options R P D) (n : Nat)
    (A Winv : Nat → Nat → R) (c : R → UBuf R → P → D → Buf R) (t : R) (x : Buf R)
    (u : UBuf R) (p : P) (hN : opt.x_size = (n : Int))
    (hf : opt.f = ode_callback opt.x_size (affine_field n A c))
    (hdf : opt.df = ode_callback (opt.x_size * opt.x_size) (affine_jacobian opt.ordering n A))
    (hinv : ∀ i k, i < n → k < n →
      ∑ j in Finset.range n, Winv i j * theta_matrix opt.alpha opt.ts A j k
        = if i = k then 1 else 0)
    (hexact : ∀ a rhs : Buf R,
      (∀ i j, i < n → j < n →
        a (mat_index opt.ordering opt.x_size i j) = theta_matrix opt.alpha opt.ts A i j) →
      (B.dgels opt.ordering 'N' opt.x_size opt.x_size 1 a opt.x_size rhs opt.x_size).1 = 0 ∧
      ∀ i, i < n → ∑ j in Finset.range n, theta_matrix opt.alpha opt.ts A i j *
        (B.dgels opt.ordering 'N' opt.x_size opt.x_size 1 a opt.x_size rhs opt.x_size).2.2 j
          = rhs i)
    (fuel : Nat) (s : newton_state R (euler_passthrough R P D))
    (hs : euler_pt_ok opt x s.data)
    (hzero : ∀ i, i < n → euler_residual opt (affine_field n A c) t x u p s.x i = 0)
    (hfuel : (opt.max_iter + 1 - s.counts).toNat ≤ fuel) :
    (∀ i, i < n →
      (newton_loop B (euler_newton_opts opt) (newton_lda (euler_newton_opts opt))
        (newton_ldb (euler_newton_opts opt)) t u p fuel s).x i = s.x i) ∧
    ((newton_loop B (euler_newton_opts opt) (newton_lda (euler_newton_opts opt))
        (newton_ldb (euler_newton_opts opt)) t u p fuel s).ret = NEWTON_F_TOL ∨
     (newton_loop B (euler_newton_opts opt) (newton_lda (euler_newton_opts opt))
        (newton_ldb (euler_newton_opts opt)) t u p fuel s).ret = NEWTON_X_TOL ∨
     opt.max_iter < (newton_loop B (euler_newton_opts opt)
        (newton_lda (euler_newton_opts opt)) (newton_ldb (euler_newton_opts opt))
        t u p fuel s).counts) := by
  have hlt : ∀ i : Nat, i < n → (i : Int) < opt.x_size := by
    intro i hi; rw [hN]; exact_mod_cast hi
  induction fuel generalizing s with
  | zero =>
    refine ⟨fun _ _ => rfl, Or.inr (Or.inr ?_)⟩
    show opt.max_iter < s.counts
    omega
  | succ k ih =>
    by_cases hg : s.counts ≤ (euler_newton_opts opt).max_iter
    swap
    · rw [newton_loop_exit B _ _ _ t u p (k + 1) s hg]
      refine ⟨fun _ _ => rfl, Or.inr (Or.inr ?_)⟩
      exact not_le.mp hg
    obtain ⟨hinfo, hsol, _⟩ := euler_affine_solve B opt n A c t x u p hN hf hdf hexact s hs
    rcases newton_body_cases B (euler_newton_opts opt) (newton_lda (euler_newton_opts opt))
      (newton_ldb (euler_newton_opts opt)) t u p s with h | h | h | h
    · rw [newton_loop_break B _ _ _ t u p k s hg h.2.1]
      exact ⟨fun i _ => by rw [h.2.2.2.1], Or.inl h.2.2.1⟩
    · exact absurd hinfo h.2.1
    · rw [newton_loop_break B _ _ _ t u p k s hg h.2.2.2.1]
      exact ⟨fun i _ => by rw [h.2.2.2.2.2.1], Or.inr (Or.inl h.2.2.2.2.1)⟩
    · obtain ⟨_, _, _, hb, _, hx, _, hcnt, _⟩ := h
      rw [newton_loop_continue B _ _ _ t u p k s hg hb]
      have hstep0 : ∀ i, i < n → newton_step B (euler_newton_opts opt) t u p s i = 0 := by
        intro i hi
        rw [solve_of_left_inverse n (theta_matrix opt.alpha opt.ts A) Winv
          (newton_step B (euler_newton_opts opt) t u p s) (fun _ => 0) hinv
          (fun i hi => by rw [hsol i hi, hzero i hi, neg_zero]) i hi]
        simp
      have hx1 : ∀ i, i < n →
          (newton_body B (euler_newton_opts opt) (newton_lda (euler_newton_opts opt))
            (newton_ldb (euler_newton_opts opt)) t u p s).1.x i = s.x i := by
        intro i hi
        rw [hx]
        have := hstep0 i hi
        unfold newton_step at this
        simp only [cblas_daxpy, show ((i : Nat) : Int) < (euler_newton_opts opt).x_size from
          hlt i hi, if_true, this]
        ring
      have hdata := newton_body_data B (euler_newton_opts opt)
        (newton_lda (euler_newton_opts opt)) (newton_ldb (euler_newton_opts opt)) t u p
        (euler_pt_ok opt x)
        (fun out X d hd => euler_pt_ok_function_wrapper opt x out t X u p d hd)
        (fun out X d hd => euler_pt_ok_jacobian_wrapper opt _ hdf x out t X u p d hd) s hs
      have hz1 : ∀ i, i < n → euler_residual opt (affine_field n A c) t x u p
          (newton_body B (euler_newton_opts opt) (newton_lda (euler_newton_opts opt))
            (newton_ldb (euler_newton_opts opt)) t u p s).1.x i = 0 := by
        intro i hi
        rw [euler_residual_affine_congr opt n A c t x u p s.x _ hx1 i hi, hzero i hi]
      have := ih _ hdata hz1 (by rw [hcnt]; omega)
      exact ⟨fun i hi => by rw [this.1 i hi, hx1 i hi], this.2⟩


/-! ### The counter, the updates and the return value -/

/-- A pass that breaks logs no update. -/
theorem newton_body_updates_of_break (B : Backend R) (opt : newton_options R P S)
    (lda ldb : Int) (t : R) (u : UBuf R) (p : P) (s : newton_state R S)
    (h : (newton_body B opt lda ldb t u p s).2 = true) :
    (newton_body B opt lda ldb t u p s).1.log.count newton_event.update
      = s.log.count newton_event.update := by
  unfold newton_body at h ⊢
  dsimp only at h ⊢
  split_ifs at h ⊢
  all_goals simp [List.count_append, List.count_cons]

/-- A pass that runs through logs one update. -/
theorem newton_body_updates (B : Backend R) (opt : newton_options R P S)
    (lda ldb : Int) (t : R) (u : UBuf R) (p : P) (s : newton_state R S)
    (h : (newton_body B opt lda ldb t u p s).2 = false) :
    (newton_body B opt lda ldb t u p s).1.log.count newton_event.update
      = s.log.count newton_event.update + 1 := by
  unfold newton_body at h ⊢
  dsimp only at h ⊢
  split_ifs at h ⊢
  all_goals simp [List.count_append, List.count_cons]

/-- The counter of the loop counts the updates logged. -/
theorem newton_loop_updates (B : Backend R) (opt : newton_options R P S) (lda ldb : Int)
    (t : R) (u : UBuf R) (p : P) (fuel : Nat) (s : newton_state R S)
    (hs : s.counts = (s.log.count newton_event.update : Nat)) :
    (newton_loop B opt lda ldb t u p fuel s).counts
      = ((newton_loop B opt lda ldb t u p fuel s).log.count newton_event.update : Nat) := by
  induction fuel generalizing s with
  | zero => exact hs
  | succ k ih =>
    by_cases hg : s.counts ≤ opt.max_iter
    swap
    · rw [newton_loop_exit B opt lda ldb t u p (k + 1) s hg]
      exact hs
    by_cases hb : (newton_body B opt lda ldb t u p s).2 = true
    · rw [newton_loop_break B opt lda ldb t u p k s hg hb,
        newton_body_counts_of_break B opt lda ldb t u p s hb,
        newton_body_updates_of_break B opt lda ldb t u p s hb]
      exact hs
    · have hb2 : (newton_body B opt lda ldb t u p s).2 = false := by simpa using hb
      rw [newton_loop_continue B opt lda ldb t u p k s hg hb2]
      apply ih
      rw [newton_body_counts B opt lda ldb t u p s hb2,
        newton_body_updates B opt lda ldb t u p s hb2, hs]
      push_cast
      rfl

/-- With enough fuel the loop stops at the head of the last iteration that is reached:
the counter has advanced by the number of passes that ran through. -/
theorem newton_loop_last_head (B : Backend R) (opt : newton_options R P S) (lda ldb : Int)
    (t : R) (u : UBuf R) (p : P) (fuel : Nat) (s : newton_state R S)
    (h : (opt.max_iter + 1 - s.counts).toNat ≤ fuel) :
    ∃ (j : Nat) (s1 : newton_state R S),
      newton_passes B opt lda ldb t u p j s = some s1 ∧
      newton_passes B opt lda ldb t u p (j + 1) s = none ∧
      (newton_loop B opt lda ldb t u p fuel s).counts = s.counts + j := by
  induction fuel generalizing s with
  | zero =>
    have hg : ¬ s.counts ≤ opt.max_iter := by omega
    exact ⟨0, s, rfl, by simp only [newton_passes, hg, if_false], by simp [newton_loop]⟩
  | succ k ih =>
    by_cases hg : s.counts ≤ opt.max_iter
    swap
    · refine ⟨0, s, rfl, by simp only [newton_passes, hg, if_false], ?_⟩
      rw [newton_loop_exit B opt lda ldb t u p (k + 1) s hg]
      simp
    by_cases hb : (newton_body B opt lda ldb t u p s).2 = true
    · refine ⟨0, s, rfl, by simp only [newton_passes, hg, if_true, hb], ?_⟩
      rw [newton_loop_break B opt lda ldb t u p k s hg hb,
        newton_body_counts_of_break B opt lda ldb t u p s hb]
      simp
    · have hb2 : (newton_body B opt lda ldb t u p s).2 = false := by simpa using hb
      have hc := newton_body_counts B opt lda ldb t u p s hb2
      obtain ⟨j, s1, h1, h2, h3⟩ := ih (newton_body B opt lda ldb t u p s).1
        (by rw [hc]; omega)
      refine ⟨j + 1, s1, ?_, ?_, ?_⟩
      · simp only [newton_passes, hg, if_true, hb2, Bool.false_eq_true, if_false]
        exact h1
      · show newton_passes B opt lda ldb t u p (j + 1 + 1) s = none
        rw [show newton_passes B opt lda ldb t u p (j + 1 + 1) s
          = newton_passes B opt lda ldb t u p (j + 1) (newton_body B opt lda ldb t u p s).1
          from by simp only [newton_passes, hg, if_true, hb2, Bool.false_eq_true, if_false]]
        exact h2
      · rw [newton_loop_continue B opt lda ldb t u p k s hg hb2, h3, hc]
        push_cast
        ring

/-- With enough fuel the loop ends on a break, which has set the return value, or with
the counter beyond `max_iter`. -/
theorem newton_loop_ret (B : Backend R) (opt : newton_options R P S) (lda ldb : Int)
    (t : R) (u : UBuf R) (p : P) (fuel : Nat) (s : newton_state R S)
    (h : (opt.max_iter + 1 - s.counts).toNat ≤ fuel) :
    (newton_loop B opt lda ldb t u p fuel s).ret = NEWTON_F_TOL ∨
    (newton_loop B opt lda ldb t u p fuel s).ret = NEWTON_X_TOL ∨
    (newton_loop B opt lda ldb t u p fuel s).ret = NEWTON_SINGULAR_JACOBIAN ∨
    (newton_loop B opt lda ldb t u p fuel s).ret = NEWTON_ILLEGAL_JACOBIAN ∨
    opt.max_iter < (newton_loop B opt lda ldb t u p fuel s).counts := by
  induction fuel generalizing s with
  | zero =>
    right; right; right; right
    show opt.max_iter < s.counts
    omega
  | succ k ih =>
    by_cases hg : s.counts ≤ opt.max_iter
    swap
    · rw [newton_loop_exit B opt lda ldb t u p (k + 1) s hg]
      right; right; right; right
      exact not_le.mp hg
    rcases newton_body_cases B opt lda ldb t u p s with hc | hc | hc | hc
    · rw [newton_loop_break B opt lda ldb t u p k s hg hc.2.1]
      exact Or.inl hc.2.2.1
    · rw [newton_loop_break B opt lda ldb t u p k s hg hc.2.2.1]
      rcases hc.2.2.2.1 with hr | hr
      · exact Or.inr (Or.inr (Or.inl hr))
      · exact Or.inr (Or.inr (Or.inr (Or.inl hr)))
    · rw [newton_loop_break B opt lda ldb t u p k s hg hc.2.2.2.1]
      exact Or.inr (Or.inl hc.2.2.2.2.1)
    · obtain ⟨_, _, _, hb, _, _, _, hcnt, _⟩ := hc
      rw [newton_loop_continue B opt lda ldb t u p k s hg hb]
      exact ih _ (by rw [hcnt]; omega)

/-! ### Claims on the Newton solver -/

/-- C5 (failing input). Iteration bound: on the scalar problem `x - 5 = 0` started at
`x = 0` with `max_iter = 0`, the loop guard `counts <= max_iter` admits one pass, the
pass applies its update, and `newton_solve` writes the iteration count 1 into
`opt->max_iter`: more than the configured 0. -/
theorem newton_count_exceeds_max_iter :
    (scalar_linear_options 1 0).max_iter = 0 ∧
    (newton_solve scalar_backend calloc_always (scalar_linear_options 1 0) 0 (fun _ => 0)
      scalar_input () ()).max_iter = 1 ∧
    ¬ (newton_solve scalar_backend calloc_always (scalar_linear_options 1 0) 0 (fun _ => 0)
      scalar_input () ()).max_iter ≤ (scalar_linear_options 1 0).max_iter := by
  decide

/-- C6 (failing input). Solve-failure classification: on the scalar problem with the
identically zero Jacobian, started at `x = 0` (residual norm 5, not below the tolerance
1) with `max_iter = 0`, the least-squares solve of the first pass returns the positive
code 1 and the loop stops there, yet `newton_solve` returns `NEWTON_MAX_ITER`, not
`NEWTON_SINGULAR_JACOBIAN`; with `max_iter = 1` the same failure is reported as
`NEWTON_SINGULAR_JACOBIAN`. -/
theorem newton_singular_reported_as_max_iter :
    (newton_solve scalar_backend calloc_always (scalar_linear_options 0 0) 0 (fun _ => 0)
      scalar_input () ()).log
      = [newton_event.calloc_f, newton_event.calloc_df, newton_event.eval_f,
         newton_event.eval_df, newton_event.solve 1, newton_event.free_f,
         newton_event.free_df] ∧
    (newton_solve scalar_backend calloc_always (scalar_linear_options 0 0) 0 (fun _ => 0)
      scalar_input () ()).ret = NEWTON_MAX_ITER ∧
    (newton_solve scalar_backend calloc_always (scalar_linear_options 0 1) 0 (fun _ => 0)
      scalar_input () ()).ret = NEWTON_SINGULAR_JACOBIAN := by
  decide

/-- C7 (counterexample). On the scalar problem `x - 5 = 0` started at its root `x = 5`
with `max_iter = 0`, the first pass finds the residual norm 0 below the tolerance 1 and
stops without evaluating the Jacobian, `x` is unchanged and 0 iterations are recorded,
but `newton_solve` returns `NEWTON_MAX_ITER`, not `NEWTON_F_TOL`. -/
theorem newton_residual_tolerance_wins_counterexample :
    (0 : Int) ≤ (scalar_linear_options 1 0).max_iter ∧
    (newton_solve scalar_backend calloc_always (scalar_linear_options 1 0) 0 (fun _ => 5)
      scalar_input () ()).log
      = [newton_event.calloc_f, newton_event.calloc_df, newton_event.eval_f,
         newton_event.free_f, newton_event.free_df] ∧
    (newton_solve scalar_backend calloc_always (scalar_linear_options 1 0) 0 (fun _ => 5)
      scalar_input () ()).x 0 = 5 ∧
    (newton_solve scalar_backend calloc_always (scalar_linear_options 1 0) 0 (fun _ => 5)
      scalar_input () ()).max_iter = 0 ∧
    (newton_solve scalar_backend calloc_always (scalar_linear_options 1 0) 0 (fun _ => 5)
      scalar_input () ()).ret = NEWTON_MAX_ITER := by
  decide

/-- C7 (amended). Residual tolerance wins: for every solve, if at the start of iteration
number `k` (counted from 0) with `k < max_iter` the 2-norm of the residual at the
current iterate is below the configured residual tolerance, `newton_solve` stops there
without evaluating the Jacobian or consulting the step-norm test (the log gains only the
residual evaluation, `data` is as the residual callback left it, `opt->x_tol` is as
before the pass), leaves `x` equal to that iterate, records `k` iterations and returns
`NEWTON_F_TOL`; for `k = 0` and `max_iter >= 1`: an initial guess that satisfies the
residual tolerance yields `NEWTON_F_TOL` with `x` unchanged and 0 iterations recorded. -/
theorem newton_residual_tolerance_wins (B : Backend R) (calloc_ok : Nat → Bool)
    (opt : newton_options R P S) (t : R) (x : Buf R) (u : UBuf R) (p : P) (data : S)
    (k : Nat) (s : newton_state R S)
    (h0 : calloc_ok 0 = true) (h1 : calloc_ok 1 = true)
    (hk : newton_head B opt t x u p data k = some s)
    (hlt : (k : Int) < opt.max_iter)
    (hres : cblas_dnrm2 B opt.f_size (opt.f s.f t s.x u p s.data).1 < opt.f_tol) :
    (newton_solve B calloc_ok opt t x u p data).ret = NEWTON_F_TOL ∧
    (newton_solve B calloc_ok opt t x u p data).x = s.x ∧
    (newton_solve B calloc_ok opt t x u p data).max_iter = k ∧
    (newton_solve B calloc_ok opt t x u p data).x_tol = s.x_tol ∧
    (newton_solve B calloc_ok opt t x u p data).data = (opt.f s.f t s.x u p s.data).2 ∧
    (newton_solve B calloc_ok opt t x u p data).log
      = s.log ++ [newton_event.eval_f, newton_event.free_f, newton_event.free_df] := by
  unfold newton_head at hk
  dsimp only at hk
  have hc := newton_passes_counts B opt _ _ t u p k _ s hk
  have hc0 : s.counts = k := by
    rw [hc]; simp [newton_init]
  obtain ⟨m, hm⟩ : ∃ m, (opt.max_iter + 1).toNat = k + (m + 1) :=
    ⟨(opt.max_iter + 1).toNat - k - 1, by omega⟩
  have b := newton_body_F_TOL B opt opt.f_size
    (if opt.f_size > opt.x_size then opt.f_size else opt.x_size) t u p s hres
  have hrun : newton_run B opt t x u p data
      = (newton_body B opt opt.f_size
          (if opt.f_size > opt.x_size then opt.f_size else opt.x_size) t u p s).1 := by
    unfold newton_run
    dsimp only
    rw [hm, newton_loop_of_passes B opt _ _ t u p k (m + 1) _ s hk,
      newton_loop_break B opt _ _ t u p m s (by rw [hc0]; omega) (by rw [b])]
  rw [newton_solve_of_calloc B calloc_ok opt t x u p data h0 h1, hrun, b]
  dsimp only
  rw [hc0, if_neg (by omega)]
  refine ⟨rfl, rfl, rfl, rfl, rfl, ?_⟩
  simp

/-- Witness of C7: the scalar problem `x - 5 = 0` from `x = 0` with `max_iter = 2`
meets the residual tolerance at the start of iteration 1. -/
theorem newton_residual_tolerance_wins_witness :
    calloc_always 0 = true ∧ calloc_always 1 = true ∧
    (((1 : Nat) : Int) < (scalar_linear_options 1 2).max_iter) ∧
    (newton_solve scalar_backend calloc_always (scalar_linear_options 1 2) 0 (fun _ => 0)
      scalar_input () ()).ret = NEWTON_F_TOL ∧
    (newton_solve scalar_backend calloc_always (scalar_linear_options 1 2) 0 (fun _ => 0)
      scalar_input () ()).max_iter = ((1 : Nat) : Int) :=
  ⟨rfl, rfl, by decide,
    (newton_residual_tolerance_wins scalar_backend calloc_always (scalar_linear_options 1 2)
      0 (fun _ => 0) scalar_input () () 1
      (newton_body scalar_backend (scalar_linear_options 1 2) 1 1 0 scalar_input ()
        (newton_init (scalar_linear_options 1 2) (fun _ => 0) ())).1
      rfl rfl (by rfl) (by decide) (by decide)).1,
    (newton_residual_tolerance_wins scalar_backend calloc_always (scalar_linear_options 1 2)
      0 (fun _ => 0) scalar_input () () 1
      (newton_body scalar_backend (scalar_linear_options 1 2) 1 1 0 scalar_input ()
        (newton_init (scalar_linear_options 1 2) (fun _ => 0) ())).1
      rfl rfl (by rfl) (by decide) (by decide)).2.2.1⟩

/-- C9 (counterexample). An implicit step of the scalar field from `x = 0` with step
tolerance 3 and `max_iter = 5`: the first Newton step has norm 2, below the step
tolerance, so the solver stops with `NEWTON_X_TOL` after 0 iterations and `euler`
returns `EULER_SUCCESS` with `xp = x`, where the step residual has norm 6, not below the
residual tolerance 1. -/
theorem euler_implicit_success_counterexample :
    (euler scalar_backend calloc_always (scalar_options (R := Int) 1 3 5) calloc 0 (fun _ => 0)
      scalar_input () 100).ret = EULER_SUCCESS ∧
    ¬ scalar_backend.nrm2 ((euler_residual (scalar_options (R := Int) 1 3 5) scalar_field 0 (fun _ => 0)
        scalar_input ()
        (euler scalar_backend calloc_always (scalar_options (R := Int) 1 3 5) calloc 0 (fun _ => 0)
          scalar_input () 100).xp).firstN (scalar_options (R := Int) 1 3 5).x_size)
      < (scalar_options (R := Int) 1 3 5).s_tol ∧
    (euler_newton_call scalar_backend calloc_always (scalar_options (R := Int) 1 3 5) calloc 0
      (fun _ => 0) scalar_input ()).ret = NEWTON_X_TOL ∧
    (euler_newton_call scalar_backend calloc_always (scalar_options (R := Int) 1 3 5) calloc 0
      (fun _ => 0) scalar_input ()).max_iter = 0 ∧
    (scalar_options (R := Int) 1 3 5).max_iter = 5 := by
  decide

/-- C9 (amended). Implicit-step postcondition: for every `euler_options` with
`alpha != 0` whose vector-field callback writes the `x_size` values of `g`, if `euler`
returns `EULER_SUCCESS` then its solver call returned `NEWTON_F_TOL` and the 2-norm of the
step residual at the returned `xp` is below `s_tol`, or the solver stopped on the step
tolerance (`NEWTON_X_TOL`), or it reported `NEWTON_MAX_ITER`. -/
theorem euler_implicit_success (B : Backend R) (calloc_ok : Nat → Bool)
    (opt : euler_options R P D) (g : R → Buf R → UBuf R → P → D → Buf R) (xp : Buf R)
    (t : R) (x : Buf R) (u : UBuf R) (p : P) (data : D)
    (ha : opt.alpha ≠ 0) (hf : opt.f = ode_callback opt.x_size g)
    (hs : (euler B calloc_ok opt xp t x u p data).ret = EULER_SUCCESS) :
    ∃ nwt, (euler B calloc_ok opt xp t x u p data).newton = some nwt ∧
      ((nwt.ret = NEWTON_F_TOL ∧
          B.nrm2 ((euler_residual opt g t x u p
            (euler B calloc_ok opt xp t x u p data).xp).firstN opt.x_size) < opt.s_tol) ∨
        nwt.ret = NEWTON_X_TOL ∨ nwt.ret = NEWTON_MAX_ITER) := by
  by_cases h0 : calloc_ok 0 = true
  swap
  · simp [euler, ha, h0] at hs
  by_cases h1 : calloc_ok 1 = true
  swap
  · simp [euler, ha, h0, h1] at hs
  have e : euler B calloc_ok opt xp t x u p data
      = { ret := if (euler_newton_call B calloc_ok opt xp t x u p).ret.val
                    > NEWTON_MAX_ITER.val then EULER_GENERIC else EULER_SUCCESS,
          xp := (euler_newton_call B calloc_ok opt xp t x u p).x,
          log := [euler_event.calloc_work_f, euler_event.calloc_work_df]
            ++ (euler_newton_call B calloc_ok opt xp t x u p).data.calls
            ++ [euler_event.free_work_f, euler_event.free_work_df],
          newton := some (euler_newton_call B calloc_ok opt xp t x u p) } := by
    simp only [euler, if_neg ha, h0, h1, Bool.not_true, Bool.false_eq_true, if_false]
  rw [e] at hs ⊢
  dsimp only at hs ⊢
  refine ⟨_, rfl, ?_⟩
  cases hr : (euler_newton_call B calloc_ok opt xp t x u p).ret with
  | NEWTON_X_TOL => exact Or.inr (Or.inl rfl)
  | NEWTON_MAX_ITER => exact Or.inr (Or.inr rfl)
  | NEWTON_SINGULAR_JACOBIAN => rw [hr] at hs; simp [newton_ret.val] at hs
  | NEWTON_ILLEGAL_JACOBIAN => rw [hr] at hs; simp [newton_ret.val] at hs
  | NEWTON_MALLOC_ERROR => rw [hr] at hs; simp [newton_ret.val] at hs
  | NEWTON_GENERIC_ERROR => rw [hr] at hs; simp [newton_ret.val] at hs
  | NEWTON_F_TOL =>
    refine Or.inl ⟨rfl, ?_⟩
    unfold euler_newton_call at hr ⊢
    by_cases h2 : calloc_ok 2 = true
    swap
    · simp [newton_solve, h2] at hr
    by_cases h3 : calloc_ok 3 = true
    swap
    · simp [newton_solve, h2, h3] at hr
    rw [newton_solve_of_calloc B _ _ t _ u p _ h2 h3] at hr ⊢
    dsimp only at hr ⊢
    split_ifs at hr with hmi
    unfold newton_run at hr ⊢
    dsimp only at hr ⊢
    obtain ⟨out, d, hd, hlt⟩ := newton_loop_F_TOL B (euler_newton_opts opt) _ _ t u p
      (euler_pt_frozen opt x)
      (by
        intro out x' d hd
        exact hd)
      (by
        intro out x' d hd
        exact hd)
      _ _ (by exact ⟨rfl, rfl, rfl, rfl, rfl, rfl, rfl⟩) (by simp [newton_init]) hr
    obtain ⟨h_ts, h_al, h_uo, h_f, h_xk, h_n, h_d⟩ := hd
    have hcongr := firstN_congr
      ((euler_function_wrapper out t
        (newton_loop B (euler_newton_opts opt) (euler_newton_opts opt).f_size
          (if (euler_newton_opts opt).f_size > (euler_newton_opts opt).x_size
            then (euler_newton_opts opt).f_size else (euler_newton_opts opt).x_size)
          t u p ((euler_newton_opts opt).max_iter + 1).toNat
          (newton_init (euler_newton_opts opt) (cblas_dcopy opt.x_size x xp)
            (euler_pt opt x))).x u p d).1)
      (euler_residual opt g t x u p
        (newton_loop B (euler_newton_opts opt) (euler_newton_opts opt).f_size
          (if (euler_newton_opts opt).f_size > (euler_newton_opts opt).x_size
            then (euler_newton_opts opt).f_size else (euler_newton_opts opt).x_size)
          t u p ((euler_newton_opts opt).max_iter + 1).toNat
          (newton_init (euler_newton_opts opt) (cblas_dcopy opt.x_size x xp)
            (euler_pt opt x))).x)
      opt.x_size
      (by
        intro i hi
        rw [euler_function_wrapper_apply d out t _ u p i (by rw [h_n]; exact hi)]
        simp only [euler_residual, h_ts, h_al, h_uo, h_f, h_xk, h_n, h_d, hf,
          ode_callback_apply _ _ _ _ _ _ _ _ _ hi])
    rw [← hcongr]
    exact hlt


/-- Witness of C9: an implicit step of the scalar field that meets the residual
tolerance. -/
theorem euler_implicit_success_witness :
    (scalar_options (R := Int) 1 1 5).alpha ≠ 0 ∧
    (scalar_options (R := Int) 1 1 5).f = ode_callback (scalar_options (R := Int) 1 1 5).x_size scalar_field ∧
    (euler scalar_backend calloc_always (scalar_options (R := Int) 1 1 5) calloc 0 (fun _ => 0)
      scalar_input () 100).ret = EULER_SUCCESS ∧
    ∃ nwt, (euler scalar_backend calloc_always (scalar_options (R := Int) 1 1 5) calloc 0 (fun _ => 0)
        scalar_input () 100).newton = some nwt ∧
      ((nwt.ret = NEWTON_F_TOL ∧
          scalar_backend.nrm2 ((euler_residual (scalar_options (R := Int) 1 1 5) scalar_field 0
            (fun _ => 0) scalar_input ()
            (euler scalar_backend calloc_always (scalar_options (R := Int) 1 1 5) calloc 0 (fun _ => 0)
              scalar_input () 100).xp).firstN (scalar_options (R := Int) 1 1 5).x_size)
            < (scalar_options (R := Int) 1 1 5).s_tol) ∨
        nwt.ret = NEWTON_X_TOL ∨ nwt.ret = NEWTON_MAX_ITER) :=
  ⟨by decide, rfl, by decide,
    euler_implicit_success scalar_backend calloc_always (scalar_options (R := Int) 1 1 5) scalar_field
      calloc 0 (fun _ => 0) scalar_input () 100 (by decide) rfl (by decide)⟩

/-- C10 (failing input). User data forwarding: `euler` called with the data argument
100 on options whose `data` field is 4 hands 4, not 100, to every callback, on the
explicit path (`alpha = 0`, where `xp[0] = 0 + 1 * (-2 * 0 + 10 + 4) = 14`) and on the
implicit path (`alpha = 1`). -/
theorem euler_forwards_options_data :
    (euler scalar_backend calloc_always (scalar_options (R := Int) 0 1 5) calloc 0 (fun _ => 0)
      scalar_input () 100).log = [euler_event.call_f 4] ∧
    (euler scalar_backend calloc_always (scalar_options (R := Int) 0 1 5) calloc 0 (fun _ => 0)
      scalar_input () 100).xp 0 = 14 ∧
    (euler scalar_backend calloc_always (scalar_options (R := Int) 1 1 5) calloc 0 (fun _ => 0)
      scalar_input () 100).log
      = [euler_event.calloc_work_f, euler_event.calloc_work_df, euler_event.call_f 4,
         euler_event.call_f 4, euler_event.call_df 4, euler_event.call_f 4,
         euler_event.call_f 4, euler_event.free_work_f, euler_event.free_work_df] := by
  decide

/-! ### Workspaces of the implicit step -/

/-- C13. Allocation failure: on the implicit path (`alpha != 0`), if the allocation of the
function workspace fails, `euler` returns `EULER_EMALLOC` having done nothing; if that of
the Jacobian workspace fails, it returns `EULER_EMALLOC` having released the function
workspace, invoked no callback and left `xp` alone; on every other exit both workspaces
were allocated, only user callbacks ran in between, and both workspaces were released. -/
theorem euler_allocation_failure (B : Backend R) (calloc_ok : Nat → Bool)
    (opt : euler_options R P D) (xp : Buf R) (t : R) (x : Buf R) (u : UBuf R) (p : P)
    (data : D) (ha : opt.alpha ≠ 0) :
    (calloc_ok 0 = false →
      (euler B calloc_ok opt xp t x u p data).ret = EULER_EMALLOC ∧
      (euler B calloc_ok opt xp t x u p data).xp = xp ∧
      (euler B calloc_ok opt xp t x u p data).log = []) ∧
    (calloc_ok 0 = true → calloc_ok 1 = false →
      (euler B calloc_ok opt xp t x u p data).ret = EULER_EMALLOC ∧
      (euler B calloc_ok opt xp t x u p data).xp = xp ∧
      (euler B calloc_ok opt xp t x u p data).log
        = [euler_event.calloc_work_f, euler_event.free_work_f]) ∧
    (calloc_ok 0 = true → calloc_ok 1 = true →
      ∃ calls : List (euler_event D),
        (∀ e ∈ calls, e = euler_event.call_f opt.data ∨ e = euler_event.call_df opt.data) ∧
        (euler B calloc_ok opt xp t x u p data).log
          = [euler_event.calloc_work_f, euler_event.calloc_work_df] ++ calls
            ++ [euler_event.free_work_f, euler_event.free_work_df]) := by
  refine ⟨?_, ?_, ?_⟩
  · intro h0
    simp [euler, ha, h0]
  · intro h0 h1
    simp [euler, ha, h0, h1]
  · intro h0 h1
    refine ⟨(euler_newton_call B calloc_ok opt xp t x u p).data.calls,
      (euler_calls_ok_newton B calloc_ok opt xp t x u p).2, ?_⟩
    simp [euler, ha, h0, h1]


/-- Witness of C13: the implicit step of the scalar field when the allocation of the
Jacobian workspace fails. -/
theorem euler_allocation_failure_witness :
    (scalar_options (R := Int) 1 1 5).alpha ≠ 0 ∧
    calloc_fails_at 1 0 = true ∧ calloc_fails_at 1 1 = false ∧
    (euler scalar_backend (calloc_fails_at 1) (scalar_options (R := Int) 1 1 5) calloc 0
      (fun _ => 0) scalar_input () 100).ret = EULER_EMALLOC ∧
    (euler scalar_backend (calloc_fails_at 1) (scalar_options (R := Int) 1 1 5) calloc 0
      (fun _ => 0) scalar_input () 100).xp = calloc ∧
    (euler scalar_backend (calloc_fails_at 1) (scalar_options (R := Int) 1 1 5) calloc 0
      (fun _ => 0) scalar_input () 100).log
        = [euler_event.calloc_work_f, euler_event.free_work_f] :=
  ⟨by decide, by decide, by decide,
    (euler_allocation_failure scalar_backend (calloc_fails_at 1)
      (scalar_options (R := Int) 1 1 5) calloc 0 (fun _ => 0) scalar_input () 100
      (by decide)).2.1 (by decide) (by decide)⟩

/-- C16. Negative-identity block: with `x_size = N` and `2 N^2` within `lapack_int` (so
that `euler` allocates the workspace of `2 N^2` entries and computes its indices without
overflow), the second half of the Jacobian workspace that `euler` initialises holds `-1`
at offset `N^2 + i + i N` for each `i < N` and 0 elsewhere; for a user Jacobian callback
that writes only the first `N^2` entries, every call of `euler_jacobian_wrapper` leaves
the entries from `N^2` on unchanged, and so does the whole Newton solve of the step
(for `max_iter` below `LAPACK_INT_MAX`, where the solve is that of the code). -/
theorem euler_negative_identity_block (B : Backend R) (calloc_ok : Nat → Bool)
    (opt : euler_options R P D) (N : Nat) (xp : Buf R) (t : R) (x : Buf R) (u : UBuf R)
    (p : P) (hN : opt.x_size = (N : Int))
    (hsize : 2 * (N : Int) * (N : Int) ≤ LAPACK_INT_MAX)
    (hdf : ∀ (out : Buf R) (t : R) (x : Buf R) (u : UBuf R) (p : P) (d : D) (k : Nat),
      N * N ≤ k → opt.df out t x u p d k = out k) :
    (∀ m : Nat, (euler_pt opt x).work_df (N * N + m)
        = if ∃ i, i < N ∧ m = i + i * N then -1 else 0) ∧
    (∀ (pt : euler_passthrough R P D) (out : Buf R) (t : R) (x : Buf R) (u : UBuf R) (p : P),
      pt.df = opt.df → pt.x_size = opt.x_size → ∀ k : Nat, N * N ≤ k →
        (euler_jacobian_wrapper out t x u p pt).2.work_df k = pt.work_df k) ∧
    (opt.max_iter < LAPACK_INT_MAX → ∀ k : Nat, N * N ≤ k →
      (euler_newton_call B calloc_ok opt xp t x u p).data.work_df k
        = (euler_pt opt x).work_df k) := by
  have hge : ∀ k : Nat, N * N ≤ k → ¬ (k : Int) < (N : Int) * N := by
    intro k hk
    have : ((N * N : Nat) : Int) ≤ (k : Int) := by exact_mod_cast hk
    push_cast at this
    omega
  have wrap : ∀ (pt : euler_passthrough R P D) (out : Buf R) (t : R) (x : Buf R)
      (u : UBuf R) (p : P), pt.df = opt.df → pt.x_size = opt.x_size → ∀ k : Nat, N * N ≤ k →
        (euler_jacobian_wrapper out t x u p pt).2.work_df k = pt.work_df k := by
    intro pt out t x u p h1 h2 k hk
    rw [euler_jacobian_wrapper_frame pt out t x u p k (by rw [h2, hN]; exact hge k hk), h1]
    exact hdf _ _ _ _ _ _ k hk
  refine ⟨?_, wrap, ?_⟩
  · intro m
    simp only [euler_pt, hN]
    exact euler_init_work_df_apply N m
  · intro _
    unfold euler_newton_call
    have := newton_solve_data B (fun k => calloc_ok (k + 2)) (euler_newton_opts opt) t
      (cblas_dcopy opt.x_size x xp) u p (euler_pt opt x)
      (fun d => d.df = opt.df ∧ d.x_size = opt.x_size ∧
        ∀ k : Nat, N * N ≤ k → d.work_df k = (euler_pt opt x).work_df k)
      (by
        intro out x' d hd
        exact hd)
      (by
        intro out x' d hd
        obtain ⟨h1, h2, h3⟩ := hd
        refine ⟨h1, h2, ?_⟩
        intro k hk
        rw [← h3 k hk]
        exact wrap d out t x' u p h1 h2 k hk)
      ⟨rfl, rfl, fun _ _ => rfl⟩
    exact this.2.2


/-- Witness of C16: the Jacobian workspace of the implicit step of the scalar field,
whose second half is the single entry `-1` at offset 1. -/
theorem euler_negative_identity_block_witness :
    (scalar_options (R := Int) 1 1 3).x_size = ((1 : Nat) : Int) ∧
    2 * ((1 : Nat) : Int) * ((1 : Nat) : Int) ≤ LAPACK_INT_MAX ∧
    (scalar_options (R := Int) 1 1 3).max_iter < LAPACK_INT_MAX ∧
    (euler_pt (scalar_options (R := Int) 1 1 3) (fun _ => 0)).work_df (1 * 1 + 0) = -1 ∧
    (euler_newton_call scalar_backend calloc_always (scalar_options (R := Int) 1 1 3) calloc 0
      (fun _ => 0) scalar_input ()).data.work_df 1 = -1 ∧
    (euler_newton_call scalar_backend calloc_always (scalar_options (R := Int) 1 1 3) calloc 0
      (fun _ => 0) scalar_input ()).data.work_df 0 = -3 :=
  ⟨rfl, by decide, by decide, by decide,
    ((euler_negative_identity_block scalar_backend calloc_always
      (scalar_options (R := Int) 1 1 3) 1 calloc 0 (fun _ => 0) scalar_input () rfl
      (by decide)
      (fun out t x u p d k hk => ode_callback_frame _ _ out t x u p d k (by
        have : (1 : Int) ≤ (k : Int) := by exact_mod_cast hk
        show ¬ (k : Int) < 1 * 1
        omega))).2.2 (by decide) 1 (by decide)).trans (by decide),
    by decide⟩

/-! ### The implicit step of an affine field -/

/-- Theta-method equation solved for affine fields, where the machine integers of the
code do not overflow (`max_iter` below `LAPACK_INT_MAX`, `2 n^2` within `lapack_int`) and
the system is column-major: for the affine vector field `f(t, x, u, p) = A x + c(t, u, p)`
in dimension `n` with Jacobian callback returning `A`, `alpha != 0`, `max_iter >= 0`,
allocations that succeed, a matrix `alpha ts A - I` that has an inverse, a backend that
solves systems with that matrix exactly, and a state `x` whose initial residual norm is
not below `s_tol` and whose first Newton step norm is not below `x_tol`, `euler` returns
`EULER_SUCCESS` and the returned `xp` satisfies
`xp = x + (1 - alpha) ts f(t, x, u, p) + alpha ts f(t, xp, u + u_offset, p)` exactly. -/
theorem euler_affine_step (B : Backend R) (calloc_ok : Nat → Bool)
    (opt : euler_options R P D) (n : Nat) (A Winv : Nat → Nat → R)
    (c : R → UBuf R → P → D → Buf R) (xp : Buf R) (t : R) (x : Buf R) (u : UBuf R) (p : P)
    (data : D) (hN : opt.x_size = (n : Int))
    (hf : opt.f = ode_callback opt.x_size (affine_field n A c))
    (hdf : opt.df = ode_callback (opt.x_size * opt.x_size) (affine_jacobian opt.ordering n A))
    (ha : opt.alpha ≠ 0) (hmax : 0 ≤ opt.max_iter)
    (hint : opt.max_iter < LAPACK_INT_MAX) (hcol : opt.ordering = LAPACK_COL_MAJOR)
    (hsize : 2 * (n : Int) * (n : Int) ≤ LAPACK_INT_MAX)
    (h0 : calloc_ok 0 = true) (h1 : calloc_ok 1 = true) (h2 : calloc_ok 2 = true)
    (h3 : calloc_ok 3 = true)
    (hinv : ∀ i k, i < n → k < n →
      ∑ j in Finset.range n, Winv i j * theta_matrix opt.alpha opt.ts A j k
        = if i = k then 1 else 0)
    (hexact : ∀ a rhs : Buf R,
      (∀ i j, i < n → j < n →
        a (mat_index opt.ordering opt.x_size i j) = theta_matrix opt.alpha opt.ts A i j) →
      (B.dgels opt.ordering 'N' opt.x_size opt.x_size 1 a opt.x_size rhs opt.x_size).1 = 0 ∧
      ∀ i, i < n → ∑ j in Finset.range n, theta_matrix opt.alpha opt.ts A i j *
        (B.dgels opt.ordering 'N' opt.x_size opt.x_size 1 a opt.x_size rhs opt.x_size).2.2 j
          = rhs i)
    (hres : ¬ B.nrm2 ((euler_residual opt (affine_field n A c) t x u p x).firstN opt.x_size)
      < opt.s_tol)
    (hstep : ¬ cblas_dnrm2 B opt.x_size
        (newton_step B (euler_newton_opts opt) t u p
          (newton_init (euler_newton_opts opt) (cblas_dcopy opt.x_size x xp)
            (euler_pt opt x))) < opt.x_tol) :
    (euler B calloc_ok opt xp t x u p data).ret = EULER_SUCCESS ∧
    ∀ i, i < n → (euler B calloc_ok opt xp t x u p data).xp i
      = x i + (1 - opt.alpha) * opt.ts * affine_field n A c t x u p opt.data i
        + opt.alpha * opt.ts * affine_field n A c t (euler B calloc_ok opt xp t x u p data).xp
            (u.shift opt.u_offset) p opt.data i := by
  have hlt : ∀ i : Nat, i < n → (i : Int) < opt.x_size := by
    intro i hi; rw [hN]; exact_mod_cast hi
  have e : euler B calloc_ok opt xp t x u p data
      = { ret := if (euler_newton_call B calloc_ok opt xp t x u p).ret.val
                    > NEWTON_MAX_ITER.val then EULER_GENERIC else EULER_SUCCESS,
          xp := (euler_newton_call B calloc_ok opt xp t x u p).x,
          log := [euler_event.calloc_work_f, euler_event.calloc_work_df]
            ++ (euler_newton_call B calloc_ok opt xp t x u p).data.calls
            ++ [euler_event.free_work_f, euler_event.free_work_df],
          newton := some (euler_newton_call B calloc_ok opt xp t x u p) } := by
    simp only [euler, if_neg ha, h0, h1, Bool.not_true, Bool.false_eq_true, if_false]
  rw [e]
  dsimp only
  unfold euler_newton_call
  rw [newton_solve_of_calloc B _ _ t _ u p _ h2 h3]
  dsimp only
  rw [newton_run_eq]
  obtain ⟨m, hm⟩ : ∃ m, ((euler_newton_opts opt).max_iter + 1).toNat = m + 1 :=
    ⟨opt.max_iter.toNat, by show (opt.max_iter + 1).toNat = _; omega⟩
  rw [hm]
  generalize hs0 : newton_init (euler_newton_opts opt) (cblas_dcopy opt.x_size x xp)
    (euler_pt opt x) = s0 at hstep ⊢
  have hs0x : ∀ i, i < n → s0.x i = x i := by
    intro i hi
    rw [← hs0]
    show cblas_dcopy opt.x_size x xp i = x i
    simp only [cblas_dcopy, hlt i hi, if_true]
  have hs0c : s0.counts = 0 := by rw [← hs0]; rfl
  have hs0d : euler_pt_ok opt x s0.data := by rw [← hs0]; exact euler_pt_ok_init opt x
  have hg : s0.counts ≤ (euler_newton_opts opt).max_iter := by rw [hs0c]; exact hmax
  obtain ⟨hinfo, hsol, hnrm⟩ :=
    euler_affine_solve B opt n A c t x u p hN hf hdf hexact s0 hs0d
  have hres0 : ¬ cblas_dnrm2 B (euler_newton_opts opt).f_size
      ((euler_newton_opts opt).f s0.f t s0.x u p s0.data).1 < (euler_newton_opts opt).f_tol := by
    rw [hnrm]
    have : (euler_residual opt (affine_field n A c) t x u p s0.x).firstN opt.x_size
        = (euler_residual opt (affine_field n A c) t x u p x).firstN opt.x_size :=
      firstN_congr _ _ _ (fun i hi => euler_residual_affine_congr opt n A c t x u p x s0.x
        hs0x i (by rw [hN] at hi; exact_mod_cast hi))
    rw [this]
    exact hres
  rcases newton_body_cases B (euler_newton_opts opt) (newton_lda (euler_newton_opts opt))
    (newton_ldb (euler_newton_opts opt)) t u p s0 with h | h | h | h
  · exact absurd h.1 hres0
  · exact absurd hinfo h.2.1
  · exact absurd h.2.2.1 hstep
  · obtain ⟨_, _, _, hb, _, hx, _, hcnt, _⟩ := h
    rw [newton_loop_continue B _ _ _ t u p m s0 hg hb]
    have hx1 : ∀ i, i < n →
        (newton_body B (euler_newton_opts opt) (newton_lda (euler_newton_opts opt))
          (newton_ldb (euler_newton_opts opt)) t u p s0).1.x i
        = newton_step B (euler_newton_opts opt) t u p s0 i + s0.x i := by
      intro i hi
      rw [hx]
      unfold newton_step
      simp only [cblas_daxpy, show ((i : Nat) : Int) < (euler_newton_opts opt).x_size from
        hlt i hi, if_true]
      ring
    have hz1 : ∀ i, i < n → euler_residual opt (affine_field n A c) t x u p
        (newton_body B (euler_newton_opts opt) (newton_lda (euler_newton_opts opt))
          (newton_ldb (euler_newton_opts opt)) t u p s0).1.x i = 0 := by
      intro i hi
      rw [euler_residual_affine opt n A c t x u p s0.x _ _ hx1 i hi, hsol i hi]
      ring
    have hdata := newton_body_data B (euler_newton_opts opt)
      (newton_lda (euler_newton_opts opt)) (newton_ldb (euler_newton_opts opt)) t u p
      (euler_pt_ok opt x)
      (fun out X d hd => euler_pt_ok_function_wrapper opt x out t X u p d hd)
      (fun out X d hd => euler_pt_ok_jacobian_wrapper opt _ hdf x out t X u p d hd) s0 hs0d
    obtain ⟨hxl, hretl⟩ := euler_affine_loop B opt n A Winv c t x u p hN hf hdf hinv hexact m
      _ hdata hz1 (by
        rw [hcnt, hs0c]
        have : (opt.max_iter + 1).toNat = m + 1 := hm
        omega)
    generalize newton_loop B (euler_newton_opts opt) (newton_lda (euler_newton_opts opt))
      (newton_ldb (euler_newton_opts opt)) t u p m
      (newton_body B (euler_newton_opts opt) (newton_lda (euler_newton_opts opt))
        (newton_ldb (euler_newton_opts opt)) t u p s0).1 = sl at hxl hretl ⊢
    refine ⟨?_, ?_⟩
    · by_cases hmi : (euler_newton_opts opt).max_iter ≤ sl.counts
      · simp [hmi, newton_ret.val]
      · rw [if_neg hmi]
        rcases hretl with hr | hr | hr
        · simp [hr, newton_ret.val]
        · simp [hr, newton_ret.val]
        · exact absurd (le_of_lt hr) hmi
    · intro i hi
      have hzl : euler_residual opt (affine_field n A c) t x u p sl.x i = 0 := by
        rw [euler_residual_affine_congr opt n A c t x u p _ sl.x hxl i hi]
        exact hz1 i hi
      unfold euler_residual at hzl
      linear_combination -hzl


/-- An instance: the fully implicit step of `f = 2 x + u[0] + 4` from `x = 0` with next
input 2 lands on `xp = -6 = 0 + (2 * (-6) + 2 + 4)`. -/
theorem euler_affine_step_example :
    scalar_affine_options.alpha ≠ 0 ∧
    ¬ scalar_backend.nrm2 ((euler_residual scalar_affine_options
        (affine_field 1 (fun _ _ => 2) (fun _ u _ d _ => u 0 + d)) 0 (fun _ => 0)
        scalar_input () (fun _ => 0)).firstN scalar_affine_options.x_size)
      < scalar_affine_options.s_tol ∧
    (euler scalar_backend calloc_always scalar_affine_options calloc 0 (fun _ => 0)
      scalar_input () 100).xp 0 = -6 ∧
    (euler scalar_backend calloc_always scalar_affine_options calloc 0 (fun _ => 0)
      scalar_input () 100).ret = EULER_SUCCESS ∧
    ∀ i, i < 1 →
      (euler scalar_backend calloc_always scalar_affine_options calloc 0 (fun _ => 0)
        scalar_input () 100).xp i
      = (fun _ => (0 : Int)) i
        + (1 - scalar_affine_options.alpha) * scalar_affine_options.ts
          * affine_field 1 (fun _ _ => 2) (fun _ u _ d _ => u 0 + d) 0 (fun _ => 0)
              scalar_input () scalar_affine_options.data i
        + scalar_affine_options.alpha * scalar_affine_options.ts
          * affine_field 1 (fun _ _ => 2) (fun _ u _ d _ => u 0 + d) 0
              (euler scalar_backend calloc_always scalar_affine_options calloc 0 (fun _ => 0)
                scalar_input () 100).xp
              (scalar_input.shift scalar_affine_options.u_offset) ()
              scalar_affine_options.data i :=
  ⟨by decide, by decide, by decide,
    euler_affine_step scalar_backend calloc_always scalar_affine_options 1 (fun _ _ => 2)
      (fun _ _ => 1) (fun _ u _ d _ => u 0 + d) calloc 0 (fun _ => 0) scalar_input () 100
      rfl rfl rfl (by decide) (by decide) (by decide) rfl (by decide) rfl rfl rfl rfl
      (by
        intro i k hi hk
        obtain rfl : i = 0 := by omega
        obtain rfl : k = 0 := by omega
        decide)
      (by
        intro a rhs h
        have h00 : a 0 = 1 := h 0 0 (by decide) (by decide)
        refine ⟨?_, ?_⟩
        · simp [scalar_backend, h00]
        · intro i hi
          obtain rfl : i = 0 := by omega
          simp [scalar_backend, h00, theta_matrix, scalar_affine_options,
            affine_options])
      (by decide) (by decide)⟩

/-! ### Diagnostics and the last step -/

/-- C19 (counterexample). Two solves that compute no update step and leave the configured
step tolerance in `x_tol`: `x - 5 = 0` started at the root with step tolerance 7 stops on
the residual tolerance in its first pass (`x_tol` stays 7, no solve is made), and
`0 x = 5` stops in its first pass on a rank-deficient Jacobian (`x_tol` stays 1, no step
norm is taken). -/
theorem newton_step_diagnostic_counterexample :
    (newton_solve scalar_backend calloc_always
      (linear_options LAPACK_COL_MAJOR 1 (fun _ _ => 1) (fun _ => 5) 1 7 1 :
        newton_options Int Unit Unit) 0 (fun _ => 5) (fun _ => 0) () ()).ret = NEWTON_F_TOL ∧
    (newton_solve scalar_backend calloc_always
      (linear_options LAPACK_COL_MAJOR 1 (fun _ _ => 1) (fun _ => 5) 1 7 1 :
        newton_options Int Unit Unit) 0 (fun _ => 5) (fun _ => 0) () ()).x_tol = 7 ∧
    (newton_solve scalar_backend calloc_always
      (linear_options LAPACK_COL_MAJOR 1 (fun _ _ => 1) (fun _ => 5) 1 7 1 :
        newton_options Int Unit Unit) 0 (fun _ => 5) (fun _ => 0) () ()).log
      = [newton_event.calloc_f, newton_event.calloc_df, newton_event.eval_f,
         newton_event.free_f, newton_event.free_df] ∧
    (newton_solve scalar_backend calloc_always (scalar_linear_options 0 1) 0 (fun _ => 0)
      (fun _ => 0) () ()).ret = NEWTON_SINGULAR_JACOBIAN ∧
    (newton_solve scalar_backend calloc_always (scalar_linear_options 0 1) 0 (fun _ => 0)
      (fun _ => 0) () ()).x_tol = 1 ∧
    (newton_solve scalar_backend calloc_always (scalar_linear_options 0 1) 0 (fun _ => 0)
      (fun _ => 0) () ()).log
      = [newton_event.calloc_f, newton_event.calloc_df, newton_event.eval_f,
         newton_event.eval_df, newton_event.solve 1, newton_event.free_f,
         newton_event.free_df] := by
  decide

/-- C19 (amended). Step diagnostic: for every solve whose allocations succeed, if no
iteration got as far as a successful least-squares solve then `x_tol` is left at the
configured step tolerance, and otherwise `x_tol` is the 2-norm of the update step computed
by the last iteration whose least-squares solve succeeded. -/
theorem newton_step_diagnostic (B : Backend R) (calloc_ok : Nat → Bool)
    (opt : newton_options R P S) (t : R) (x : Buf R) (u : UBuf R) (p : P) (data : S)
    (h0 : calloc_ok 0 = true) (h1 : calloc_ok 1 = true) :
    ((∀ (j : Nat) (s : newton_state R S), newton_head B opt t x u p data j = some s →
        ¬ newton_pass_solves B opt t u p s) →
      (newton_solve B calloc_ok opt t x u p data).x_tol = opt.x_tol) ∧
    (∀ (j : Nat) (s : newton_state R S), newton_head B opt t x u p data j = some s →
      newton_pass_solves B opt t u p s →
      (∀ s1 : newton_state R S, newton_head B opt t x u p data (j + 1) = some s1 →
        ¬ newton_pass_solves B opt t u p s1) →
      (newton_solve B calloc_ok opt t x u p data).x_tol
        = cblas_dnrm2 B opt.x_size (newton_step B opt t u p s)) := by
  -- a pass that runs without computing a step breaks and leaves `x_tol` alone
  have nostep : ∀ (m : Nat) (s : newton_state R S), s.counts ≤ opt.max_iter →
      ¬ newton_pass_solves B opt t u p s →
      (newton_loop B opt (newton_lda opt) (newton_ldb opt) t u p (m + 1) s).x_tol
        = s.x_tol := by
    intro m s hg hns
    rcases newton_body_cases B opt (newton_lda opt) (newton_ldb opt) t u p s with
      h | h | h | h
    · rw [newton_loop_break B opt _ _ t u p m s hg h.2.1]
      exact h.2.2.2.2.1
    · rw [newton_loop_break B opt _ _ t u p m s hg h.2.2.1]
      exact h.2.2.2.2.2.1
    · exact absurd ⟨hg, h.1, h.2.1⟩ hns
    · exact absurd ⟨hg, h.1, h.2.1⟩ hns
  rw [newton_solve_of_calloc B calloc_ok opt t x u p data h0 h1]
  dsimp only
  refine ⟨?_, ?_⟩
  · intro hnone
    by_cases hg : (newton_init opt x data).counts ≤ opt.max_iter
    · obtain ⟨m, hrun, _⟩ := newton_run_of_head B opt t x u p data 0
        (newton_init opt x data) rfl hg
      rw [hrun, nostep m _ hg (hnone 0 _ rfl)]
      rfl
    · rw [newton_run_eq, newton_loop_exit B opt _ _ t u p _ _ hg]
      rfl
  · intro j s hj hsolves hlast
    obtain ⟨hg, hres, hinfo⟩ := hsolves
    obtain ⟨m, hrun, hm⟩ := newton_run_of_head B opt t x u p data j s hj hg
    rw [hrun]
    rcases newton_body_cases B opt (newton_lda opt) (newton_ldb opt) t u p s with
      h | h | h | h
    · exact absurd h.1 hres
    · exact absurd hinfo h.2.1
    · rw [newton_loop_break B opt _ _ t u p m s hg h.2.2.2.1]
      exact h.2.2.2.2.2.2.1
    · obtain ⟨_, _, _, hb, _, _, hxt, hcnt, _⟩ := h
      rw [newton_loop_continue B opt _ _ t u p m s hg hb]
      have hnext : newton_head B opt t x u p data (j + 1)
          = some (newton_body B opt (newton_lda opt) (newton_ldb opt) t u p s).1 := by
        rw [newton_head_eq, newton_passes_succ]
        exact ⟨s, by rw [← newton_head_eq]; exact hj, hg, hb, rfl⟩
      have hns := hlast _ hnext
      by_cases hg1 : (newton_body B opt (newton_lda opt) (newton_ldb opt) t u p s).1.counts
          ≤ opt.max_iter
      · have hc := newton_head_counts B opt t x u p data j s hj
        obtain ⟨m1, hm1⟩ : ∃ m1, m = m1 + 1 := ⟨m - 1, by omega⟩
        rw [hm1, nostep m1 _ hg1 hns]
        exact hxt
      · rw [newton_loop_exit B opt _ _ t u p _ _ hg1]
        exact hxt


/-- Witness of C19: `x - 5 = 0` from `x = 0`; the first iteration computes the step 5,
the second stops on the residual tolerance, and `x_tol` is left at 5. -/
theorem newton_step_diagnostic_witness :
    calloc_always 0 = true ∧ calloc_always 1 = true ∧
    (newton_solve scalar_backend calloc_always (scalar_linear_options 1 2) 0 (fun _ => 0)
      (fun _ => 0) () ()).x_tol
      = cblas_dnrm2 scalar_backend (scalar_linear_options 1 2).x_size
          (newton_step scalar_backend (scalar_linear_options 1 2) 0 (fun _ => 0) ()
            (newton_init (scalar_linear_options 1 2) (fun _ => 0) ())) ∧
    (newton_solve scalar_backend calloc_always (scalar_linear_options 1 2) 0 (fun _ => 0)
      (fun _ => 0) () ()).x_tol = 5 :=
  ⟨rfl, rfl,
    (newton_step_diagnostic scalar_backend calloc_always (scalar_linear_options 1 2) 0
      (fun _ => 0) (fun _ => 0) () () rfl rfl).2 0
      (newton_init (scalar_linear_options 1 2) (fun _ => 0) ()) rfl
      (by unfold newton_pass_solves; decide)
      (by
        intro s1 h1
        have e : newton_head scalar_backend (scalar_linear_options 1 2) 0 (fun _ => 0)
            (fun _ => 0) () () (0 + 1)
            = some (newton_body scalar_backend (scalar_linear_options 1 2)
                (newton_lda (scalar_linear_options 1 2))
                (newton_ldb (scalar_linear_options 1 2)) 0 (fun _ => 0) ()
                (newton_init (scalar_linear_options 1 2) (fun _ => 0) ())).1 := by rfl
        rw [e] at h1
        cases h1
        intro h
        exact h.2.1 (by decide)),
    by decide⟩

/-- C11 (failing input). Residual diagnostic: the solve of `x^2 = 0` from `x = 4` with
`max_iter = 1` applies the steps `-2` and `-1`, returns `NEWTON_MAX_ITER` with `x = 1`,
where the residual has norm 1, and leaves 4 in `f_tol`: the norm of the residual at the
iterate 2, before the last update. -/
theorem newton_residual_diagnostic_stale :
    (newton_solve scalar_backend calloc_always (square_options 1) 0 (fun _ => 4)
      (fun _ => 0) () ()).ret = NEWTON_MAX_ITER ∧
    (newton_solve scalar_backend calloc_always (square_options 1) 0 (fun _ => 4)
      (fun _ => 0) () ()).x 0 = 1 ∧
    (newton_solve scalar_backend calloc_always (square_options 1) 0 (fun _ => 4)
      (fun _ => 0) () ()).f_tol = 4 ∧
    cblas_dnrm2 scalar_backend (square_options 1).f_size
      ((square_options 1).f calloc 0
        (newton_solve scalar_backend calloc_always (square_options 1) 0 (fun _ => 4)
          (fun _ => 0) () ()).x (fun _ => 0) () ()).1 = 1 ∧
    (newton_solve scalar_backend calloc_always (square_options 1) 0 (fun _ => 4)
      (fun _ => 0) () ()).log
      = [newton_event.calloc_f, newton_event.calloc_df,
         newton_event.eval_f, newton_event.eval_df, newton_event.solve 0,
         newton_event.step_norm, newton_event.update,
         newton_event.eval_f, newton_event.eval_df, newton_event.solve 0,
         newton_event.step_norm, newton_event.update,
         newton_event.free_f, newton_event.free_df] := by
  decide

/-- C15 (failing input). Stopping conditions: the solve of `x - 5 = 0` with both
tolerances 0 and `max_iter = 3`, started at the root, finds the residual norm 0 and the
step norm 0 in every pass, meets neither tolerance, runs four passes and returns
`NEWTON_MAX_ITER`. -/
theorem newton_zero_tolerance_not_met :
    cblas_dnrm2 scalar_backend 1
      ((linear_options LAPACK_COL_MAJOR 1 (fun _ _ => 1) (fun _ => 5) 0 0 3 :
        newton_options Int Unit Unit).f calloc 0 (fun _ => 5) (fun _ => 0) () ()).1 = 0 ∧
    (linear_options LAPACK_COL_MAJOR 1 (fun _ _ => 1) (fun _ => 5) 0 0 3 :
        newton_options Int Unit Unit).f_tol = 0 ∧
    (newton_solve scalar_backend calloc_always
      (linear_options LAPACK_COL_MAJOR 1 (fun _ _ => 1) (fun _ => 5) 0 0 3 :
        newton_options Int Unit Unit) 0 (fun _ => 5) (fun _ => 0) () ()).ret
      = NEWTON_MAX_ITER ∧
    (newton_solve scalar_backend calloc_always
      (linear_options LAPACK_COL_MAJOR 1 (fun _ _ => 1) (fun _ => 5) 0 0 3 :
        newton_options Int Unit Unit) 0 (fun _ => 5) (fun _ => 0) () ()).max_iter = 4 ∧
    (newton_solve scalar_backend calloc_always
      (linear_options LAPACK_COL_MAJOR 1 (fun _ _ => 1) (fun _ => 5) 0 0 3 :
        newton_options Int Unit Unit) 0 (fun _ => 5) (fun _ => 0) () ()).f_tol = 0 ∧
    (newton_solve scalar_backend calloc_always
      (linear_options LAPACK_COL_MAJOR 1 (fun _ _ => 1) (fun _ => 5) 0 0 3 :
        newton_options Int Unit Unit) 0 (fun _ => 5) (fun _ => 0) () ()).x_tol = 0 := by
  decide

/-- C17 (failing input). Leading dimension: for the row-major problem with one equation
and two unknowns the flattened Jacobian has stride 2, and `newton_solve` hands the
least-squares solve the leading dimension 1 (the probing backend reports it as the status
of the solve); the right-hand side has the leading dimension 2. -/
theorem newton_leading_dimension_row_major :
    jacobian_stride wide_options.ordering wide_options.f_size wide_options.x_size = 2 ∧
    newton_lda wide_options = 1 ∧
    newton_ldb wide_options = 2 ∧
    (newton_solve lda_probe_backend calloc_always wide_options 0 (fun _ => 0) (fun _ => 0)
      () ()).log
      = [newton_event.calloc_f, newton_event.calloc_df, newton_event.eval_f,
         newton_event.eval_df, newton_event.solve 1, newton_event.free_f,
         newton_event.free_df] := by
  decide

/-! ### Termination and the machine counter -/

/-- Below `LAPACK_INT_MAX` the machine counter never wraps: the loop with the counter in
`lapack_int` is the loop with the unbounded counter. -/
theorem newton_loop_wrapped_eq (B : Backend R) (opt : newton_options R P S) (lda ldb : Int)
    (t : R) (u : UBuf R) (p : P) (hmax : opt.max_iter < LAPACK_INT_MAX) (fuel : Nat)
    (s : newton_state R S) (hs : 0 ≤ s.counts) :
    newton_loop_wrapped B opt lda ldb t u p fuel s = newton_loop B opt lda ldb t u p fuel s := by
  induction fuel generalizing s with
  | zero => rfl
  | succ k ih =>
    by_cases hg : s.counts ≤ opt.max_iter
    swap
    · simp only [newton_loop_wrapped, newton_loop, hg, if_false]
    by_cases hb : (newton_body B opt lda ldb t u p s).2 = true
    · simp only [newton_loop_wrapped, newton_loop, hg, if_true, hb]
    · have hb2 : (newton_body B opt lda ldb t u p s).2 = false := by
        simpa using hb
      have hc := newton_body_counts B opt lda ldb t u p s hb2
      have hw : lapack_int_wrap (newton_body B opt lda ldb t u p s).1.counts
          = (newton_body B opt lda ldb t u p s).1.counts := by
        rw [hc]
        unfold lapack_int_wrap
        unfold LAPACK_INT_MAX at hmax
        omega
      simp only [newton_loop_wrapped, newton_loop, hg, if_true, hb2, Bool.false_eq_true,
        if_false, hw]
      exact ih _ (by rw [hc]; omega)

/-- The norm of `scalar_backend` is never negative. -/
theorem scalar_backend_nrm2_nonneg (n : Int) (X : Buf Int) :
    0 ≤ cblas_dnrm2 scalar_backend n X := by
  unfold cblas_dnrm2 scalar_backend
  apply List.sum_nonneg
  intro v hv
  simp only [List.mem_map] at hv
  obtain ⟨w, _, rfl⟩ := hv
  exact abs_nonneg w

/-- C12 (failing input). Termination: with `max_iter = LAPACK_INT_MAX`, both tolerances 0
and the problem `x - 5 = 0`, the guard `counts <= opt->max_iter` holds for every value of
the counter and no pass leaves the loop: whatever the number `fuel` of passes allowed, the
loop runs them all, each one logging its five events. -/
theorem newton_loop_wrapped_never_exits (x : Buf Int) (fuel : Nat) :
    (newton_loop_wrapped scalar_backend
      (linear_options LAPACK_COL_MAJOR 1 (fun _ _ => 1) (fun _ => 5) 0 0 LAPACK_INT_MAX :
        newton_options Int Unit Unit)
      (newton_lda (linear_options LAPACK_COL_MAJOR 1 (fun _ _ => 1) (fun _ => 5) 0 0
        LAPACK_INT_MAX : newton_options Int Unit Unit))
      (newton_ldb (linear_options LAPACK_COL_MAJOR 1 (fun _ _ => 1) (fun _ => 5) 0 0
        LAPACK_INT_MAX : newton_options Int Unit Unit))
      0 (fun _ => 0) () fuel
      (newton_init (linear_options LAPACK_COL_MAJOR 1 (fun _ _ => 1) (fun _ => 5) 0 0
        LAPACK_INT_MAX : newton_options Int Unit Unit) x ())).log.length
      = 2 + 5 * fuel := by
  set opt : newton_options Int Unit Unit :=
    linear_options LAPACK_COL_MAJOR 1 (fun _ _ => 1) (fun _ => 5) 0 0 LAPACK_INT_MAX with hopt
  have key : ∀ (k : Nat) (s : newton_state Int Unit), s.counts ≤ LAPACK_INT_MAX →
      (newton_loop_wrapped scalar_backend opt (newton_lda opt) (newton_ldb opt) 0
        (fun _ => 0) () k s).log.length = s.log.length + 5 * k := by
    intro k
    induction k with
    | zero => intro s _; rfl
    | succ k ih =>
      intro s hs
      have hg : s.counts ≤ opt.max_iter := hs
      have h1 : ¬ cblas_dnrm2 scalar_backend opt.f_size
          (opt.f s.f 0 s.x (fun _ => 0) () s.data).1 < opt.f_tol :=
        not_lt.mpr (scalar_backend_nrm2_nonneg _ _)
      have h2 : (scalar_backend.dgels opt.ordering 'N' opt.f_size opt.x_size 1
          (opt.df s.df 0 s.x (fun _ => 0) () (opt.f s.f 0 s.x (fun _ => 0) () s.data).2).1
          (newton_lda opt)
          (cblas_dscal opt.f_size (-1) (opt.f s.f 0 s.x (fun _ => 0) () s.data).1)
          (newton_ldb opt)).1 = 0 := by
        simp [hopt, scalar_backend, linear_options, linear_jacobian]
      have h3 : ¬ cblas_dnrm2 scalar_backend opt.x_size
          (scalar_backend.dgels opt.ordering 'N' opt.f_size opt.x_size 1
            (opt.df s.df 0 s.x (fun _ => 0) ()
              (opt.f s.f 0 s.x (fun _ => 0) () s.data).2).1
            (newton_lda opt)
            (cblas_dscal opt.f_size (-1) (opt.f s.f 0 s.x (fun _ => 0) () s.data).1)
            (newton_ldb opt)).2.2 < opt.x_tol :=
        not_lt.mpr (scalar_backend_nrm2_nonneg _ _)
      have hbody := newton_body_update scalar_backend opt (newton_lda opt) (newton_ldb opt)
        0 (fun _ => 0) () s h1 h2 h3
      have hb : (newton_body scalar_backend opt (newton_lda opt) (newton_ldb opt) 0
          (fun _ => 0) () s).2 = false := by rw [hbody]
      have hl : (newton_body scalar_backend opt (newton_lda opt) (newton_ldb opt) 0
          (fun _ => 0) () s).1.log.length = s.log.length + 5 := by
        rw [hbody]; simp
      have hstep : newton_loop_wrapped scalar_backend opt (newton_lda opt) (newton_ldb opt) 0
          (fun _ => 0) () (k + 1) s
          = newton_loop_wrapped scalar_backend opt (newton_lda opt) (newton_ldb opt) 0
              (fun _ => 0) () k
              { (newton_body scalar_backend opt (newton_lda opt) (newton_ldb opt) 0
                  (fun _ => 0) () s).1 with
                counts := lapack_int_wrap (newton_body scalar_backend opt (newton_lda opt)
                  (newton_ldb opt) 0 (fun _ => 0) () s).1.counts } := by
        simp only [newton_loop_wrapped, hg, if_true, hb, Bool.false_eq_true, if_false]
      rw [hstep, ih _ (by
        show lapack_int_wrap _ ≤ LAPACK_INT_MAX
        unfold lapack_int_wrap LAPACK_INT_MAX
        omega)]
      show (newton_body scalar_backend opt (newton_lda opt) (newton_ldb opt) 0
          (fun _ => 0) () s).1.log.length + 5 * k = _
      rw [hl]
      ring
  have := key fuel (newton_init opt x ()) (by
    show (0 : Int) ≤ LAPACK_INT_MAX
    decide)
  rw [this]
  show 2 + 5 * fuel = 2 + 5 * fuel
  rfl

/-! ### The recorded count and the return value -/

/-- Below `LAPACK_INT_MAX` the recorded count is the number of updates: for every solve
whose allocations succeed and whose `max_iter` is below `LAPACK_INT_MAX`, the value
written to `opt->max_iter` is the number of updates `x <- x + delta` that `newton_solve`
applied, and it is the number `k` of iterations that ran through to the update:
iteration number `k` is reached and no iteration number `k + 1` is. -/
theorem newton_count_is_updates (B : Backend R) (calloc_ok : Nat → Bool)
    (opt : newton_options R P S) (t : R) (x : Buf R) (u : UBuf R) (p : P) (data : S)
    (h0 : calloc_ok 0 = true) (h1 : calloc_ok 1 = true)
    (hint : opt.max_iter < LAPACK_INT_MAX) :
    (newton_solve B calloc_ok opt t x u p data).max_iter
      = (((newton_solve B calloc_ok opt t x u p data).log.count newton_event.update : Nat)
          : Int) ∧
    ∃ (k : Nat) (s : newton_state R S),
      (newton_solve B calloc_ok opt t x u p data).max_iter = (k : Int) ∧
      newton_head B opt t x u p data k = some s ∧
      newton_head B opt t x u p data (k + 1) = none := by
  rw [newton_solve_of_calloc B calloc_ok opt t x u p data h0 h1]
  dsimp only
  refine ⟨?_, ?_⟩
  · rw [newton_run_eq, newton_loop_updates B opt _ _ t u p _ _ (by simp [newton_init])]
    simp [List.count_append, List.count_cons]
  · obtain ⟨j, s1, h1, h2, h3⟩ := newton_loop_last_head B opt (newton_lda opt)
      (newton_ldb opt) t u p (opt.max_iter + 1).toNat (newton_init opt x data)
      (by simp [newton_init])
    refine ⟨j, s1, ?_, ?_, ?_⟩
    · rw [newton_run_eq, h3]
      simp [newton_init]
    · rw [newton_head_eq]
      exact h1
    · rw [newton_head_eq]
      exact h2

/-- An instance: `x - 5 = 0` from `x = 0` with `max_iter = 2`: one update, then the
residual tolerance is met; the recorded count is 1. -/
theorem newton_count_is_updates_example :
    (newton_solve scalar_backend calloc_always (scalar_linear_options 1 2) 0 (fun _ => 0)
      (fun _ => 0) () ()).max_iter = 1 ∧
    (newton_solve scalar_backend calloc_always (scalar_linear_options 1 2) 0 (fun _ => 0)
      (fun _ => 0) () ()).max_iter
      = (((newton_solve scalar_backend calloc_always (scalar_linear_options 1 2) 0
          (fun _ => 0) (fun _ => 0) () ()).log.count newton_event.update : Nat) : Int) ∧
    ∃ (k : Nat) (s : newton_state Int Unit),
      (newton_solve scalar_backend calloc_always (scalar_linear_options 1 2) 0 (fun _ => 0)
        (fun _ => 0) () ()).max_iter = (k : Int) ∧
      newton_head scalar_backend (scalar_linear_options 1 2) 0 (fun _ => 0) (fun _ => 0)
        () () k = some s ∧
      newton_head scalar_backend (scalar_linear_options 1 2) 0 (fun _ => 0) (fun _ => 0)
        () () (k + 1) = none :=
  ⟨by decide,
    newton_count_is_updates scalar_backend calloc_always (scalar_linear_options 1 2) 0
      (fun _ => 0) (fun _ => 0) () () rfl rfl (by decide)⟩

/-- Below `LAPACK_INT_MAX`, `NEWTON_MAX_ITER` overrides the exit reason: for every solve
whose allocations succeed and whose `max_iter` is below `LAPACK_INT_MAX`, if the number
of applied updates is at least the configured `max_iter` then
`newton_solve` returns `NEWTON_MAX_ITER`, whatever stopped the loop; with `max_iter = 0`
it returns `NEWTON_MAX_ITER` after at most one update; and an implicit step of `euler`
with `max_iter = 0` whose allocations succeed returns `EULER_SUCCESS` for every backend,
its solver having returned `NEWTON_MAX_ITER`. -/
theorem newton_max_iter_overrides (B : Backend R) (calloc_ok : Nat → Bool)
    (opt : newton_options R P S) (eopt : euler_options R P D) (xp : Buf R) (t : R)
    (x : Buf R) (u : UBuf R) (p : P) (data : S) (edata : D)
    (h0 : calloc_ok 0 = true) (h1 : calloc_ok 1 = true)
    (hint : opt.max_iter < LAPACK_INT_MAX) :
    (opt.max_iter ≤ (((newton_solve B calloc_ok opt t x u p data).log.count
        newton_event.update : Nat) : Int) →
      (newton_solve B calloc_ok opt t x u p data).ret = NEWTON_MAX_ITER) ∧
    (opt.max_iter = 0 →
      (newton_solve B calloc_ok opt t x u p data).ret = NEWTON_MAX_ITER ∧
      (newton_solve B calloc_ok opt t x u p data).log.count newton_event.update ≤ 1) ∧
    (eopt.alpha ≠ 0 → eopt.max_iter = 0 → calloc_ok 2 = true → calloc_ok 3 = true →
      (euler_newton_call B calloc_ok eopt xp t x u p).ret = NEWTON_MAX_ITER ∧
      (euler B calloc_ok eopt xp t x u p edata).ret = EULER_SUCCESS) := by
  have hcount : (newton_run B opt t x u p data).counts
      = (((newton_run B opt t x u p data).log.count newton_event.update : Nat) : Int) := by
    rw [newton_run_eq]
    exact newton_loop_updates B opt _ _ t u p _ _ (by simp [newton_init])
  have hlog : (newton_solve B calloc_ok opt t x u p data).log.count newton_event.update
      = (newton_run B opt t x u p data).log.count newton_event.update := by
    rw [newton_solve_of_calloc B calloc_ok opt t x u p data h0 h1]
    simp [List.count_append, List.count_cons]
  have hret : opt.max_iter ≤ (newton_run B opt t x u p data).counts →
      (newton_solve B calloc_ok opt t x u p data).ret = NEWTON_MAX_ITER := by
    intro h
    rw [newton_solve_of_calloc B calloc_ok opt t x u p data h0 h1]
    simp only [h, if_true]
  refine ⟨?_, ?_, ?_⟩
  · intro h
    rw [hlog, ← hcount] at h
    exact hret h
  · intro hz
    refine ⟨hret ?_, ?_⟩
    · rw [hcount, hz]
      exact Int.natCast_nonneg _
    · have hle := newton_solve_count_le B calloc_ok opt t x u p data h0 h1 (by omega)
      rw [newton_solve_of_calloc B calloc_ok opt t x u p data h0 h1] at hle
      dsimp only at hle
      rw [hlog]
      rw [hcount, hz] at hle
      omega
  · intro ha hz h2 h3
    have hnwt : (euler_newton_call B calloc_ok eopt xp t x u p).ret = NEWTON_MAX_ITER := by
      unfold euler_newton_call
      rw [newton_solve_of_calloc B _ _ t _ u p _ h2 h3]
      dsimp only
      have hc : (0 : Int) ≤ (newton_run B (euler_newton_opts eopt) t
          (cblas_dcopy eopt.x_size x xp) u p (euler_pt eopt x)).counts := by
        rw [newton_run_eq, newton_loop_updates B _ _ _ t u p _ _ (by simp [newton_init])]
        exact Int.natCast_nonneg _
      have hm : (euler_newton_opts eopt).max_iter = 0 := hz
      rw [hm, if_pos hc]
    refine ⟨hnwt, ?_⟩
    have e : euler B calloc_ok eopt xp t x u p edata
        = { ret := if (euler_newton_call B calloc_ok eopt xp t x u p).ret.val
                      > NEWTON_MAX_ITER.val then EULER_GENERIC else EULER_SUCCESS,
            xp := (euler_newton_call B calloc_ok eopt xp t x u p).x,
            log := [euler_event.calloc_work_f, euler_event.calloc_work_df]
              ++ (euler_newton_call B calloc_ok eopt xp t x u p).data.calls
              ++ [euler_event.free_work_f, euler_event.free_work_df],
            newton := some (euler_newton_call B calloc_ok eopt xp t x u p) } := by
      simp only [euler, if_neg ha, h0, h1, Bool.not_true, Bool.false_eq_true, if_false]
    rw [e]
    dsimp only
    rw [hnwt]
    simp

/-- An instance: with `max_iter = 0`, the solve of `0 x = 5` and the implicit step of
`f = x + u[0] + 4` with `alpha ts = 1` both meet a rank-deficient Jacobian in their first
pass (status 1 of the solve); the solver returns `NEWTON_MAX_ITER` and `euler` returns
`EULER_SUCCESS`. -/
theorem newton_max_iter_overrides_example :
    (scalar_linear_options 0 0).max_iter = 0 ∧
    singular_step_options.alpha ≠ 0 ∧ singular_step_options.max_iter = 0 ∧
    (newton_solve scalar_backend calloc_always (scalar_linear_options 0 0) 0 (fun _ => 0)
      scalar_input () ()).log
      = [newton_event.calloc_f, newton_event.calloc_df, newton_event.eval_f,
         newton_event.eval_df, newton_event.solve 1, newton_event.free_f,
         newton_event.free_df] ∧
    (euler_newton_call scalar_backend calloc_always singular_step_options calloc 0
      (fun _ => 0) scalar_input ()).log
      = [newton_event.calloc_f, newton_event.calloc_df, newton_event.eval_f,
         newton_event.eval_df, newton_event.solve 1, newton_event.free_f,
         newton_event.free_df] ∧
    ((newton_solve scalar_backend calloc_always (scalar_linear_options 0 0) 0 (fun _ => 0)
        scalar_input () ()).ret = NEWTON_MAX_ITER ∧
      (newton_solve scalar_backend calloc_always (scalar_linear_options 0 0) 0 (fun _ => 0)
        scalar_input () ()).log.count newton_event.update ≤ 1) ∧
    ((euler_newton_call scalar_backend calloc_always singular_step_options calloc 0
        (fun _ => 0) scalar_input ()).ret = NEWTON_MAX_ITER ∧
      (euler scalar_backend calloc_always singular_step_options calloc 0 (fun _ => 0)
        scalar_input () 100).ret = EULER_SUCCESS) :=
  ⟨rfl, by decide, rfl, by decide, by decide,
    (newton_max_iter_overrides scalar_backend calloc_always (scalar_linear_options 0 0)
      singular_step_options calloc 0 (fun _ => 0) scalar_input () () 100 rfl rfl
      (by decide)).2.1 rfl,
    (newton_max_iter_overrides scalar_backend calloc_always (scalar_linear_options 0 0)
      singular_step_options calloc 0 (fun _ => 0) scalar_input () () 100 rfl rfl
      (by decide)).2.2 (by decide) rfl rfl rfl⟩

/-- C23. `NEWTON_GENERIC_ERROR` is unreachable: the return value of `newton_solve` starts
as `NEWTON_GENERIC_ERROR`, and for every `newton_options` (any `max_iter`), callbacks,
backend and allocation outcome `newton_solve` does not return it; when its allocations
succeed it returns one of `NEWTON_F_TOL`, `NEWTON_X_TOL`, `NEWTON_MAX_ITER`,
`NEWTON_SINGULAR_JACOBIAN`, `NEWTON_ILLEGAL_JACOBIAN`. -/
theorem newton_generic_error_unreachable (B : Backend R) (calloc_ok : Nat → Bool)
    (opt : newton_options R P S) (t : R) (x : Buf R) (u : UBuf R) (p : P) (data : S) :
    (newton_init opt x data).ret = NEWTON_GENERIC_ERROR ∧
    (newton_solve B calloc_ok opt t x u p data).ret ≠ NEWTON_GENERIC_ERROR ∧
    (calloc_ok 0 = true → calloc_ok 1 = true →
      (newton_solve B calloc_ok opt t x u p data).ret = NEWTON_F_TOL ∨
      (newton_solve B calloc_ok opt t x u p data).ret = NEWTON_X_TOL ∨
      (newton_solve B calloc_ok opt t x u p data).ret = NEWTON_MAX_ITER ∨
      (newton_solve B calloc_ok opt t x u p data).ret = NEWTON_SINGULAR_JACOBIAN ∨
      (newton_solve B calloc_ok opt t x u p data).ret = NEWTON_ILLEGAL_JACOBIAN) := by
  have five : calloc_ok 0 = true → calloc_ok 1 = true →
      (newton_solve B calloc_ok opt t x u p data).ret = NEWTON_F_TOL ∨
      (newton_solve B calloc_ok opt t x u p data).ret = NEWTON_X_TOL ∨
      (newton_solve B calloc_ok opt t x u p data).ret = NEWTON_MAX_ITER ∨
      (newton_solve B calloc_ok opt t x u p data).ret = NEWTON_SINGULAR_JACOBIAN ∨
      (newton_solve B calloc_ok opt t x u p data).ret = NEWTON_ILLEGAL_JACOBIAN := by
    intro h0 h1
    rw [newton_solve_of_calloc B calloc_ok opt t x u p data h0 h1]
    dsimp only
    by_cases hmi : opt.max_iter ≤ (newton_run B opt t x u p data).counts
    · rw [if_pos hmi]
      exact Or.inr (Or.inr (Or.inl rfl))
    · rw [if_neg hmi]
      rw [newton_run_eq] at hmi ⊢
      rcases newton_loop_ret B opt (newton_lda opt) (newton_ldb opt) t u p
        (opt.max_iter + 1).toNat (newton_init opt x data) (by simp [newton_init]) with
        h | h | h | h | h
      · exact Or.inl h
      · exact Or.inr (Or.inl h)
      · exact Or.inr (Or.inr (Or.inr (Or.inl h)))
      · exact Or.inr (Or.inr (Or.inr (Or.inr h)))
      · exact absurd (le_of_lt h) hmi
  refine ⟨rfl, ?_, five⟩
  by_cases h0 : calloc_ok 0 = true
  swap
  · simp [newton_solve, h0]
  by_cases h1 : calloc_ok 1 = true
  swap
  · simp [newton_solve, h0, h1]
  rcases five h0 h1 with h | h | h | h | h <;> rw [h] <;> decide

/-- Witness of C23: with `max_iter = -3` the loop body never runs and `newton_solve`
returns `NEWTON_MAX_ITER`. -/
theorem newton_generic_error_unreachable_witness :
    (newton_solve scalar_backend calloc_always (scalar_linear_options 1 (-3)) 0 (fun _ => 0)
      (fun _ => 0) () ()).ret = NEWTON_MAX_ITER ∧
    (newton_solve scalar_backend calloc_always (scalar_linear_options 1 (-3)) 0 (fun _ => 0)
      (fun _ => 0) () ()).log
      = [newton_event.calloc_f, newton_event.calloc_df, newton_event.free_f,
         newton_event.free_df] ∧
    ((newton_solve scalar_backend calloc_always (scalar_linear_options 1 (-3)) 0
        (fun _ => 0) (fun _ => 0) () ()).ret = NEWTON_F_TOL ∨
      (newton_solve scalar_backend calloc_always (scalar_linear_options 1 (-3)) 0
        (fun _ => 0) (fun _ => 0) () ()).ret = NEWTON_X_TOL ∨
      (newton_solve scalar_backend calloc_always (scalar_linear_options 1 (-3)) 0
        (fun _ => 0) (fun _ => 0) () ()).ret = NEWTON_MAX_ITER ∨
      (newton_solve scalar_backend calloc_always (scalar_linear_options 1 (-3)) 0
        (fun _ => 0) (fun _ => 0) () ()).ret = NEWTON_SINGULAR_JACOBIAN ∨
      (newton_solve scalar_backend calloc_always (scalar_linear_options 1 (-3)) 0
        (fun _ => 0) (fun _ => 0) () ()).ret = NEWTON_ILLEGAL_JACOBIAN) :=
  ⟨by decide, by decide,
    (newton_generic_error_unreachable scalar_backend calloc_always
      (scalar_linear_options 1 (-3)) 0 (fun _ => 0) (fun _ => 0) () ()).2.2 rfl rfl⟩

/-! ### The workspace indices as machine integers -/

/-- A value within the range of `lapack_int` is not changed by the reduction. -/
theorem lapack_int_wrap_of_range (z : Int) (h0 : 0 ≤ z) (h1 : z ≤ LAPACK_INT_MAX) :
    lapack_int_wrap z = z := by
  unfold lapack_int_wrap
  unfold LAPACK_INT_MAX at h1
  omega

/-- With `2 N^2` within `lapack_int`, the length of the Jacobian workspace and the indices
of the initialisation loop that `euler` computes in `lapack_int` are `2 N^2` and
`N^2 + i + i N`, the ones of `euler_init_work_df`. -/
theorem euler_machine_index_eq (N i : Nat) (hi : i < N)
    (hsize : 2 * (N : Int) * (N : Int) ≤ LAPACK_INT_MAX) :
    euler_work_df_len N = 2 * (N : Int) * (N : Int) ∧
    euler_identity_index N i = (N : Int) * (N : Int) + (i : Int) + (i : Int) * (N : Int) := by
  have hN : (1 : Int) ≤ (N : Int) := by exact_mod_cast (by omega : 1 ≤ N)
  have hi0 : (0 : Int) ≤ (i : Int) := Int.natCast_nonneg i
  have hiN : (i : Int) + 1 ≤ (N : Int) := by exact_mod_cast hi
  have ha : (N : Int) ≤ (N : Int) * (N : Int) := by nlinarith
  have hb0 : 0 ≤ (i : Int) * (N : Int) := by positivity
  have hb : (i : Int) * (N : Int) + (N : Int) ≤ (N : Int) * (N : Int) := by nlinarith
  have hs : 2 * ((N : Int) * (N : Int)) ≤ LAPACK_INT_MAX := by
    rw [← mul_assoc]; exact hsize
  unfold euler_work_df_len euler_identity_index
  refine ⟨?_, ?_⟩
  · rw [lapack_int_wrap_of_range (2 * (N : Int)) (by linarith) (by linarith),
      lapack_int_wrap_of_range _ (by nlinarith) hsize]
  · rw [lapack_int_wrap_of_range ((N : Int) * (N : Int)) (by nlinarith) (by linarith),
      lapack_int_wrap_of_range ((N : Int) * (N : Int) + (i : Int)) (by linarith)
        (by linarith),
      lapack_int_wrap_of_range ((i : Int) * (N : Int)) hb0 (by linarith),
      lapack_int_wrap_of_range _ (by linarith) (by linarith)]

/-- At `x_size = 46341` the machine arithmetic overflows: the workspace gets 9266 entries
and the first write of the initialisation loop goes to the index `-2147479015`. -/
theorem euler_machine_index_overflow :
    euler_work_df_len 46341 = 9266 ∧ euler_identity_index 46341 0 = -2147479015 := by
  decide

/-! ### The solve with the machine counter -/

/-- Below `LAPACK_INT_MAX` the loop with the counter in `lapack_int` is left, with the
variables that the loop with the unbounded counter computes. -/
theorem newton_exit_wrapped_eq (B : Backend R) (opt : newton_options R P S) (lda ldb : Int)
    (t : R) (u : UBuf R) (p : P) (hmax : opt.max_iter < LAPACK_INT_MAX) (fuel : Nat)
    (s : newton_state R S) (hs : 0 ≤ s.counts)
    (hfuel : (opt.max_iter + 1 - s.counts).toNat < fuel) :
    newton_exit_wrapped B opt lda ldb t u p fuel s
      = some (newton_loop B opt lda ldb t u p fuel s) := by
  induction fuel generalizing s with
  | zero => omega
  | succ k ih =>
    by_cases hg : s.counts ≤ opt.max_iter
    swap
    · simp only [newton_exit_wrapped, newton_loop, hg, if_false]
    by_cases hb : (newton_body B opt lda ldb t u p s).2 = true
    · simp only [newton_exit_wrapped, newton_loop, hg, if_true, hb]
    · have hb2 : (newton_body B opt lda ldb t u p s).2 = false := by
        simpa using hb
      have hc := newton_body_counts B opt lda ldb t u p s hb2
      have hw : lapack_int_wrap (newton_body B opt lda ldb t u p s).1.counts
          = (newton_body B opt lda ldb t u p s).1.counts := by
        rw [hc]
        unfold lapack_int_wrap
        unfold LAPACK_INT_MAX at hmax
        omega
      simp only [newton_exit_wrapped, newton_loop, hg, if_true, hb2, Bool.false_eq_true,
        if_false, hw]
      exact ih _ (by rw [hc]; omega) (by rw [hc]; omega)

/-- For `max_iter` below `LAPACK_INT_MAX`, `newton_solve` with the counter in
`lapack_int` returns, and returns what `newton_solve` with the unbounded counter does. -/
theorem newton_solve_wrapped_eq (B : Backend R) (calloc_ok : Nat → Bool)
    (opt : newton_options R P S) (t : R) (x : Buf R) (u : UBuf R) (p : P) (data : S)
    (hmax : opt.max_iter < LAPACK_INT_MAX) (fuel : Nat)
    (hfuel : (opt.max_iter + 1).toNat < fuel) :
    newton_solve_wrapped B calloc_ok opt t x u p data fuel
      = some (newton_solve B calloc_ok opt t x u p data) := by
  unfold newton_solve_wrapped newton_solve
  by_cases h0 : calloc_ok 0 = true
  swap
  · simp [h0]
  by_cases h1 : calloc_ok 1 = true
  swap
  · simp [h0, h1]
  have hrun : newton_run B opt t x u p data
      = newton_loop B opt (newton_lda opt) (newton_ldb opt) t u p fuel
          (newton_init opt x data) := by
    rw [newton_run_eq]
    obtain ⟨e, he⟩ : ∃ e, fuel = (opt.max_iter + 1).toNat + e :=
      ⟨fuel - (opt.max_iter + 1).toNat, by omega⟩
    rw [he, newton_loop_fuel B opt _ _ t u p _ e _ (by simp [newton_init])]
  rw [newton_exit_wrapped_eq B opt _ _ t u p hmax fuel _ (by simp [newton_init])
    (by simpa [newton_init] using hfuel)]
  simp only [h0, h1, Bool.not_true, Bool.false_eq_true, if_false, Option.map_some', hrun]

/-- The norm of `scalar_backend` on one entry is its absolute value. -/
theorem scalar_backend_nrm2_one (X : Buf Int) : cblas_dnrm2 scalar_backend 1 X = |X 0| := by
  simp [cblas_dnrm2, scalar_backend, Buf.firstN, List.range_succ]

/-- The run of the counting problem with the largest `max_iter`: from `x = j` the loop
applies `K - j` updates, each of them wrapping the counter on, and then stops on the
residual tolerance. -/
theorem counting_run (K : Int) (n : Nat) :
    ∀ (fuel : Nat) (s : newton_state Int Unit) (j : Int) (m : Nat),
      s.x 0 = j → j + n = K → s.counts = lapack_int_wrap j →
      s.log.count newton_event.update = m → n < fuel →
      ∃ s1, newton_exit_wrapped scalar_backend (counting_options K LAPACK_INT_MAX)
          (newton_lda (counting_options K LAPACK_INT_MAX))
          (newton_ldb (counting_options K LAPACK_INT_MAX)) 0 (fun _ => 0) () fuel s = some s1 ∧
        s1.ret = NEWTON_F_TOL ∧ s1.counts = lapack_int_wrap K ∧
        s1.log.count newton_event.update = m + n ∧ s1.x 0 = K := by
  induction n with
  | zero =>
    intro fuel s j m hx hj hc hl hf
    obtain ⟨f, rfl⟩ : ∃ f, fuel = f + 1 := ⟨fuel - 1, by omega⟩
    have hjK : j = K := by simpa using hj
    have hg : s.counts ≤ (counting_options K LAPACK_INT_MAX).max_iter := by
      rw [hc]
      show lapack_int_wrap j ≤ LAPACK_INT_MAX
      unfold lapack_int_wrap LAPACK_INT_MAX
      omega
    have h1 : cblas_dnrm2 scalar_backend (counting_options K LAPACK_INT_MAX).f_size
        ((counting_options K LAPACK_INT_MAX).f s.f 0 s.x (fun _ => 0) () s.data).1
        < (counting_options K LAPACK_INT_MAX).f_tol := by
      simp [cblas_dnrm2, scalar_backend, Buf.firstN, counting_options, hx, hjK,
        List.range_succ]
    have hbody := newton_body_F_TOL scalar_backend (counting_options K LAPACK_INT_MAX)
      (newton_lda (counting_options K LAPACK_INT_MAX))
      (newton_ldb (counting_options K LAPACK_INT_MAX)) 0 (fun _ => 0) () s h1
    refine ⟨(newton_body scalar_backend (counting_options K LAPACK_INT_MAX)
      (newton_lda (counting_options K LAPACK_INT_MAX))
      (newton_ldb (counting_options K LAPACK_INT_MAX)) 0 (fun _ => 0) () s).1, ?_, ?_, ?_, ?_, ?_⟩
    · simp only [newton_exit_wrapped, hg, if_true, hbody]
    · rw [hbody]
    · rw [hbody]
      show s.counts = _
      rw [hc, hjK]
    · rw [hbody]
      simp [List.count_append, List.count_cons, hl]
    · rw [hbody]
      show s.x 0 = K
      rw [hx, hjK]
  | succ n ih =>
    intro fuel s j m hx hj hc hl hf
    obtain ⟨f, rfl⟩ : ∃ f, fuel = f + 1 := ⟨fuel - 1, by omega⟩
    have hjK : j < K := by push_cast at hj; omega
    have hg : s.counts ≤ (counting_options K LAPACK_INT_MAX).max_iter := by
      rw [hc]
      show lapack_int_wrap j ≤ LAPACK_INT_MAX
      unfold lapack_int_wrap LAPACK_INT_MAX
      omega
    have h1 : ¬ cblas_dnrm2 scalar_backend (counting_options K LAPACK_INT_MAX).f_size
        ((counting_options K LAPACK_INT_MAX).f s.f 0 s.x (fun _ => 0) () s.data).1
        < (counting_options K LAPACK_INT_MAX).f_tol := by
      simp [cblas_dnrm2, scalar_backend, Buf.firstN, counting_options, hx, hjK,
        List.range_succ]
    have h2 : (scalar_backend.dgels (counting_options K LAPACK_INT_MAX).ordering 'N'
        (counting_options K LAPACK_INT_MAX).f_size (counting_options K LAPACK_INT_MAX).x_size 1
        ((counting_options K LAPACK_INT_MAX).df s.df 0 s.x (fun _ => 0) ()
          ((counting_options K LAPACK_INT_MAX).f s.f 0 s.x (fun _ => 0) () s.data).2).1
        (newton_lda (counting_options K LAPACK_INT_MAX))
        (cblas_dscal (counting_options K LAPACK_INT_MAX).f_size (-1)
          ((counting_options K LAPACK_INT_MAX).f s.f 0 s.x (fun _ => 0) () s.data).1)
        (newton_ldb (counting_options K LAPACK_INT_MAX))).1 = 0 := by
      simp [scalar_backend, counting_options]
    have hstep : (scalar_backend.dgels (counting_options K LAPACK_INT_MAX).ordering 'N'
        (counting_options K LAPACK_INT_MAX).f_size (counting_options K LAPACK_INT_MAX).x_size 1
        ((counting_options K LAPACK_INT_MAX).df s.df 0 s.x (fun _ => 0) ()
          ((counting_options K LAPACK_INT_MAX).f s.f 0 s.x (fun _ => 0) () s.data).2).1
        (newton_lda (counting_options K LAPACK_INT_MAX))
        (cblas_dscal (counting_options K LAPACK_INT_MAX).f_size (-1)
          ((counting_options K LAPACK_INT_MAX).f s.f 0 s.x (fun _ => 0) () s.data).1)
        (newton_ldb (counting_options K LAPACK_INT_MAX))).2.2 0 = 1 := by
      simp [scalar_backend, counting_options, cblas_dscal, hx, hjK]
    have h3 : ¬ cblas_dnrm2 scalar_backend (counting_options K LAPACK_INT_MAX).x_size
        (scalar_backend.dgels (counting_options K LAPACK_INT_MAX).ordering 'N'
        (counting_options K LAPACK_INT_MAX).f_size (counting_options K LAPACK_INT_MAX).x_size 1
        ((counting_options K LAPACK_INT_MAX).df s.df 0 s.x (fun _ => 0) ()
          ((counting_options K LAPACK_INT_MAX).f s.f 0 s.x (fun _ => 0) () s.data).2).1
        (newton_lda (counting_options K LAPACK_INT_MAX))
        (cblas_dscal (counting_options K LAPACK_INT_MAX).f_size (-1)
          ((counting_options K LAPACK_INT_MAX).f s.f 0 s.x (fun _ => 0) () s.data).1)
        (newton_ldb (counting_options K LAPACK_INT_MAX))).2.2
        < (counting_options K LAPACK_INT_MAX).x_tol := by
      have e : cblas_dnrm2 scalar_backend (counting_options K LAPACK_INT_MAX).x_size
          (scalar_backend.dgels (counting_options K LAPACK_INT_MAX).ordering 'N'
          (counting_options K LAPACK_INT_MAX).f_size
          (counting_options K LAPACK_INT_MAX).x_size 1
          ((counting_options K LAPACK_INT_MAX).df s.df 0 s.x (fun _ => 0) ()
            ((counting_options K LAPACK_INT_MAX).f s.f 0 s.x (fun _ => 0) () s.data).2).1
          (newton_lda (counting_options K LAPACK_INT_MAX))
          (cblas_dscal (counting_options K LAPACK_INT_MAX).f_size (-1)
            ((counting_options K LAPACK_INT_MAX).f s.f 0 s.x (fun _ => 0) () s.data).1)
          (newton_ldb (counting_options K LAPACK_INT_MAX))).2.2 = 1 := by
        exact (scalar_backend_nrm2_one _).trans (by rw [hstep]; rfl)
      rw [e]
      simp [counting_options]
    have hbody := newton_body_update scalar_backend (counting_options K LAPACK_INT_MAX)
      (newton_lda (counting_options K LAPACK_INT_MAX))
      (newton_ldb (counting_options K LAPACK_INT_MAX)) 0 (fun _ => 0) () s h1 h2 h3
    have hb : (newton_body scalar_backend (counting_options K LAPACK_INT_MAX)
        (newton_lda (counting_options K LAPACK_INT_MAX))
        (newton_ldb (counting_options K LAPACK_INT_MAX)) 0 (fun _ => 0) () s).2 = false := by
      rw [hbody]
    have hx1 : (newton_body scalar_backend (counting_options K LAPACK_INT_MAX)
        (newton_lda (counting_options K LAPACK_INT_MAX))
        (newton_ldb (counting_options K LAPACK_INT_MAX)) 0 (fun _ => 0) () s).1.x 0 = j + 1 := by
      rw [hbody]
      show cblas_daxpy (counting_options K LAPACK_INT_MAX).x_size 1 _ s.x 0 = j + 1
      simp only [cblas_daxpy, hstep, hx]
      simp [counting_options]
      ring
    have hc1 : (newton_body scalar_backend (counting_options K LAPACK_INT_MAX)
        (newton_lda (counting_options K LAPACK_INT_MAX))
        (newton_ldb (counting_options K LAPACK_INT_MAX)) 0 (fun _ => 0) () s).1.counts
        = s.counts + 1 := by
      rw [hbody]
    have hl1 : (newton_body scalar_backend (counting_options K LAPACK_INT_MAX)
        (newton_lda (counting_options K LAPACK_INT_MAX))
        (newton_ldb (counting_options K LAPACK_INT_MAX)) 0 (fun _ => 0) () s).1.log.count
          newton_event.update = m + 1 := by
      rw [hbody]
      simp [List.count_append, List.count_cons, hl]
    have hexit : newton_exit_wrapped scalar_backend (counting_options K LAPACK_INT_MAX)
        (newton_lda (counting_options K LAPACK_INT_MAX))
        (newton_ldb (counting_options K LAPACK_INT_MAX)) 0 (fun _ => 0) () (f + 1) s
        = newton_exit_wrapped scalar_backend (counting_options K LAPACK_INT_MAX)
            (newton_lda (counting_options K LAPACK_INT_MAX))
            (newton_ldb (counting_options K LAPACK_INT_MAX)) 0 (fun _ => 0) () f
            { (newton_body scalar_backend (counting_options K LAPACK_INT_MAX)
                (newton_lda (counting_options K LAPACK_INT_MAX))
                (newton_ldb (counting_options K LAPACK_INT_MAX)) 0 (fun _ => 0) () s).1 with
              counts := lapack_int_wrap (newton_body scalar_backend
                (counting_options K LAPACK_INT_MAX)
                (newton_lda (counting_options K LAPACK_INT_MAX))
                (newton_ldb (counting_options K LAPACK_INT_MAX)) 0 (fun _ => 0) () s).1.counts } := by
      simp only [newton_exit_wrapped, hg, if_true, hb, Bool.false_eq_true, if_false]
    rw [hexit]
    obtain ⟨s1, he, hr, hcs, hls, hxs⟩ := ih f
      { (newton_body scalar_backend (counting_options K LAPACK_INT_MAX)
          (newton_lda (counting_options K LAPACK_INT_MAX))
          (newton_ldb (counting_options K LAPACK_INT_MAX)) 0 (fun _ => 0) () s).1 with
        counts := lapack_int_wrap (newton_body scalar_backend
          (counting_options K LAPACK_INT_MAX)
          (newton_lda (counting_options K LAPACK_INT_MAX))
          (newton_ldb (counting_options K LAPACK_INT_MAX)) 0 (fun _ => 0) () s).1.counts }
      (j + 1) (m + 1) hx1
      (by push_cast at hj; omega)
      (by
        show lapack_int_wrap _ = lapack_int_wrap (j + 1)
        rw [hc1, hc]
        unfold lapack_int_wrap
        omega)
      hl1 (by omega)
    exact ⟨s1, he, hr, hcs, by rw [hls]; omega, hxs⟩


/-- The solve of the counting problem with `K = 2^31 + 5` and the largest `max_iter`,
given more than `K` passes: it returns `NEWTON_F_TOL` after `K` updates, with the wrapped
counter. -/
theorem counting_solve (e : Nat) :
    ∃ r, newton_solve_wrapped scalar_backend calloc_always
        (counting_options 2147483653 LAPACK_INT_MAX) 0 (fun _ => 0) (fun _ => 0) () ()
        (2147483654 + e) = some r ∧
      r.ret = NEWTON_F_TOL ∧ r.max_iter = -2147483643 ∧
      r.log.count newton_event.update = 2147483653 ∧ r.x 0 = 2147483653 := by
  obtain ⟨s1, he, hr, hc, hl, hx⟩ := counting_run 2147483653 2147483653 (2147483654 + e)
    (newton_init (counting_options 2147483653 LAPACK_INT_MAX) (fun _ => 0) ()) 0 0
    rfl (by norm_num) rfl rfl (by omega)
  have hc1 : s1.counts = -2147483643 := by
    rw [hc]
    unfold lapack_int_wrap
    norm_num
  have hsolve : newton_solve_wrapped scalar_backend calloc_always
      (counting_options 2147483653 LAPACK_INT_MAX) 0 (fun _ => 0) (fun _ => 0) () ()
      (2147483654 + e)
      = some { ret := if (counting_options 2147483653 LAPACK_INT_MAX).max_iter ≤ s1.counts
                 then NEWTON_MAX_ITER else s1.ret,
               x := s1.x, f_tol := s1.f_tol, x_tol := s1.x_tol, max_iter := s1.counts,
               data := s1.data,
               log := s1.log ++ [newton_event.free_f, newton_event.free_df] } := by
    unfold newton_solve_wrapped
    simp only [calloc_always, Bool.not_true, Bool.false_eq_true, if_false, he,
      Option.map_some']
  refine ⟨_, hsolve, ?_, hc1, ?_, hx⟩
  · show (if (counting_options 2147483653 LAPACK_INT_MAX).max_iter ≤ s1.counts
        then NEWTON_MAX_ITER else s1.ret) = NEWTON_F_TOL
    rw [hc1, hr]
    rfl
  · show (s1.log ++ [newton_event.free_f, newton_event.free_df]).count newton_event.update
      = 2147483653
    simp [List.count_append, List.count_cons, hl]

/-! ### The recorded count and the return value at the largest `max_iter` -/

/-- C21 (failing input). Recorded count: the solve of the counting problem (residual `-1`
below `K = 2147483653`, steps of 1, from `x = 0`) with `max_iter = 2147483647` returns
`NEWTON_F_TOL` at `x = K` after `K` updates, and the value it writes to `opt->max_iter`
is the wrapped counter `-2147483643`. -/
theorem newton_count_wraps (e : Nat) :
    ∃ r, newton_solve_wrapped scalar_backend calloc_always
        (counting_options 2147483653 LAPACK_INT_MAX) 0 (fun _ => 0) (fun _ => 0) () ()
        (2147483654 + e) = some r ∧
      r.log.count newton_event.update = 2147483653 ∧ r.x 0 = 2147483653 ∧
      r.max_iter = -2147483643 := by
  obtain ⟨r, h, _, hm, hl, hx⟩ := counting_solve e
  exact ⟨r, h, hl, hx, hm⟩

/-- C22 (failing input). `NEWTON_MAX_ITER` does not override: the solve of the counting
problem (residual `-1` below `K = 2147483653`, steps of 1, from `x = 0`) with
`max_iter = 2147483647` has applied `K >= max_iter` updates when its loop stops on the
residual tolerance, and returns `NEWTON_F_TOL`. -/
theorem newton_max_iter_not_reported (e : Nat) :
    ∃ r, newton_solve_wrapped scalar_backend calloc_always
        (counting_options 2147483653 LAPACK_INT_MAX) 0 (fun _ => 0) (fun _ => 0) () ()
        (2147483654 + e) = some r ∧
      (counting_options 2147483653 LAPACK_INT_MAX).max_iter
        ≤ ((r.log.count newton_event.update : Nat) : Int) ∧
      r.ret = NEWTON_F_TOL := by
  obtain ⟨r, h, hr, _, hl, _⟩ := counting_solve e
  refine ⟨r, h, ?_, hr⟩
  rw [hl]
  decide

/-! ### The implicit step at the largest `max_iter` -/

/-- With both tolerances 0 and the largest `max_iter`, no pass of the Newton loop of the
implicit step of `endless_step_options` leaves the loop. -/
theorem endless_step_loop (x : Buf Int) (u : UBuf Int) (fuel : Nat) :
    ∀ s : newton_state Int (euler_passthrough Int Unit Int),
      euler_pt_ok endless_step_options x s.data → s.counts ≤ LAPACK_INT_MAX →
      newton_exit_wrapped scalar_backend (euler_newton_opts endless_step_options)
        (newton_lda (euler_newton_opts endless_step_options))
        (newton_ldb (euler_newton_opts endless_step_options)) 0 u () fuel s = none := by
  induction fuel with
  | zero => intro s _ _; rfl
  | succ k ih =>
    intro s hs hc
    have hg : s.counts ≤ (euler_newton_opts endless_step_options).max_iter := hc
    have h1 : ¬ cblas_dnrm2 scalar_backend (euler_newton_opts endless_step_options).f_size
        ((euler_newton_opts endless_step_options).f s.f 0 s.x u () s.data).1
        < (euler_newton_opts endless_step_options).f_tol :=
      not_lt.mpr (scalar_backend_nrm2_nonneg _ _)
    have h2 := (euler_affine_solve scalar_backend endless_step_options 1 (fun _ _ => 2)
      (fun _ u _ d _ => u 0 + d) 0 x u () rfl rfl rfl
      (by
        intro a rhs h
        have h00 : a 0 = 1 := h 0 0 (by decide) (by decide)
        refine ⟨?_, ?_⟩
        · simp [scalar_backend, h00]
        · intro i hi
          obtain rfl : i = 0 := by omega
          simp [scalar_backend, h00, theta_matrix, endless_step_options, affine_options])
      s hs).1
    have h3 : ¬ cblas_dnrm2 scalar_backend (euler_newton_opts endless_step_options).x_size
        (scalar_backend.dgels (euler_newton_opts endless_step_options).ordering 'N'
          (euler_newton_opts endless_step_options).f_size
          (euler_newton_opts endless_step_options).x_size 1
          ((euler_newton_opts endless_step_options).df s.df 0 s.x u ()
            ((euler_newton_opts endless_step_options).f s.f 0 s.x u () s.data).2).1
          (newton_lda (euler_newton_opts endless_step_options))
          (cblas_dscal (euler_newton_opts endless_step_options).f_size (-1)
            ((euler_newton_opts endless_step_options).f s.f 0 s.x u () s.data).1)
          (newton_ldb (euler_newton_opts endless_step_options))).2.2
        < (euler_newton_opts endless_step_options).x_tol :=
      not_lt.mpr (scalar_backend_nrm2_nonneg _ _)
    have hbody := newton_body_update scalar_backend (euler_newton_opts endless_step_options)
      (newton_lda (euler_newton_opts endless_step_options))
      (newton_ldb (euler_newton_opts endless_step_options)) 0 u () s h1 h2 h3
    have hb : (newton_body scalar_backend (euler_newton_opts endless_step_options)
        (newton_lda (euler_newton_opts endless_step_options))
        (newton_ldb (euler_newton_opts endless_step_options)) 0 u () s).2 = false := by
      rw [hbody]
    have hdata := newton_body_data scalar_backend (euler_newton_opts endless_step_options)
      (newton_lda (euler_newton_opts endless_step_options))
      (newton_ldb (euler_newton_opts endless_step_options)) 0 u ()
      (euler_pt_ok endless_step_options x)
      (fun out X d hd => euler_pt_ok_function_wrapper endless_step_options x out 0 X u () d hd)
      (fun out X d hd => euler_pt_ok_jacobian_wrapper endless_step_options _ rfl x out 0 X
        u () d hd) s hs
    have hstep : newton_exit_wrapped scalar_backend (euler_newton_opts endless_step_options)
        (newton_lda (euler_newton_opts endless_step_options))
        (newton_ldb (euler_newton_opts endless_step_options)) 0 u () (k + 1) s
        = newton_exit_wrapped scalar_backend (euler_newton_opts endless_step_options)
            (newton_lda (euler_newton_opts endless_step_options))
            (newton_ldb (euler_newton_opts endless_step_options)) 0 u () k
            { (newton_body scalar_backend (euler_newton_opts endless_step_options)
                (newton_lda (euler_newton_opts endless_step_options))
                (newton_ldb (euler_newton_opts endless_step_options)) 0 u () s).1 with
              counts := lapack_int_wrap (newton_body scalar_backend
                (euler_newton_opts endless_step_options)
                (newton_lda (euler_newton_opts endless_step_options))
                (newton_ldb (euler_newton_opts endless_step_options)) 0 u () s).1.counts } := by
      simp only [newton_exit_wrapped, hg, if_true, hb, Bool.false_eq_true, if_false]
    rw [hstep]
    exact ih _ hdata (by
      show lapack_int_wrap _ ≤ LAPACK_INT_MAX
      unfold lapack_int_wrap LAPACK_INT_MAX
      omega)

/-- C18 (failing input). Theta-method step that does not return: the fully implicit step
of `f = 2 x + u[0] + 4` from `x = 0` with `ts = 1`, both tolerances 0 and
`max_iter = 2147483647` meets the conditions of the claim (`alpha ts A - I = 1`, exact
solve, initial residual norm 6 and first step norm 6 not below the tolerances), and the
`newton_solve` call of `euler` does not return, however many passes it is given. -/
theorem euler_affine_step_endless :
    endless_step_options.alpha = 1 ∧ endless_step_options.max_iter = 2147483647 ∧
    theta_matrix endless_step_options.alpha endless_step_options.ts (fun _ _ => 2) 0 0 = 1 ∧
    scalar_backend.nrm2 ((euler_residual endless_step_options
        (affine_field 1 (fun _ _ => 2) (fun _ u _ d _ => u 0 + d)) 0 (fun _ => 0)
        scalar_input () (fun _ => 0)).firstN endless_step_options.x_size) = 6 ∧
    cblas_dnrm2 scalar_backend endless_step_options.x_size
      (newton_step scalar_backend (euler_newton_opts endless_step_options) 0 scalar_input ()
        (newton_init (euler_newton_opts endless_step_options)
          (cblas_dcopy endless_step_options.x_size (fun _ => 0) calloc)
          (euler_pt endless_step_options (fun _ => 0)))) = 6 ∧
    ∀ fuel : Nat,
      newton_solve_wrapped scalar_backend (fun k => calloc_always (k + 2))
        (euler_newton_opts endless_step_options) 0
        (cblas_dcopy endless_step_options.x_size (fun _ => 0) calloc) scalar_input ()
        (euler_pt endless_step_options (fun _ => 0)) fuel = none := by
  refine ⟨rfl, rfl, by decide, by decide, by decide, ?_⟩
  intro fuel
  unfold newton_solve_wrapped
  simp only [calloc_always, Bool.not_true, Bool.false_eq_true, if_false]
  rw [endless_step_loop (fun _ => 0) scalar_input fuel _
    (euler_pt_ok_init endless_step_options (fun _ => 0)) (by decide)]
  rfl

/-! ### The Newton test problem over the reals -/

/-- A Newton step of `g(y) = y - exp(-y)` lands where `g` is not positive: the tangent of
the concave `g` lies above it. -/
theorem newton_test_step_sign (y d : Real) (hd : (1 + Real.exp (-y)) * d = -(y - Real.exp (-y))) :
    (y + d) - Real.exp (-(y + d)) ≤ 0 := by
  have h1 : Real.exp (-(y + d)) = Real.exp (-y) * Real.exp (-d) := by
    rw [← Real.exp_add]; congr 1; ring
  have h2 : -d + 1 ≤ Real.exp (-d) := Real.add_one_le_exp (-d)
  have h3 : 0 < Real.exp (-y) := Real.exp_pos _
  rw [h1]
  nlinarith [mul_le_mul_of_nonneg_left h2 h3.le]

/-- From a point `y >= 0` with `g(y) <= 0` a Newton step of `g(y) = y - exp(-y)` moves to
the right and at least halves `-g`. -/
theorem newton_test_step_half (y d : Real) (hy : 0 ≤ y) (hg : y - Real.exp (-y) ≤ 0)
    (hd : (1 + Real.exp (-y)) * d = -(y - Real.exp (-y))) :
    0 ≤ d ∧ Real.exp (-(y + d)) - (y + d) ≤ (Real.exp (-y) - y) / 2 := by
  have h3 : 0 < Real.exp (-y) := Real.exp_pos _
  have h4 : Real.exp (-y) ≤ 1 := by
    rw [Real.exp_le_one_iff]; linarith
  have hd0 : 0 ≤ d := by
    by_contra hneg
    push_neg at hneg
    nlinarith
  have h1 : Real.exp (-(y + d)) = Real.exp (-y) * Real.exp (-d) := by
    rw [← Real.exp_add]; congr 1; ring
  have h5 : Real.exp (-d) ≤ 1 := by
    rw [Real.exp_le_one_iff]; linarith
  refine ⟨hd0, ?_⟩
  rw [h1]
  nlinarith [mul_le_mul_of_nonneg_left h5 h3.le, mul_nonneg (sub_nonneg.mpr h4) hd0]


/-- A pass of the loop on the test problem at a point of the diagonal `x0 = x1 = y`, with
a backend that takes the 2-norm and solves two-by-two systems exactly: the residual is
`(g, g)` with `g = y - exp(-y)`, the solve succeeds, and the step is `(d, d)` with
`(1 + exp(-y)) d = -g`. -/
theorem newton_test_pass (B : Backend Real)
    (hnrm : ∀ a b : Real, B.nrm2 [a, b] = Real.sqrt (a ^ 2 + b ^ 2))
    (hsolve : ∀ a b : Buf Real, a 0 * a 3 - a 2 * a 1 ≠ 0 →
      (B.dgels LAPACK_COL_MAJOR 'N' 2 2 1 a 2 b 2).1 = 0 ∧
      a 0 * (B.dgels LAPACK_COL_MAJOR 'N' 2 2 1 a 2 b 2).2.2 0
        + a 2 * (B.dgels LAPACK_COL_MAJOR 'N' 2 2 1 a 2 b 2).2.2 1 = b 0 ∧
      a 1 * (B.dgels LAPACK_COL_MAJOR 'N' 2 2 1 a 2 b 2).2.2 0
        + a 3 * (B.dgels LAPACK_COL_MAJOR 'N' 2 2 1 a 2 b 2).2.2 1 = b 1)
    (O : newton_options Real Unit Unit) (hO : O = newton_test_options Real.exp)
    (u : UBuf Real) (s : newton_state Real Unit) (y : Real)
    (h0 : s.x 0 = y) (h1 : s.x 1 = y) :
    ∃ d : Real, (1 + Real.exp (-y)) * d = -(y - Real.exp (-y)) ∧
      (O.f s.f 0 s.x u () s.data).1 0 = y - Real.exp (-y) ∧
      (O.f s.f 0 s.x u () s.data).1 1 = y - Real.exp (-y) ∧
      cblas_dnrm2 B O.f_size (O.f s.f 0 s.x u () s.data).1
        = Real.sqrt ((y - Real.exp (-y)) ^ 2 + (y - Real.exp (-y)) ^ 2) ∧
      (B.dgels O.ordering 'N' O.f_size O.x_size 1
        (O.df s.df 0 s.x u () (O.f s.f 0 s.x u () s.data).2).1 (newton_lda O)
        (cblas_dscal O.f_size (-1) (O.f s.f 0 s.x u () s.data).1) (newton_ldb O)).1 = 0 ∧
      (B.dgels O.ordering 'N' O.f_size O.x_size 1
        (O.df s.df 0 s.x u () (O.f s.f 0 s.x u () s.data).2).1 (newton_lda O)
        (cblas_dscal O.f_size (-1) (O.f s.f 0 s.x u () s.data).1) (newton_ldb O)).2.2 0 = d ∧
      (B.dgels O.ordering 'N' O.f_size O.x_size 1
        (O.df s.df 0 s.x u () (O.f s.f 0 s.x u () s.data).2).1 (newton_lda O)
        (cblas_dscal O.f_size (-1) (O.f s.f 0 s.x u () s.data).1) (newton_ldb O)).2.2 1 = d ∧
      cblas_dnrm2 B O.x_size (B.dgels O.ordering 'N' O.f_size O.x_size 1
        (O.df s.df 0 s.x u () (O.f s.f 0 s.x u () s.data).2).1 (newton_lda O)
        (cblas_dscal O.f_size (-1) (O.f s.f 0 s.x u () s.data).1) (newton_ldb O)).2.2
        = Real.sqrt (d ^ 2 + d ^ 2) := by
  subst hO
  have he : 0 < Real.exp (-y) := Real.exp_pos _
  have hr0 : ((newton_test_options Real.exp : newton_options Real Unit Unit).f s.f 0 s.x u ()
      s.data).1 0 = y - Real.exp (-y) := by
    simp [newton_test_options, newton_test_function, h0, h1]
    ring
  have hr1 : ((newton_test_options Real.exp : newton_options Real Unit Unit).f s.f 0 s.x u ()
      s.data).1 1 = y - Real.exp (-y) := by
    simp [newton_test_options, newton_test_function, h0, h1]
    ring
  have hfirst : ∀ X : Buf Real, X.firstN 2 = [X 0, X 1] := fun X => rfl
  have hldb : newton_ldb (newton_test_options Real.exp : newton_options Real Unit Unit) = 2 := by
    simp [newton_ldb, newton_test_options]
  have hcall : ∀ (a b : Buf Real),
      B.dgels (newton_test_options Real.exp : newton_options Real Unit Unit).ordering 'N'
        (newton_test_options Real.exp : newton_options Real Unit Unit).f_size
        (newton_test_options Real.exp : newton_options Real Unit Unit).x_size 1 a
        (newton_lda (newton_test_options Real.exp : newton_options Real Unit Unit)) b
        (newton_ldb (newton_test_options Real.exp : newton_options Real Unit Unit))
      = B.dgels LAPACK_COL_MAJOR 'N' 2 2 1 a 2 b 2 := by
    intro a b
    rw [hldb]
    rfl
  rw [hcall]
  set A : Buf Real := ((newton_test_options Real.exp : newton_options Real Unit Unit).df s.df 0
    s.x u () ((newton_test_options Real.exp : newton_options Real Unit Unit).f s.f 0 s.x u ()
      s.data).2).1 with hA
  set b : Buf Real := cblas_dscal (newton_test_options Real.exp :
    newton_options Real Unit Unit).f_size (-1)
    ((newton_test_options Real.exp : newton_options Real Unit Unit).f s.f 0 s.x u ()
      s.data).1 with hb
  have hA0 : A 0 = 2 + Real.exp (-y) := by
    simp [hA, newton_test_options, newton_test_gradient, h0]
  have hA1 : A 1 = -1 := by
    simp [hA, newton_test_options, newton_test_gradient]
  have hA2 : A 2 = -1 := by
    simp [hA, newton_test_options, newton_test_gradient]
  have hA3 : A 3 = 2 + Real.exp (-y) := by
    simp [hA, newton_test_options, newton_test_gradient, h1]
  have hb0 : b 0 = -(y - Real.exp (-y)) := by
    have : b 0 = -1 * ((newton_test_options Real.exp : newton_options Real Unit Unit).f s.f 0
        s.x u () s.data).1 0 := by
      simp [hb, cblas_dscal, newton_test_options]
    rw [this, hr0]; ring
  have hb1 : b 1 = -(y - Real.exp (-y)) := by
    have : b 1 = -1 * ((newton_test_options Real.exp : newton_options Real Unit Unit).f s.f 0
        s.x u () s.data).1 1 := by
      simp [hb, cblas_dscal, newton_test_options]
    rw [this, hr1]; ring
  have hdet : A 0 * A 3 - A 2 * A 1 ≠ 0 := by
    rw [hA0, hA1, hA2, hA3]
    nlinarith
  obtain ⟨hinfo, e1, e2⟩ := hsolve A b hdet
  rw [hA0, hA2, hb0] at e1
  rw [hA1, hA3, hb1] at e2
  have heq : (B.dgels LAPACK_COL_MAJOR 'N' 2 2 1 A 2 b 2).2.2 0
      = (B.dgels LAPACK_COL_MAJOR 'N' 2 2 1 A 2 b 2).2.2 1 := by
    have : (3 + Real.exp (-y)) * ((B.dgels LAPACK_COL_MAJOR 'N' 2 2 1 A 2 b 2).2.2 0
        - (B.dgels LAPACK_COL_MAJOR 'N' 2 2 1 A 2 b 2).2.2 1) = 0 := by linarith
    rcases mul_eq_zero.mp this with h | h
    · linarith
    · linarith
  refine ⟨(B.dgels LAPACK_COL_MAJOR 'N' 2 2 1 A 2 b 2).2.2 0, ?_, hr0, hr1, ?_, hinfo, rfl,
    heq.symm, ?_⟩
  · rw [← heq] at e1
    linarith
  · unfold cblas_dnrm2
    rw [show (newton_test_options Real.exp : newton_options Real Unit Unit).f_size = 2 from rfl,
      hfirst, hnrm, hr0, hr1]
  · unfold cblas_dnrm2
    rw [show (newton_test_options Real.exp : newton_options Real Unit Unit).x_size = 2 from rfl,
      hfirst, hnrm, ← heq]


/-- The 2-norm of `(a, a)` bounds `|a|`. -/
theorem abs_le_sqrt_two_sq (a : Real) : |a| ≤ Real.sqrt (a ^ 2 + a ^ 2) :=
  Real.abs_le_sqrt (by nlinarith [sq_nonneg a])

/-- The loop on the test problem from a point `y >= 0` of the diagonal with
`0 <= exp(-y) - y <= 2^m / 2^41`: it stops on a tolerance within `m + 1` passes, at a
point of the diagonal where the residual components are below `1e-10`. -/
theorem newton_test_loop (B : Backend Real)
    (hnrm : ∀ a b : Real, B.nrm2 [a, b] = Real.sqrt (a ^ 2 + b ^ 2))
    (hsolve : ∀ a b : Buf Real, a 0 * a 3 - a 2 * a 1 ≠ 0 →
      (B.dgels LAPACK_COL_MAJOR 'N' 2 2 1 a 2 b 2).1 = 0 ∧
      a 0 * (B.dgels LAPACK_COL_MAJOR 'N' 2 2 1 a 2 b 2).2.2 0
        + a 2 * (B.dgels LAPACK_COL_MAJOR 'N' 2 2 1 a 2 b 2).2.2 1 = b 0 ∧
      a 1 * (B.dgels LAPACK_COL_MAJOR 'N' 2 2 1 a 2 b 2).2.2 0
        + a 3 * (B.dgels LAPACK_COL_MAJOR 'N' 2 2 1 a 2 b 2).2.2 1 = b 1)
    (O : newton_options Real Unit Unit) (hO : O = newton_test_options Real.exp)
    (u : UBuf Real) (m : Nat) :
    ∀ (fuel : Nat) (s : newton_state Real Unit) (y : Real),
      s.x 0 = y → s.x 1 = y → 0 ≤ y → y - Real.exp (-y) ≤ 0 →
      Real.exp (-y) - y ≤ 2 ^ m / 2 ^ 41 → s.counts + m ≤ 42 → m < fuel →
      ((newton_loop B O (newton_lda O) (newton_ldb O) 0 u () fuel s).ret = NEWTON_F_TOL ∨
        (newton_loop B O (newton_lda O) (newton_ldb O) 0 u () fuel s).ret = NEWTON_X_TOL) ∧
      (newton_loop B O (newton_lda O) (newton_ldb O) 0 u () fuel s).counts ≤ 42 ∧
      ∃ z : Real, (newton_loop B O (newton_lda O) (newton_ldb O) 0 u () fuel s).x 0 = z ∧
        (newton_loop B O (newton_lda O) (newton_ldb O) 0 u () fuel s).x 1 = z ∧
        |z - Real.exp (-z)| < 1 / 10 ^ 10 := by
  have hft : O.f_tol = 1 / 10 ^ 12 := by rw [hO]; rfl
  have hxt : O.x_tol = 1 / 10 ^ 12 := by rw [hO]; rfl
  have hmi : O.max_iter = 100 := by rw [hO]; rfl
  have hxs : O.x_size = 2 := by rw [hO]; rfl
  induction m with
  | zero =>
    intro fuel s y h0 h1 hy hg hh hc hf
    obtain ⟨k, rfl⟩ : ∃ k, fuel = k + 1 := ⟨fuel - 1, by omega⟩
    have hguard : s.counts ≤ O.max_iter := by rw [hmi]; omega
    obtain ⟨d, hd, hr0, hr1, hN, hI, hD0, hD1, hX⟩ :=
      newton_test_pass B hnrm hsolve O hO u s y h0 h1
    have hsmall : Real.sqrt ((y - Real.exp (-y)) ^ 2 + (y - Real.exp (-y)) ^ 2)
        < 1 / 10 ^ 12 := by
      rw [Real.sqrt_lt' (by norm_num)]
      have hb : Real.exp (-y) - y ≤ 1 / 2 ^ 41 := by simpa using hh
      have h2 : (y - Real.exp (-y)) ^ 2 ≤ (1 / 2 ^ 41) ^ 2 := by
        have : (y - Real.exp (-y)) ^ 2 = (Real.exp (-y) - y) ^ 2 := by ring
        rw [this]
        exact pow_le_pow_left₀ (by linarith) hb 2
      have h3 : (2 : Real) * (1 / 2 ^ 41) ^ 2 < (1 / 10 ^ 12) ^ 2 := by norm_num
      linarith
    rcases newton_body_cases B O (newton_lda O) (newton_ldb O) 0 u () s with c | c | c | c
    · rw [newton_loop_break B O _ _ 0 u () k s hguard c.2.1]
      refine ⟨Or.inl c.2.2.1, by rw [c.2.2.2.2.2.1]; omega, y, by rw [c.2.2.2.1]; exact h0,
        by rw [c.2.2.2.1]; exact h1, ?_⟩
      have := abs_le_sqrt_two_sq (y - Real.exp (-y))
      have h10 : (1 : Real) / 10 ^ 12 < 1 / 10 ^ 10 := by norm_num
      linarith
    · exact absurd (by rw [hN, hft]; exact hsmall) c.1
    · exact absurd (by rw [hN, hft]; exact hsmall) c.1
    · exact absurd (by rw [hN, hft]; exact hsmall) c.1
  | succ m ih =>
    intro fuel s y h0 h1 hy hg hh hc hf
    obtain ⟨k, rfl⟩ : ∃ k, fuel = k + 1 := ⟨fuel - 1, by omega⟩
    have hguard : s.counts ≤ O.max_iter := by rw [hmi]; omega
    obtain ⟨d, hd, hr0, hr1, hN, hI, hD0, hD1, hX⟩ :=
      newton_test_pass B hnrm hsolve O hO u s y h0 h1
    have he : 0 < Real.exp (-y) := Real.exp_pos _
    have he1 : Real.exp (-y) ≤ 1 := by rw [Real.exp_le_one_iff]; linarith
    have h10 : (1 : Real) / 10 ^ 12 < 1 / 10 ^ 10 := by norm_num
    rcases newton_body_cases B O (newton_lda O) (newton_ldb O) 0 u () s with c | c | c | c
    · rw [newton_loop_break B O _ _ 0 u () k s hguard c.2.1]
      refine ⟨Or.inl c.2.2.1, by rw [c.2.2.2.2.2.1]; omega, y, by rw [c.2.2.2.1]; exact h0,
        by rw [c.2.2.2.1]; exact h1, ?_⟩
      have h5 := c.1
      rw [hN, hft] at h5
      have := abs_le_sqrt_two_sq (y - Real.exp (-y))
      linarith
    · exact absurd hI c.2.1
    · rw [newton_loop_break B O _ _ 0 u () k s hguard c.2.2.2.1]
      refine ⟨Or.inr c.2.2.2.2.1, by rw [c.2.2.2.2.2.2.2.1]; omega, y,
        by rw [c.2.2.2.2.2.1]; exact h0, by rw [c.2.2.2.2.2.1]; exact h1, ?_⟩
      have h5 := c.2.2.1
      rw [hX, hxt] at h5
      have h6 := abs_le_sqrt_two_sq d
      have h7 : |y - Real.exp (-y)| = (1 + Real.exp (-y)) * |d| := by
        have : y - Real.exp (-y) = -((1 + Real.exp (-y)) * d) := by linarith
        rw [this, abs_neg, abs_mul, abs_of_pos (by linarith : 0 < 1 + Real.exp (-y))]
      rw [h7]
      have h8 : 0 ≤ |d| := abs_nonneg d
      have h9 : |d| < 1 / 10 ^ 12 := lt_of_le_of_lt h6 h5
      have h11 : (1 + Real.exp (-y)) * |d| ≤ 2 * |d| := by nlinarith
      have h12 : (2 : Real) * (1 / 10 ^ 12) < 1 / 10 ^ 10 := by norm_num
      linarith
    · obtain ⟨_, _, _, hb, _, hx, _, hcnt, _⟩ := c
      rw [newton_loop_continue B O _ _ 0 u () k s hguard hb]
      obtain ⟨hd0, hhalf⟩ := newton_test_step_half y d hy hg hd
      have hsign := newton_test_step_sign y d hd
      have hax0 : ∀ X : Buf Real, cblas_daxpy O.x_size 1 X s.x 0 = X 0 + s.x 0 := by
        intro X; simp [cblas_daxpy, hxs]
      have hax1 : ∀ X : Buf Real, cblas_daxpy O.x_size 1 X s.x 1 = X 1 + s.x 1 := by
        intro X; simp [cblas_daxpy, hxs]
      apply ih k _ (y + d)
      · rw [hx, hax0, hD0, h0]
        ring
      · rw [hx, hax1, hD1, h1]
        ring
      · linarith
      · exact hsign
      · have : (2 : Real) ^ (m + 1) / 2 ^ 41 / 2 = 2 ^ m / 2 ^ 41 := by
          rw [pow_succ]; ring
        linarith
      · rw [hcnt]; push_cast at hc ⊢; omega
      · omega


/-- On the diagonal `x0 = x1 = z` both residual components of the test problem are
`z - exp(-z)`. -/
theorem newton_test_residual_diag (O : newton_options Real Unit Unit)
    (hO : O = newton_test_options Real.exp) (out X : Buf Real) (u : UBuf Real) (z : Real)
    (h0 : X 0 = z) (h1 : X 1 = z) :
    (O.f out 0 X u () ()).1 0 = z - Real.exp (-z) ∧
    (O.f out 0 X u () ()).1 1 = z - Real.exp (-z) := by
  subst hO
  refine ⟨?_, ?_⟩
  · simp [newton_test_options, newton_test_function, h0, h1]
    ring
  · simp [newton_test_options, newton_test_function, h0, h1]
    ring

/-- C14. Newton test problem: `newton_solve` on `F(x) = (2 x0 - x1 - exp(-x0),
-x0 + 2 x1 - exp(-x1))` with its exact Jacobian, column-major, from the initial guess
`(10, 10)` with both tolerances `1e-12` and `max_iter = 100`, over the reals with a backend
that takes the 2-norm and solves two-by-two systems exactly and with allocations that
succeed, returns `NEWTON_F_TOL` or `NEWTON_X_TOL`, both residual components at the
returned `x` are within `1e-10` of zero, and the recorded iteration count is below 100. -/
theorem newton_test_converges (B : Backend Real) (calloc_ok : Nat → Bool) (x : Buf Real)
    (u : UBuf Real) (h0 : calloc_ok 0 = true) (h1 : calloc_ok 1 = true)
    (hx0 : x 0 = 10) (hx1 : x 1 = 10)
    (hnrm : ∀ a b : Real, B.nrm2 [a, b] = Real.sqrt (a ^ 2 + b ^ 2))
    (hsolve : ∀ a b : Buf Real, a 0 * a 3 - a 2 * a 1 ≠ 0 →
      (B.dgels LAPACK_COL_MAJOR 'N' 2 2 1 a 2 b 2).1 = 0 ∧
      a 0 * (B.dgels LAPACK_COL_MAJOR 'N' 2 2 1 a 2 b 2).2.2 0
        + a 2 * (B.dgels LAPACK_COL_MAJOR 'N' 2 2 1 a 2 b 2).2.2 1 = b 0 ∧
      a 1 * (B.dgels LAPACK_COL_MAJOR 'N' 2 2 1 a 2 b 2).2.2 0
        + a 3 * (B.dgels LAPACK_COL_MAJOR 'N' 2 2 1 a 2 b 2).2.2 1 = b 1) :
    ((newton_solve B calloc_ok (newton_test_options Real.exp : newton_options Real Unit Unit)
        0 x u () ()).ret = NEWTON_F_TOL ∨
      (newton_solve B calloc_ok (newton_test_options Real.exp : newton_options Real Unit Unit)
        0 x u () ()).ret = NEWTON_X_TOL) ∧
    |((newton_test_options Real.exp : newton_options Real Unit Unit).f calloc 0
        (newton_solve B calloc_ok
          (newton_test_options Real.exp : newton_options Real Unit Unit) 0 x u () ()).x
        u () ()).1 0| < 1 / 10 ^ 10 ∧
    |((newton_test_options Real.exp : newton_options Real Unit Unit).f calloc 0
        (newton_solve B calloc_ok
          (newton_test_options Real.exp : newton_options Real Unit Unit) 0 x u () ()).x
        u () ()).1 1| < 1 / 10 ^ 10 ∧
    (newton_solve B calloc_ok (newton_test_options Real.exp : newton_options Real Unit Unit)
      0 x u () ()).max_iter < 100 := by
  rw [newton_solve_of_calloc B calloc_ok _ 0 x u () () h0 h1]
  dsimp only
  rw [newton_run_eq]
  generalize hO : (newton_test_options Real.exp : newton_options Real Unit Unit) = O
  have hO' : O = newton_test_options Real.exp := hO.symm
  have hft : O.f_tol = 1 / 10 ^ 12 := by rw [hO']; rfl
  have hxt : O.x_tol = 1 / 10 ^ 12 := by rw [hO']; rfl
  have hmi : O.max_iter = 100 := by rw [hO']; rfl
  have hxs : O.x_size = 2 := by rw [hO']; rfl
  rw [show (O.max_iter + 1).toNat = 100 + 1 from by rw [hmi]; rfl]
  have hguard : (newton_init O x ()).counts ≤ O.max_iter := by
    rw [hmi]; show (0 : Int) ≤ 100; decide
  obtain ⟨d, hd, hr0, hr1, hN, hI, hD0, hD1, hX⟩ :=
    newton_test_pass B hnrm hsolve O hO' u (newton_init O x ()) 10 hx0 hx1
  have he : 0 < Real.exp (-10) := Real.exp_pos _
  have he1 : Real.exp (-10) ≤ 1 := by rw [Real.exp_le_one_iff]; norm_num
  have key : ((newton_loop B O (newton_lda O) (newton_ldb O) 0 u () (100 + 1)
        (newton_init O x ())).ret = NEWTON_F_TOL ∨
      (newton_loop B O (newton_lda O) (newton_ldb O) 0 u () (100 + 1)
        (newton_init O x ())).ret = NEWTON_X_TOL) ∧
      (newton_loop B O (newton_lda O) (newton_ldb O) 0 u () (100 + 1)
        (newton_init O x ())).counts ≤ 42 ∧
      ∃ z : Real, (newton_loop B O (newton_lda O) (newton_ldb O) 0 u () (100 + 1)
          (newton_init O x ())).x 0 = z ∧
        (newton_loop B O (newton_lda O) (newton_ldb O) 0 u () (100 + 1)
          (newton_init O x ())).x 1 = z ∧
        |z - Real.exp (-z)| < 1 / 10 ^ 10 := by
    rcases newton_body_cases B O (newton_lda O) (newton_ldb O) 0 u () (newton_init O x ())
      with c | c | c | c
    · exfalso
      have h5 := c.1
      rw [hN, hft] at h5
      have h6 := abs_le_sqrt_two_sq (10 - Real.exp (-10))
      rw [abs_of_pos (by linarith)] at h6
      have : (1 : Real) / 10 ^ 12 < 1 := by norm_num
      linarith
    · exact absurd hI c.2.1
    · exfalso
      have h5 := c.2.2.1
      rw [hX, hxt] at h5
      have h6 := abs_le_sqrt_two_sq d
      have h9 : |d| < 1 / 10 ^ 12 := lt_of_le_of_lt h6 h5
      have h7 : (1 + Real.exp (-10)) * |d| = 10 - Real.exp (-10) := by
        have : (1 + Real.exp (-10)) * |d| = |(1 + Real.exp (-10)) * d| := by
          rw [abs_mul, abs_of_pos (by linarith : 0 < 1 + Real.exp (-10))]
        rw [this, hd, abs_neg, abs_of_pos (by linarith)]
      have h8 : 0 ≤ |d| := abs_nonneg d
      have h10 : (1 : Real) / 10 ^ 12 < 1 := by norm_num
      nlinarith
    · obtain ⟨_, _, _, hb, _, hxn, _, hcnt, _⟩ := c
      rw [newton_loop_continue B O _ _ 0 u () 100 _ hguard hb]
      have hax0 : ∀ X : Buf Real,
          cblas_daxpy O.x_size 1 X (newton_init O x ()).x 0 = X 0 + (newton_init O x ()).x 0 := by
        intro X; simp [cblas_daxpy, hxs]
      have hax1 : ∀ X : Buf Real,
          cblas_daxpy O.x_size 1 X (newton_init O x ()).x 1 = X 1 + (newton_init O x ()).x 1 := by
        intro X; simp [cblas_daxpy, hxs]
      have hy1 : 0 ≤ 10 + d := by
        by_contra hneg
        push_neg at hneg
        nlinarith
      have hsign := newton_test_step_sign 10 d hd
      have hle1 : Real.exp (-(10 + d)) ≤ 1 := by rw [Real.exp_le_one_iff]; linarith
      apply newton_test_loop B hnrm hsolve O hO' u 41 100 _ (10 + d)
      · rw [hxn, hax0, hD0]
        show d + x 0 = 10 + d
        rw [hx0]; ring
      · rw [hxn, hax1, hD1]
        show d + x 1 = 10 + d
        rw [hx1]; ring
      · exact hy1
      · exact hsign
      · rw [div_self (by positivity)]
        linarith
      · rw [hcnt]
        show (0 : Int) + 1 + ((41 : Nat) : Int) ≤ 42
        norm_num
      · norm_num
  obtain ⟨hret, hcnt, z, hz0, hz1, hz⟩ := key
  have hnot : ¬ O.max_iter ≤ (newton_loop B O (newton_lda O) (newton_ldb O) 0 u () (100 + 1)
      (newton_init O x ())).counts := by
    rw [hmi]; omega
  rw [if_neg hnot]
  refine ⟨hret, ?_, ?_, by omega⟩
  · rw [(newton_test_residual_diag O hO' calloc _ u z hz0 hz1).1]
    exact hz
  · rw [(newton_test_residual_diag O hO' calloc _ u z hz0 hz1).2]
    exact hz

/-- Witness of C14: the test problem with the Cramer backend over the reals. -/
theorem newton_test_converges_witness :
    ((newton_solve (cramer_backend Real.sqrt) calloc_always
        (newton_test_options Real.exp : newton_options Real Unit Unit)
        0 (fun _ => 10) (fun _ => 0) () ()).ret = NEWTON_F_TOL ∨
      (newton_solve (cramer_backend Real.sqrt) calloc_always
        (newton_test_options Real.exp : newton_options Real Unit Unit)
        0 (fun _ => 10) (fun _ => 0) () ()).ret = NEWTON_X_TOL) ∧
    |((newton_test_options Real.exp : newton_options Real Unit Unit).f calloc 0
        (newton_solve (cramer_backend Real.sqrt) calloc_always
          (newton_test_options Real.exp : newton_options Real Unit Unit) 0 (fun _ => 10)
          (fun _ => 0) () ()).x (fun _ => 0) () ()).1 0| < 1 / 10 ^ 10 ∧
    |((newton_test_options Real.exp : newton_options Real Unit Unit).f calloc 0
        (newton_solve (cramer_backend Real.sqrt) calloc_always
          (newton_test_options Real.exp : newton_options Real Unit Unit) 0 (fun _ => 10)
          (fun _ => 0) () ()).x (fun _ => 0) () ()).1 1| < 1 / 10 ^ 10 ∧
    (newton_solve (cramer_backend Real.sqrt) calloc_always
      (newton_test_options Real.exp : newton_options Real Unit Unit)
      0 (fun _ => 10) (fun _ => 0) () ()).max_iter < 100 :=
  newton_test_converges (cramer_backend Real.sqrt) calloc_always (fun _ => 10) (fun _ => 0)
    rfl rfl rfl rfl
    (by
      intro a b
      simp [cramer_backend])
    (by
      intro a b hdet
      simp only [cramer_backend, if_neg hdet]
      refine ⟨trivial, ?_, ?_⟩
      · simp
        field_simp
        ring
      · simp
        field_simp
        ring)

end Results

end LibEuler
